import Mathlib

/-!
# etcdfinder: the versioned etcd client (pkg/etcd)

A shallow embedding of the two etcd backends of etcdfinder,
`pkg/etcd/etcdv3.go` (type `Client`) and `pkg/etcd/etcdv2.go` (type `ClientV2`):

* the gap-detecting `Watch` producer goroutine of both backends, as a total function from
  what the etcd server answers (the subscriptions it serves, and which case of the `select`
  around each send fires) to what the goroutine does (subscription requests, warnings,
  events sent on the event channel, errors sent on the error channel);
* `GetKeysWithPagination` of both backends, as a function of what the etcd client answers;
  the v3 server is a key-sorted finite map answering range reads (`etcdRange`), the v2 server
  answers with a node tree (`Node`), and the caller iterates the pages (`paginate`);
* the point operations `Get`, `Put`, `Delete` of both backends, which pass the state of etcd
  through the call of the etcd client library they make, and the two constructors; for the
  round trips etcd v3 is a key-value map (`KeySpace`) and etcd v2 a store of values and
  directories (`V2Store`);
* the key operations of the facade `DefaultEtcdfinder` (`internal/service/etcdfinder.go`),
  with the etcd client and the index as parameters and the calls made on the index as part
  of the result;
* `HTTPStatusFromErr` of `internal/customerrors`, for every order in which the status map
  may be visited;
* the v2 liveness probe `checkConnection`, as a function of the error the read of the
  sentinel key returns.

Definitions come first, the theorems follow; the theorems that settle a claim of the
specification carry the claim's number in their doc comment.

Machine integers are embedded as `Int`/`Nat` with explicit wrap-around: `int64` additions go
through `wrapInt64`, `uint64` additions are taken modulo `2 ^ 64`.
-/

set_option linter.unnecessarySeqFocus false

namespace Etcd

/-! ## Shared data -/

/-- WatchEvent of `pkg/etcd/etcdv3.go`: the record sent on the event channel by both backends.
The field `Type` of the source is called `Type_` here, `Type` being reserved. -/
structure WatchEvent where
  Type_ : String := ""
  Key : String := ""
  Value : String := ""
deriving DecidableEq, Repr

/-- KV of `pkg/common`: one record of a page. -/
structure KV where
  Key : String
  Value : String
deriving DecidableEq, Repr

/-- The two errors a watch producer sends on its error channel: the wrapped transport error
`watch error: %w` and the fail-fast error `exceeded max watch retries (%d) on ... %d`. -/
inductive WatchError (κ : Type)
  | watchError (cause : String)
  | exceededMaxWatchRetries (maxWatchRetries : Int) (expected : κ)
deriving DecidableEq, Repr

/-- What a watch producer does, in order. `ρ` is the type of a subscription request, `κ` the
type of the cursor.
* `subscribe req`: a subscription is opened (`c.client.Watch` / `c.client.Watcher`);
* `warn n x`: `logger.Warnf` reports consecutive failure number `n` on expected cursor `x`;
* `deliver k ev`: `eventCh <- ev` succeeded; `k` is the cursor of the etcd event `ev` was
  built from (the channel itself carries `ev` only);
* `fail e`: `errCh <- e`. -/
inductive Output (ρ κ : Type)
  | subscribe (req : ρ)
  | warn (count : Int) (expected : κ)
  | deliver (cursor : κ) (ev : WatchEvent)
  | fail (e : WatchError κ)
deriving DecidableEq, Repr

/-- How the body of a loop iteration ends: it falls through to the next iteration (`next`,
also Go's `continue`), leaves the loop (`brk`), or returns from the goroutine (`ret`). -/
inductive Ctl
  | next
  | brk
  | ret
deriving DecidableEq, Repr

/-- The result of running (a part of) a watch producer: what it did, the state it ended in, and
how it ended. -/
structure Run (ο σ γ : Type) where
  out : List ο
  st : σ
  ctl : γ
deriving Repr

/-- The cursors of the events sent on the event channel, in order. -/
def deliveredCursors {ρ κ : Type} : List (Output ρ κ) → List κ
  | [] => []
  | .deliver k _ :: os => k :: deliveredCursors os
  | _ :: os => deliveredCursors os

/-- The events sent on the event channel, in order. -/
def deliveredEvents {ρ κ : Type} : List (Output ρ κ) → List WatchEvent
  | [] => []
  | .deliver _ ev :: os => ev :: deliveredEvents os
  | _ :: os => deliveredEvents os

/-- The errors sent on the error channel, in order. -/
def emittedErrors {ρ κ : Type} : List (Output ρ κ) → List (WatchError κ)
  | [] => []
  | .fail e :: os => e :: emittedErrors os
  | _ :: os => emittedErrors os

/-- The subscription requests, in order. -/
def subscriptions {ρ κ : Type} : List (Output ρ κ) → List ρ
  | [] => []
  | .subscribe r :: os => r :: subscriptions os
  | _ :: os => subscriptions os

/-- Addition on `int64` wraps around: the value of an `int64` expression whose mathematical
value is `x`. -/
def wrapInt64 (x : Int) : Int := (x + 2 ^ 63) % 2 ^ 64 - 2 ^ 63

/-- Addition on `uint64` wraps around. -/
def wrapUint64 (x : Nat) : Nat := x % 2 ^ 64

/-! ## The v3 backend: `Watch` -/

/-- The `mvccpb.Event_EventType` of a v3 event: `PUT`, `DELETE`, or another `int32` value. -/
inductive EventType
  | PUT
  | DELETE
  | other (code : Int)
deriving DecidableEq, Repr

/-- A `clientv3.Event` as `Watch` reads it: `event.Type`, `event.Kv.Key`, `event.Kv.Value`,
`event.Kv.ModRevision`. The last field is not part of the etcd event: `ctxDone` tells which
case of the `select` around the send of this event fires, `true` for `<-ctx.Done()`. -/
structure Event where
  Type_ : EventType
  Key : String
  Value : String
  ModRevision : Int
  ctxDone : Bool := false
deriving DecidableEq, Repr

/-- A `clientv3.WatchResponse`: `Err` is the result of `watchResp.Err()`. -/
structure WatchResponse where
  Err : Option String := none
  Events : List Event
deriving DecidableEq, Repr

/-- The fields of `Client` (etcdv3.go) apart from the connection handle `client`. `Watch` and
`GetKeysWithPagination` read the first four; the mutable field `ExpectedModRevision` is part
of `WatchState` while the producer runs. `EtcdAuditPeriod` is a `time.Duration`, a number of
nanoseconds. -/
structure Client where
  rootPrefixEtcd : String
  numGetKeysLimit : Int
  maxWatchRetries : Int
  ExpectedModRevision : Int := -1
  watchEventChannelSize : Int := 0
  EtcdAuditPeriod : Int := 0
deriving DecidableEq, Repr

/-- The mutable state of the v3 watch producer: the client field `ExpectedModRevision` and
the two locals of the goroutine. -/
structure WatchState where
  ExpectedModRevision : Int
  watchRevisionDiscrepancy : Bool
  consecutiveFailureCount : Int
deriving DecidableEq, Repr

/-- The options of a v3 subscription: `some r` for `WithRev(r)`, `none` without it (the root
prefix and `WithPrefix()` are passed in both cases). -/
def Client.watchRequest (s : WatchState) : Option Int :=
  if s.watchRevisionDiscrepancy then some s.ExpectedModRevision else none

/-- The `WatchEvent` built from a v3 event (etcdv3.go, lines 150-160). -/
def Client.toWatchEvent (e : Event) : WatchEvent :=
  match e.Type_ with
  | .PUT => { Type_ := "PUT", Key := e.Key, Value := e.Value }
  | .DELETE => { Type_ := "DELETE", Key := e.Key }
  | .other _ => { Key := e.Key }

/-- Lines 126-128 of etcdv3.go: the first event observed sets the expected revision. -/
def Client.initExpected (s : WatchState) (e : Event) : WatchState :=
  if s.ExpectedModRevision = -1 then { s with ExpectedModRevision := e.ModRevision } else s

/-- Lines 134-143 of etcdv3.go: the branch taken when the revision of the event differs from
the expected one. -/
def Client.onMismatch (maxWatchRetries : Int) (s : WatchState) :
    Run (Output (Option Int) Int) WatchState Ctl :=
  let s2 : WatchState :=
    { s with consecutiveFailureCount := wrapInt64 (s.consecutiveFailureCount + 1) }
  if s2.consecutiveFailureCount ≥ maxWatchRetries then
    { out := [.warn s2.consecutiveFailureCount s2.ExpectedModRevision,
              .fail (.exceededMaxWatchRetries maxWatchRetries s2.ExpectedModRevision)],
      st := s2, ctl := .ret }
  else
    { out := [.warn s2.consecutiveFailureCount s2.ExpectedModRevision],
      st := { s2 with watchRevisionDiscrepancy := true }, ctl := .brk }

/-- Lines 146-166 of etcdv3.go: the event carries the expected revision. -/
def Client.onMatch (s : WatchState) (e : Event) :
    Run (Output (Option Int) Int) WatchState Ctl :=
  let s2 : WatchState :=
    { s with consecutiveFailureCount := 0,
             ExpectedModRevision := wrapInt64 (e.ModRevision + 1) }
  if e.ctxDone then
    { out := [], st := s2, ctl := .ret }
  else
    { out := [.deliver e.ModRevision (Client.toWatchEvent e)], st := s2, ctl := .next }

/-- The body of `for _, event := range watchResp.Events` (etcdv3.go, lines 124-167). -/
def Client.watchEvent (maxWatchRetries : Int) (s : WatchState) (e : Event) :
    Run (Output (Option Int) Int) WatchState Ctl :=
  if e.ModRevision ≠ (Client.initExpected s e).ExpectedModRevision then
    Client.onMismatch maxWatchRetries (Client.initExpected s e)
  else
    Client.onMatch (Client.initExpected s e) e

/-- The loop `for _, event := range watchResp.Events`: `next` when the loop ran to its end. -/
def Client.watchEvents (maxWatchRetries : Int) (s : WatchState) :
    List Event → Run (Output (Option Int) Int) WatchState Ctl
  | [] => { out := [], st := s, ctl := .next }
  | e :: es =>
    let r := Client.watchEvent maxWatchRetries s e
    if r.ctl = .next then
      let r2 := Client.watchEvents maxWatchRetries r.st es
      { out := r.out ++ r2.out, st := r2.st, ctl := r2.ctl }
    else r

/-- The loop `for watchResp := range watchChan` over one subscription (etcdv3.go, lines
118-172). The list is what the subscription channel carries before it is closed. The result
is `ret` when the goroutine returned, `brk` when the loop was left because of a discrepancy,
`next` when the channel was closed. -/
def Client.watchResponses (maxWatchRetries : Int) (s : WatchState) :
    List WatchResponse → Run (Output (Option Int) Int) WatchState Ctl
  | [] => { out := [], st := s, ctl := .next }
  | w :: ws =>
    match w.Err with
    | some cause => { out := [.fail (.watchError cause)], st := s, ctl := .ret }
    | none =>
      let r := Client.watchEvents maxWatchRetries s w.Events
      if r.ctl = .ret then r
      else if r.st.watchRevisionDiscrepancy then { r with ctl := .brk }
      else
        let r2 := Client.watchResponses maxWatchRetries r.st ws
        { out := r.out ++ r2.out, st := r2.st, ctl := r2.ctl }

/-- The outer `for` of the v3 producer (etcdv3.go, lines 103-173) run against the
subscriptions the server serves, in order: each one is the list of responses its channel
carries before it is closed. When the served subscriptions are used up the producer has
opened one more, on which it waits: the result is then `next` (still running); it is `ret`
when the goroutine returned and closed its channels. -/
def Client.watchLoop (maxWatchRetries : Int) (s : WatchState) :
    List (List WatchResponse) → Run (Output (Option Int) Int) WatchState Ctl
  | [] => { out := [.subscribe (Client.watchRequest s)], st := s, ctl := .next }
  | sub :: subs =>
    let r := Client.watchResponses maxWatchRetries s sub
    if r.ctl = .ret then
      { r with out := .subscribe (Client.watchRequest s) :: r.out }
    else
      let r2 := Client.watchLoop maxWatchRetries r.st subs
      { out := .subscribe (Client.watchRequest s) :: (r.out ++ r2.out),
        st := r2.st, ctl := r2.ctl }

/-- The goroutine of `Client.Watch`: the locals start as `false` and `0`, the expected revision
is the one stored in the client. -/
def Client.Watch (c : Client) (subs : List (List WatchResponse)) :
    Run (Output (Option Int) Int) WatchState Ctl :=
  Client.watchLoop c.maxWatchRetries
    { ExpectedModRevision := c.ExpectedModRevision,
      watchRevisionDiscrepancy := false,
      consecutiveFailureCount := 0 } subs

/-! ## The v2 backend: `Watch` -/

/-- An `*etcdv2.Node`: `nil`, or a node with the fields the client reads (`Key`, `Dir`,
`Value`, `ModifiedIndex`, `Nodes`). -/
inductive Node
  | nil
  | mk (Key : String) (Dir : Bool) (Value : String) (ModifiedIndex : Nat) (Nodes : List Node)
deriving Repr

/-- An `*etcdv2.Response` as `Watch` reads it: `resp.Action` and `resp.Node`. The last field
is not part of the etcd response: `ctxDone` tells which case of the `select` around the send
of this event fires, `true` for `<-ctx.Done()`. -/
structure Response where
  Action : String
  Node : Node
  ctxDone : Bool := false
deriving Repr

/-- The result of one `watcher.Next(ctx)`: a response, or an error together with whether
`ctx.Err() != nil` holds when it is inspected. -/
inductive NextResult
  | ok (resp : Response)
  | err (cause : String) (ctxErr : Bool)
deriving Repr

/-- The fields of `ClientV2` (etcdv2.go) apart from the connection handle `client`. `Watch`
and `GetKeysWithPagination` read the first four; the mutable field `ExpectedModIndex` is part
of `WatchStateV2` while the producer runs. `EtcdAuditPeriod` is a `time.Duration`, a number
of nanoseconds. -/
structure ClientV2 where
  rootPrefixEtcd : String
  numGetKeysLimit : Int
  maxWatchRetries : Int
  ExpectedModIndex : Nat := 0
  watchEventChannelSize : Int := 0
  EtcdAuditPeriod : Int := 0
  endpoints : List String := []
deriving DecidableEq, Repr

/-- The mutable state of the v2 watch producer: the client field `ExpectedModIndex` and the
two locals of the goroutine. -/
structure WatchStateV2 where
  ExpectedModIndex : Nat
  watchIndexDiscrepancy : Bool
  consecutiveFailureCount : Int
deriving DecidableEq, Repr

/-- The `AfterIndex` of the `WatcherOptions` of a v2 subscription (etcdv2.go, lines 116-122);
`0` is the zero value the options are created with. `Recursive` is always `true`. -/
def ClientV2.watchRequest (s : WatchStateV2) : Nat :=
  if s.watchIndexDiscrepancy ∧ s.ExpectedModIndex > 0 then s.ExpectedModIndex - 1 else 0

/-- The `switch resp.Action` of the v2 producer (etcdv2.go, lines 163-176): the event to send,
or `none` for the `default` case. -/
def ClientV2.toWatchEvent (action key value : String) : Option WatchEvent :=
  if action = "set" ∨ action = "create" ∨ action = "update" ∨ action = "compareAndSwap" then
    some { Type_ := "PUT", Key := key, Value := value }
  else if action = "delete" ∨ action = "expire" ∨ action = "compareAndDelete" then
    some { Type_ := "DELETE", Key := key }
  else
    none

/-- Lines 141-143 of etcdv2.go: the first event observed sets the expected index. -/
def ClientV2.initExpected (s : WatchStateV2) (modifiedIndex : Nat) : WatchStateV2 :=
  if s.ExpectedModIndex = 0 then { s with ExpectedModIndex := modifiedIndex } else s

/-- Lines 147-156 of etcdv2.go: the branch taken when the index of the node differs from the
expected one. -/
def ClientV2.onMismatch (maxWatchRetries : Int) (s : WatchStateV2) :
    Run (Output Nat Nat) WatchStateV2 Ctl :=
  let s2 : WatchStateV2 :=
    { s with consecutiveFailureCount := wrapInt64 (s.consecutiveFailureCount + 1) }
  if s2.consecutiveFailureCount ≥ maxWatchRetries then
    { out := [.warn s2.consecutiveFailureCount s2.ExpectedModIndex,
              .fail (.exceededMaxWatchRetries maxWatchRetries s2.ExpectedModIndex)],
      st := s2, ctl := .ret }
  else
    { out := [.warn s2.consecutiveFailureCount s2.ExpectedModIndex],
      st := { s2 with watchIndexDiscrepancy := true }, ctl := .brk }

/-- Lines 159-184 of etcdv2.go: the node carries the expected index. -/
def ClientV2.onMatch (s : WatchStateV2) (action key value : String) (modifiedIndex : Nat)
    (ctxDone : Bool) : Run (Output Nat Nat) WatchStateV2 Ctl :=
  let s2 : WatchStateV2 :=
    { s with consecutiveFailureCount := 0,
             ExpectedModIndex := wrapUint64 (modifiedIndex + 1) }
  match ClientV2.toWatchEvent action key value with
  | none => { out := [], st := s2, ctl := .next }
  | some watchEvent =>
    if ctxDone then
      { out := [], st := s2, ctl := .ret }
    else
      { out := [.deliver modifiedIndex watchEvent],
        st := { s2 with watchIndexDiscrepancy := false }, ctl := .next }

/-- The body of the inner `for` of the v2 producer after a successful `watcher.Next`
(etcdv2.go, lines 136-184). -/
def ClientV2.watchResponse (maxWatchRetries : Int) (s : WatchStateV2) (resp : Response) :
    Run (Output Nat Nat) WatchStateV2 Ctl :=
  match resp.Node with
  | .nil => { out := [], st := s, ctl := .next }
  | .mk key _ value modifiedIndex _ =>
    if modifiedIndex ≠ (ClientV2.initExpected s modifiedIndex).ExpectedModIndex then
      ClientV2.onMismatch maxWatchRetries (ClientV2.initExpected s modifiedIndex)
    else
      ClientV2.onMatch (ClientV2.initExpected s modifiedIndex) resp.Action key value
        modifiedIndex resp.ctxDone

/-- The inner `for` of the v2 producer over one watcher (etcdv2.go, lines 126-185). The list
is what the successive calls of `watcher.Next` return; when it is used up the producer waits
in `watcher.Next`: the result is then `next` (still running). It is `brk` when the loop was
left because of a discrepancy, `ret` when the goroutine returned. -/
def ClientV2.watchResponses (maxWatchRetries : Int) (s : WatchStateV2) :
    List NextResult → Run (Output Nat Nat) WatchStateV2 Ctl
  | [] => { out := [], st := s, ctl := .next }
  | .err cause ctxErr :: _ =>
    if ctxErr then { out := [], st := s, ctl := .ret }
    else { out := [.fail (.watchError cause)], st := s, ctl := .ret }
  | .ok resp :: rs =>
    let r := ClientV2.watchResponse maxWatchRetries s resp
    if r.ctl = .next then
      let r2 := ClientV2.watchResponses maxWatchRetries r.st rs
      { out := r.out ++ r2.out, st := r2.st, ctl := r2.ctl }
    else r

/-- The outer `for` of the v2 producer (etcdv2.go, lines 114-190) run against the watchers
the server serves, in order. The result is `next` when the producer is still running (waiting
in `watcher.Next`), `ret` when the goroutine ended and closed its channels. -/
def ClientV2.watchLoop (maxWatchRetries : Int) (s : WatchStateV2) :
    List (List NextResult) → Run (Output Nat Nat) WatchStateV2 Ctl
  | [] => { out := [.subscribe (ClientV2.watchRequest s)], st := s, ctl := .next }
  | sub :: subs =>
    let r := ClientV2.watchResponses maxWatchRetries s sub
    if r.ctl = .brk then
      if !r.st.watchIndexDiscrepancy then
        { out := .subscribe (ClientV2.watchRequest s) :: r.out, st := r.st, ctl := .ret }
      else
        let r2 := ClientV2.watchLoop maxWatchRetries r.st subs
        { out := .subscribe (ClientV2.watchRequest s) :: (r.out ++ r2.out),
          st := r2.st, ctl := r2.ctl }
    else
      { r with out := .subscribe (ClientV2.watchRequest s) :: r.out }

/-- The goroutine of `ClientV2.Watch`: the locals start as `false` and `0`, the expected index
is the one stored in the client. -/
def ClientV2.Watch (c : ClientV2) (subs : List (List NextResult)) :
    Run (Output Nat Nat) WatchStateV2 Ctl :=
  ClientV2.watchLoop c.maxWatchRetries
    { ExpectedModIndex := c.ExpectedModIndex,
      watchIndexDiscrepancy := false,
      consecutiveFailureCount := 0 } subs

/-! ## Predicates on the input and on the cursors delivered -/

/-- A revision the v3 server can assign: not negative, and below the largest `int64`, so that
the revision after it exists. -/
def ValidRevision (r : Int) : Prop := 0 ≤ r ∧ r < 2 ^ 63 - 1

instance (r : Int) : Decidable (ValidRevision r) := by
  unfold ValidRevision; infer_instance

/-- Every event of the served subscriptions carries a valid revision. -/
def ValidRevisions (subs : List (List WatchResponse)) : Prop :=
  ∀ sub ∈ subs, ∀ w ∈ sub, ∀ e ∈ w.Events, ValidRevision e.ModRevision

instance (subs : List (List WatchResponse)) : Decidable (ValidRevisions subs) := by
  unfold ValidRevisions; infer_instance

/-- The `ModifiedIndex` of a node (`0` for `nil`, which `Watch` never reads). -/
def Node.modifiedIndex : Node → Nat
  | .nil => 0
  | .mk _ _ _ i _ => i

/-- An index the v2 server can assign: below the largest `uint64`, so that the index after it
exists. -/
def ValidIndex (i : Nat) : Prop := i < 2 ^ 64 - 1

instance (i : Nat) : Decidable (ValidIndex i) := by
  unfold ValidIndex; infer_instance

/-- The responses among the results of `watcher.Next`. -/
def responsesOf : List NextResult → List Response
  | [] => []
  | .ok resp :: rs => resp :: responsesOf rs
  | .err _ _ :: rs => responsesOf rs

/-- Every node of the served watchers carries a valid index. -/
def ValidIndices (subs : List (List NextResult)) : Prop :=
  ∀ sub ∈ subs, ∀ resp ∈ responsesOf sub, ValidIndex resp.Node.modifiedIndex

instance (subs : List (List NextResult)) : Decidable (ValidIndices subs) := by
  unfold ValidIndices; infer_instance

/-- The action codes the `switch` of the v2 producer knows (etcdv2.go, lines 168 and 171). -/
def ClientV2.knownAction (action : String) : Prop :=
  action = "set" ∨ action = "create" ∨ action = "update" ∨ action = "compareAndSwap" ∨
  action = "delete" ∨ action = "expire" ∨ action = "compareAndDelete"

instance (action : String) : Decidable (ClientV2.knownAction action) := by
  unfold ClientV2.knownAction; infer_instance

/-- Every response of the served watchers carries a known action code. -/
def KnownActions (subs : List (List NextResult)) : Prop :=
  ∀ sub ∈ subs, ∀ resp ∈ responsesOf sub, ClientV2.knownAction resp.Action

instance (subs : List (List NextResult)) : Decidable (KnownActions subs) := by
  unfold KnownActions; infer_instance

/-- The relation `AcceptedFrom u x l y`: with expected cursor `x`, where `u` stands for
"uninitialized", the cursors `l` pass the check one after the other, each moving the expected
cursor to its successor, and leave the expected cursor `y`. -/
def AcceptedFrom {κ : Type} [Add κ] [One κ] (u : κ) : κ → List κ → κ → Prop
  | x, [], y => y = x
  | x, k :: ks, y => (x = u ∨ k = x) ∧ k + 1 ≠ u ∧ AcceptedFrom u (k + 1) ks y

/-- The relation `IncreasingFrom x l y`: the cursors `l` are at least `x`, each is above its
predecessor, and `y` is above the last of them. -/
def IncreasingFrom {κ : Type} [LE κ] [Add κ] [One κ] : κ → List κ → κ → Prop
  | x, [], y => x ≤ y
  | x, k :: ks, y => x ≤ k ∧ IncreasingFrom (k + 1) ks y

/-! ## What follows a gap detection -/

/-- What may follow, in the output of the v3 producer, the warning about a mismatch on expected
revision `x`: the fail-fast error on `x`, or a subscription opened with `WithRev(x)`. -/
def Client.followsGap (maxWatchRetries : Int) (a b : Output (Option Int) Int) : Prop :=
  ∀ n x, a = .warn n x →
    b = .fail (.exceededMaxWatchRetries maxWatchRetries x) ∨ b = .subscribe (some x)

/-- What may follow, in the output of the v2 producer, the warning about a mismatch on expected
index `x`: the fail-fast error on `x`, or a subscription opened with `AfterIndex = x - 1`,
where `x > 0`. -/
def ClientV2.followsGap (maxWatchRetries : Int) (a b : Output Nat Nat) : Prop :=
  ∀ n x, a = .warn n x →
    b = .fail (.exceededMaxWatchRetries maxWatchRetries x) ∨ (0 < x ∧ b = .subscribe (x - 1))

/-! ## The consecutive-failure counter, read off the output -/

/-- The value of the consecutive-failure counter after the output `o`, when it was `c` before:
a warning follows an increment, a delivery follows a reset. -/
def countAfter {ρ κ : Type} : Int → List (Output ρ κ) → Int
  | c, [] => c
  | c, .warn _ _ :: o => countAfter (c + 1) o
  | _, .deliver _ _ :: o => countAfter 0 o
  | c, _ :: o => countAfter c o

/-- Every warning of the output `o` carries the number of mismatches since the last delivery
(since the start, when there is none), `c` of them having occurred before `o`. -/
def Numbered {ρ κ : Type} : Int → List (Output ρ κ) → Prop
  | _, [] => True
  | c, .warn n _ :: o => n = c + 1 ∧ Numbered (c + 1) o
  | _, .deliver _ _ :: o => Numbered 0 o
  | c, _ :: o => Numbered c o

/-- The counter is not negative and below the retry bound: the state of a producer that goes
on running. -/
def CountInv (m c : Int) : Prop := 0 ≤ c ∧ c < m

/-- A stretch of output `o` after which the producer goes on, the counter going from `c` to
`c2`: the counter stays below the bound, every warning is numbered below the bound, and no
error is sent. -/
def RunsOn {ρ κ : Type} (m c : Int) (o : List (Output ρ κ)) (c2 : Int) : Prop :=
  CountInv m c → CountInv m c2 ∧ (∀ n x, Output.warn n x ∈ o → n < m) ∧
    (∀ e, Output.fail e ∉ o)

/-- A stretch of output `o` at the end of which the producer returns, the counter going from
`c` to `c2`: the counter and the warning numbers do not exceed the bound, the fail-fast error
is sent exactly when a warning is numbered `m`, an error is the last thing sent, and the
counter ends at the bound only after a warning numbered `m`. -/
def EndsOn {ρ κ : Type} (m c : Int) (o : List (Output ρ κ)) (c2 : Int) : Prop :=
  CountInv m c → 0 ≤ c2 ∧ c2 ≤ m ∧ (∀ n x, Output.warn n x ∈ o → n ≤ m) ∧
    ((∃ x, Output.fail (.exceededMaxWatchRetries m x) ∈ o) ↔ (∃ x, Output.warn m x ∈ o)) ∧
    (∀ e, Output.fail e ∈ o → o.getLast? = some (.fail e)) ∧
    (c2 = m → ∃ x, Output.warn m x ∈ o)

/-- A stretch of output `o` after which the producer goes on, the counter going from `c` to
`c2`: its warnings are numbered by the counter, and the output determines the counter. -/
def CountsOn {ρ κ : Type} (m c : Int) (o : List (Output ρ κ)) (c2 : Int) : Prop :=
  CountInv m c → CountInv m c2 ∧ Numbered c o ∧ c2 = countAfter c o

/-- A stretch of output `o` at the end of which the producer returns: its warnings are numbered
by the counter. -/
def CountsToEnd {ρ κ : Type} (m c : Int) (o : List (Output ρ κ)) : Prop :=
  CountInv m c → Numbered c o

/-! ## The events of a session -/

/-- The events a v3 subscription carries, response after response. -/
def eventsOfResponses : List WatchResponse → List Event
  | [] => []
  | w :: ws => w.Events ++ eventsOfResponses ws

/-- The events the v3 subscriptions of a session carry, subscription after subscription. -/
def eventsOfSubscriptions : List (List WatchResponse) → List Event
  | [] => []
  | sub :: subs => eventsOfResponses sub ++ eventsOfSubscriptions subs

/-- The key of a v2 node (empty for `nil`). -/
def Node.key : Node → String
  | .nil => ""
  | .mk k _ _ _ _ => k

/-- The value of a v2 node (empty for `nil`). -/
def Node.value : Node → String
  | .nil => ""
  | .mk _ _ v _ _ => v

/-- Whether a v2 node pointer is `nil`. -/
def Node.isNil : Node → Bool
  | .nil => true
  | .mk _ _ _ _ _ => false

/-- The cursors `n, n + 1, ..., n + k`. -/
def cursorsFrom {κ : Type} [Add κ] [One κ] : κ → Nat → List κ
  | n, 0 => [n]
  | n, k + 1 => n :: cursorsFrom (n + 1) k

/-- The change event of a v3 `PUT` or `DELETE` event: kind `PUT` with the key and the value,
or kind `DELETE` with the key. -/
def Client.changeEvent (e : Event) : WatchEvent :=
  if e.Type_ = .PUT then { Type_ := "PUT", Key := e.Key, Value := e.Value }
  else { Type_ := "DELETE", Key := e.Key, Value := "" }

/-- The change event of a v2 response with a known action code: kind `PUT` with the key and the
value of the node for `set`, `create`, `update` and `compareAndSwap`, kind `DELETE` with the
key of the node for `delete`, `expire` and `compareAndDelete`. -/
def ClientV2.changeEvent (resp : Response) : WatchEvent :=
  if resp.Action = "set" ∨ resp.Action = "create" ∨ resp.Action = "update" ∨
      resp.Action = "compareAndSwap" then
    { Type_ := "PUT", Key := resp.Node.key, Value := resp.Node.value }
  else { Type_ := "DELETE", Key := resp.Node.key, Value := "" }

/-! ## Example sessions (the scenarios of the specification) -/

/-- A v3 client with `maxWatchRetries = 3`, fresh. -/
def exampleClient : Client :=
  { rootPrefixEtcd := "/", numGetKeysLimit := 2, maxWatchRetries := 3 }

/-- A v2 client with `maxWatchRetries = 3`, fresh. -/
def exampleClientV2 : ClientV2 :=
  { rootPrefixEtcd := "/", numGetKeysLimit := 2, maxWatchRetries := 3 }

/-- A v3 `PUT` of `/k` at revision `r`. -/
def putAt (r : Int) : Event :=
  { Type_ := .PUT, Key := "/k", Value := "v", ModRevision := r }

/-- A v2 response with action `action` on the leaf `/k` at index `i`. -/
def actionAt (action : String) (i : Nat) : NextResult :=
  .ok { Action := action, Node := .mk "/k" false "v" i [] }

/-- Scenario 2: one v3 subscription carrying revisions 7, 8, 9. -/
def plainSession : List (List WatchResponse) :=
  [[{ Events := [putAt 7, putAt 8] }, { Events := [putAt 9] }]]

/-- Scenario 3: revisions 7, 9, and 8, 9 on the resubscription. -/
def gapSession : List (List WatchResponse) :=
  [[{ Events := [putAt 7, putAt 9] }], [{ Events := [putAt 8, putAt 9] }]]

/-- Scenario 4: revisions 7, 9, and 9 again on every resubscription. -/
def stuckSession : List (List WatchResponse) :=
  [[{ Events := [putAt 7, putAt 9] }], [{ Events := [putAt 9] }], [{ Events := [putAt 9] }],
   [{ Events := [putAt 9] }]]

/-- Scenario 2 on v2: the responses of the one watcher. -/
def plainResponsesV2 : List Response :=
  [{ Action := "set", Node := .mk "/k" false "v" 7 [] },
   { Action := "delete", Node := .mk "/k" false "" 8 [] },
   { Action := "set", Node := .mk "/k" false "v" 9 [] }]

/-- Scenario 3 on v2. -/
def gapSessionV2 : List (List NextResult) :=
  [[actionAt "set" 7, actionAt "set" 9], [actionAt "delete" 8, actionAt "set" 9]]

/-- Scenario 4 on v2. -/
def stuckSessionV2 : List (List NextResult) :=
  [[actionAt "set" 7, actionAt "set" 9], [actionAt "set" 9], [actionAt "set" 9],
   [actionAt "set" 9]]

/-- A v2 session in which index 8 carries `get`, an action code the `switch` does not know. -/
def unknownActionSessionV2 : List (List NextResult) :=
  [[actionAt "set" 7, actionAt "get" 8, actionAt "set" 9]]

/-- A v3 client configured with `max_watch_retries: 0`. -/
def noRetryClient : Client :=
  { rootPrefixEtcd := "/", numGetKeysLimit := 2, maxWatchRetries := 0 }

/-- A v2 session with two consecutive mismatches on expected index 8, after which index 8
arrives with the action code `get`, followed by a `set` at index 9. -/
def unknownAfterGapsSessionV2 : List (List NextResult) :=
  [[actionAt "set" 7, actionAt "set" 9], [actionAt "set" 9],
   [actionAt "get" 8, actionAt "set" 9]]

/-! ## Errors -/

/-- A Go `error` as the clients produce and inspect it: an error of the etcd client library
(its text, and whether `etcdv2.IsKeyNotFound` holds of it), one of the errors of
`internal/customerrors` (its code), `fmt.Errorf("<context>: %w", cause)`, or an error made
of a text alone (`fmt.Errorf` without `%w`). -/
inductive Error
  | etcd (text : String) (keyNotFound : Bool)
  | custom (code : String)
  | wrapped (context : String) (cause : Error)
  | plain (text : String)
deriving DecidableEq, Repr

/-- The test `etcdv2.IsKeyNotFound(err)`: it looks at the error itself, not at what it wraps. -/
def Error.isKeyNotFound : Error → Bool
  | .etcd _ keyNotFound => keyNotFound
  | _ => false

/-! ## `GetKeysWithPagination` -/

/-- The key of the last record of a page, `keys[len(keys)-1].Key`; empty for the empty page,
where the source does not evaluate it. -/
def lastKey (keys : List KV) : String :=
  match keys.getLast? with
  | some kv => kv.Key
  | none => ""

/-- The range options `GetKeysWithPagination` of the v3 backend passes to `c.client.Get`:
`WithPrefix()` or `WithFromKey()`. -/
inductive RangeKind
  | prefixRange
  | fromKeyRange
deriving DecidableEq, Repr

/-- The request `c.client.Get(ctx, key, WithLimit(limit), <range option>)` of the v3 backend. -/
structure GetRequest where
  key : String
  limit : Int
  range : RangeKind
deriving DecidableEq, Repr

/-- The method `Client.GetKeysWithPagination` (etcdv3.go, lines 180-217); `get` is
`c.client.Get`. -/
def Client.GetKeysWithPagination (c : Client) (get : GetRequest → Except Error (List KV))
    (fromKey : String) : Except Error (List KV × String) :=
  let req : GetRequest :=
    if fromKey ≠ "" then
      { key := fromKey, limit := c.numGetKeysLimit, range := .fromKeyRange }
    else
      { key := c.rootPrefixEtcd, limit := c.numGetKeysLimit, range := .prefixRange }
  match get req with
  | .error err => .error (.wrapped "failed to get keys" err)
  | .ok kvs =>
    let keys := kvs.filter (fun kv => kv.Key ≠ fromKey)
    if keys.length = 0 then .ok (keys, "") else .ok (keys, lastKey keys)

/-- The locals `keys` and `skipping` that the closure `collectKeys` of the v2 backend
updates. -/
structure CollectState where
  keys : List KV
  skipping : Bool
deriving DecidableEq, Repr

mutual
/-- The closure `collectKeys` of `ClientV2.GetKeysWithPagination` (etcdv2.go, lines 221-259). -/
def ClientV2.collectKeys (numGetKeysLimit : Int) (fromKey : String) :
    Node → CollectState → CollectState
  | .nil, st => st
  | .mk key dir value _ nodes, st =>
    if (st.keys.length : Int) ≥ numGetKeysLimit then st
    else if !dir then
      if st.skipping then
        if key = fromKey then { st with skipping := false } else st
      else { st with keys := st.keys ++ [{ Key := key, Value := value }] }
    else ClientV2.collectChildren numGetKeysLimit fromKey nodes st
/-- The loop `for _, child := range node.Nodes` of `collectKeys` (etcdv2.go, lines 252-257). -/
def ClientV2.collectChildren (numGetKeysLimit : Int) (fromKey : String) :
    List Node → CollectState → CollectState
  | [], st => st
  | child :: rest, st =>
    if (st.keys.length : Int) ≥ numGetKeysLimit then st
    else ClientV2.collectChildren numGetKeysLimit fromKey rest
      (ClientV2.collectKeys numGetKeysLimit fromKey child st)
end

/-- The method `ClientV2.GetKeysWithPagination` (etcdv2.go, lines 197-271); `get key` is
`c.client.Get(ctx, key, &GetOptions{Recursive: true, Sort: true})`, its result the `Node` of
the response. -/
def ClientV2.GetKeysWithPagination (c : ClientV2) (get : String → Except Error Node)
    (fromKey : String) : Except Error (List KV × String) :=
  match get c.rootPrefixEtcd with
  | .error err =>
    if err.isKeyNotFound then .ok ([], "")
    else .error (.wrapped "failed to get keys" err)
  | .ok node =>
    let st := ClientV2.collectKeys c.numGetKeysLimit fromKey node
      { keys := [], skipping := fromKey ≠ "" }
    if st.keys.length = 0 then .ok (st.keys, "") else .ok (st.keys, lastKey st.keys)

/-- Modelled from the spec: the pagination loop of `InitKVStore` (`internal/ingestor`, which is
not among the sources). "Starting with `fromKey = ""`, repeatedly calls
`GetKeysWithPagination` [...]. Terminates when an empty page is returned. Any error aborts."
The result is the list of the pages fetched with their `nextKey`, the empty last page
included; it is `none` when a call fails or when `fuel` calls did not reach an empty page. -/
def paginate (page : String → Except Error (List KV × String)) :
    Nat → String → Option (List (List KV × String))
  | 0, _ => none
  | fuel + 1, fromKey =>
    match page fromKey with
    | .error _ => none
    | .ok (kvs, nextKey) =>
      if kvs.length = 0 then some [(kvs, nextKey)]
      else (paginate page fuel nextKey).map (fun pages => (kvs, nextKey) :: pages)

/-- The records of a list of pages, in order. -/
def recordsOf : List (List KV × String) → List KV
  | [] => []
  | p :: ps => p.1 ++ recordsOf ps

/-! ## The etcd servers, as far as pagination reads them -/

/-- The records of `store` are in strictly ascending key order; keys are compared as raw
strings, character by character. -/
def SortedKeys (store : List KV) : Prop :=
  store.Pairwise (fun a b => a.Key.data < b.Key.data)

instance (store : List KV) : Decidable (SortedKeys store) := by
  unfold SortedKeys; infer_instance

/-- The v3 server as a finite key-sorted map `store` answering a range read: the records whose
key has the prefix `req.key` (`WithPrefix`), or whose key is at least `req.key`
(`WithFromKey`), in ascending key order, at most `req.limit` of them (no limit when
`req.limit ≤ 0`). -/
def etcdRange (store : List KV) (req : GetRequest) : Except Error (List KV) :=
  let hits := store.filter (fun kv =>
    match req.range with
    | .prefixRange => req.key.data.isPrefixOf kv.Key.data
    | .fromKeyRange => decide (req.key.data ≤ kv.Key.data))
  if req.limit ≤ 0 then .ok hits else .ok (hits.take req.limit.toNat)

mutual
/-- The leaves (non-directory nodes) of a v2 node tree, depth first over the children as
returned. -/
def leavesOf : Node → List KV
  | .nil => []
  | .mk key dir value _ nodes =>
    if dir then leavesOfList nodes else [{ Key := key, Value := value }]
/-- The leaves of a list of v2 node trees. -/
def leavesOfList : List Node → List KV
  | [] => []
  | n :: ns => leavesOf n ++ leavesOfList ns
end

/-- The records that follow the first record with key `fromKey` (none when there is no such
record). -/
def afterKey (fromKey : String) : List KV → List KV
  | [] => []
  | kv :: rest => if kv.Key = fromKey then rest else afterKey fromKey rest

/-- What `collectKeys` does at one leaf (etcdv2.go, lines 226-247): nothing when the limit is
reached; while skipping, stop skipping at the leaf whose key is `fromKey`; otherwise append
the leaf. -/
def ClientV2.collectLeaf (numGetKeysLimit : Int) (fromKey : String) (st : CollectState)
    (kv : KV) : CollectState :=
  if (st.keys.length : Int) ≥ numGetKeysLimit then st
  else if st.skipping then
    if kv.Key = fromKey then { st with skipping := false } else st
  else { st with keys := st.keys ++ [kv] }

/-- The v3 store `{a:1, b:2, c:3}` of scenario 1. -/
def abcStore : List KV := [⟨"a", "1"⟩, ⟨"b", "2"⟩, ⟨"c", "3"⟩]

/-- A v3 client with root prefix `""` and pagination limit `limit`. -/
def pagingClient (limit : Int) : Client :=
  { rootPrefixEtcd := "", numGetKeysLimit := limit, maxWatchRetries := 3 }

/-- A v3 store with a key outside the root prefix `/app/`. -/
def appStore : List KV := [⟨"/app/a", "1"⟩, ⟨"/b", "2"⟩]

/-- A v3 client with root prefix `/app/` and pagination limit 2. -/
def appClient : Client :=
  { rootPrefixEtcd := "/app/", numGetKeysLimit := 2, maxWatchRetries := 3 }

/-- The v2 tree of scenario 1: the directory `/` with the leaves `/a`, `/b`, `/c`. -/
def abcTree : Node :=
  .mk "/" true "" 0 [.mk "/a" false "1" 1 [], .mk "/b" false "2" 2 [], .mk "/c" false "3" 3 []]

/-- A v2 tree whose depth-first order is not the order of the keys as raw strings: the
directory `/a` with the leaf `/a/b`, followed by the leaf `/a-b`. -/
def dashTree : Node :=
  .mk "/" true "" 0 [.mk "/a" true "" 1 [.mk "/a/b" false "1" 1 []], .mk "/a-b" false "2" 2 []]

/-- A v2 client with root prefix `/` and pagination limit `limit`. -/
def pagingClientV2 (limit : Int) : ClientV2 :=
  { rootPrefixEtcd := "/", numGetKeysLimit := limit, maxWatchRetries := 3 }

/-! ## `internal/customerrors` -/

/-- The error `ErrKeyRequired` of customerrors.go. Each of the six errors is created once by
`new(code, message)`; its code stands for the identity of the value. -/
def ErrKeyRequired : Error := .custom "KEY_REQUIRED"

/-- The error `ErrValueRequired` of customerrors.go. -/
def ErrValueRequired : Error := .custom "VALUE_REQUIRED"

/-- The error `ErrKeyNotFound` of customerrors.go. -/
def ErrKeyNotFound : Error := .custom "KEY_NOT_FOUND"

/-- The error `ErrKeyNotPut` of customerrors.go. -/
def ErrKeyNotPut : Error := .custom "KEY_NOT_PUT"

/-- The error `ErrKeyNotDeleted` of customerrors.go. -/
def ErrKeyNotDeleted : Error := .custom "KEY_NOT_DELETED"

/-- The error `ErrMalformedSearchString` of customerrors.go. -/
def ErrMalformedSearchString : Error := .custom "MALFORMED_SEARCH_STRING"

/-- The entries of `statusCodeMap` (customerrors.go, lines 18-25), in the order of the source
text. -/
def statusCodeMap : List (Error × Nat) :=
  [(ErrKeyRequired, 400), (ErrValueRequired, 400), (ErrMalformedSearchString, 400),
   (ErrKeyNotFound, 404), (ErrKeyNotPut, 500), (ErrKeyNotDeleted, 500)]

/-- The test `errors.Is(err, target)`: `err` is `target`, or `err` was made by `fmt.Errorf`
with `%w` and what it wraps passes the test. `InternalError` has neither an `Unwrap` nor an
`Is` method, so the walk ends at an error of `internal/customerrors`. -/
def Error.Is : Error → Error → Bool
  | .wrapped context cause, target =>
    decide (Error.wrapped context cause = target) || Error.Is cause target
  | err, target => decide (err = target)

/-- `HTTPStatusFromErr` (customerrors.go, lines 63-70). Go leaves the order in which `range`
visits a map open: `order` lists the entries of `statusCodeMap` in the order of the visit. -/
def HTTPStatusFromErr (order : List (Error × Nat)) (err : Error) : Nat :=
  match order with
  | [] => 500
  | (e, statusCode) :: rest =>
    if Error.Is err e then statusCode else HTTPStatusFromErr rest err

/-! ## The point operations of the two clients -/

/-- `Client.Get` (etcdv3.go, lines 62-71). `get key` is the call `c.client.Get(ctx, key)`: from
the state of etcd before the call it gives the answer, on success its `resp.Kvs`, and the
state of etcd after the call. The result is what the method returns and the state of etcd
after it. -/
def Client.Get {σ : Type} (get : String → σ → Except Error (List KV) × σ) (key : String)
    (etcd : σ) : Except Error String × σ :=
  match get key etcd with
  | (.error err, after) => (.error (.wrapped "failed to get key" err), after)
  | (.ok [], after) => (.error ErrKeyNotFound, after)
  | (.ok (kv :: _), after) => (.ok kv.Value, after)

/-- `Client.Put` (etcdv3.go, lines 74-80). `put key value` is the call
`c.client.Put(ctx, key, value)`, whose response the method does not read: from the state of
etcd before the call it gives the answer and the state of etcd after the call. -/
def Client.Put {σ : Type} (put : String → String → σ → Except Error Unit × σ)
    (key value : String) (etcd : σ) : Except Error String × σ :=
  match put key value etcd with
  | (.error err, after) => (.error (.wrapped "failed to put key" err), after)
  | (.ok _, after) => (.ok key, after)

/-- `Client.Delete` (etcdv3.go, lines 83-89). `del key` is the call
`c.client.Delete(ctx, key)`: from the state of etcd before the call it gives the answer, on
success the number of keys deleted, which the method does not read, and the state of etcd
after the call. -/
def Client.Delete {σ : Type} (del : String → σ → Except Error Int × σ) (key : String)
    (etcd : σ) : Except Error String × σ :=
  match del key etcd with
  | (.error err, after) => (.error (.wrapped "failed to delete key" err), after)
  | (.ok _, after) => (.ok key, after)

/-- `ClientV2.Get` (etcdv2.go, lines 61-73). `get key` is the call
`c.client.Get(ctx, key, nil)`: from the state of etcd before the call it gives the answer, on
success its `resp.Node`, and the state of etcd after the call. -/
def ClientV2.Get {σ : Type} (get : String → σ → Except Error Node × σ) (key : String)
    (etcd : σ) : Except Error String × σ :=
  match get key etcd with
  | (.error err, after) =>
    if err.isKeyNotFound then (.error ErrKeyNotFound, after)
    else (.error (.wrapped "failed to get key" err), after)
  | (.ok .nil, after) => (.error ErrKeyNotFound, after)
  | (.ok (.mk _ _ value _ _), after) => (.ok value, after)

/-- `ClientV2.Put` (etcdv2.go, lines 76-85). `set key value` is the call
`c.client.Set(ctx, key, value, nil)`: from the state of etcd before the call it gives the
answer, on success its `resp.Node`, and the state of etcd after the call. -/
def ClientV2.Put {σ : Type} (set : String → String → σ → Except Error Node × σ)
    (key value : String) (etcd : σ) : Except Error String × σ :=
  match set key value etcd with
  | (.error err, after) => (.error (.wrapped "failed to put key" err), after)
  | (.ok .nil, after) => (.error ErrKeyNotPut, after)
  | (.ok (.mk nodeKey _ _ _ _), after) => (.ok nodeKey, after)

/-- `ClientV2.Delete` (etcdv2.go, lines 88-100). `del key` is the call `c.client.Delete` with
empty delete options: from the state of etcd before the call it gives the answer, on success
its `resp.Node`, and the state of etcd after the call. -/
def ClientV2.Delete {σ : Type} (del : String → σ → Except Error Node × σ) (key : String)
    (etcd : σ) : Except Error String × σ :=
  match del key etcd with
  | (.error err, after) =>
    if err.isKeyNotFound then (.ok "", after)
    else (.error (.wrapped "failed to delete key" err), after)
  | (.ok .nil, after) => (.error ErrKeyNotDeleted, after)
  | (.ok (.mk nodeKey _ _ _ _), after) => (.ok nodeKey, after)

/-! ## The constructors -/

/-- What a constructor did and returned: the endpoint lists it handed to the `New` of the etcd
client library, in order, and the client or the error. -/
structure Construction (α : Type) where
  dialled : List (List String)
  result : Except Error α

/-- `NewClientV3` (etcdv3.go, lines 31-58); `clientNew endpoints` is the error of
`clientv3.New` on a configuration with these endpoints, if any. -/
def NewClientV3 (clientNew : List String → Option Error) (endpoints : List String)
    (watchEventChannelSize : Int) (rootPrefixEtcd : String)
    (numGetKeysLimit etcdAuditPeriod maxWatchRetries : Int) : Construction Client :=
  if numGetKeysLimit ≤ 0 then
    { dialled := [], result := .error (.plain "numGetKeysLimit must be greater than 0") }
  else
    match clientNew endpoints with
    | some err =>
      { dialled := [endpoints], result := .error (.wrapped "failed to create etcd client" err) }
    | none =>
      { dialled := [endpoints],
        result := .ok
          { rootPrefixEtcd := rootPrefixEtcd,
            numGetKeysLimit := numGetKeysLimit,
            maxWatchRetries := maxWatchRetries,
            ExpectedModRevision := -1,
            watchEventChannelSize := watchEventChannelSize,
            EtcdAuditPeriod := wrapInt64 (etcdAuditPeriod * 1000000000) } }

/-- `NewClientV2` (etcdv2.go, lines 28-59); `clientNew endpoints` is the error of
`etcdv2.New(cfg)`, if any. -/
def NewClientV2 (clientNew : List String → Option Error) (endpoints : List String)
    (watchEventChannelSize : Int) (rootPrefixEtcd : String)
    (numGetKeysLimit etcdAuditPeriod maxWatchRetries : Int) : Construction ClientV2 :=
  if numGetKeysLimit ≤ 0 then
    { dialled := [], result := .error (.plain "numGetKeysLimit must be greater than 0") }
  else
    match clientNew endpoints with
    | some err =>
      { dialled := [endpoints],
        result := .error (.wrapped "failed to create etcd v2 client" err) }
    | none =>
      { dialled := [endpoints],
        result := .ok
          { rootPrefixEtcd := rootPrefixEtcd,
            numGetKeysLimit := numGetKeysLimit,
            maxWatchRetries := maxWatchRetries,
            ExpectedModIndex := 0,
            watchEventChannelSize := watchEventChannelSize,
            EtcdAuditPeriod := wrapInt64 (etcdAuditPeriod * 1000000000),
            endpoints := endpoints } }

/-! ## The facade `DefaultEtcdfinder` -/

/-- The methods of `etcd.BaseClient` (etcd.go) that the facade calls; the first component of a
Go result `(string, error)` is read only when the error is `nil`. -/
structure BaseClient where
  Get : String → Except Error String
  Put : String → String → Except Error String
  Delete : String → Except Error String

/-- The methods of `kvstore.KVStore` that the facade calls, each as the answer the index gives
to the call. -/
structure KVStore where
  Search : String → Except Error (List KV)
  Put : String → String → Option Error
  Delete : String → Option Error

/-- The fields of `DefaultEtcdfinder` (etcdfinder.go) that the key operations use. -/
structure DefaultEtcdfinder where
  etcdClt : BaseClient
  kvStore : KVStore

/-- A call of a method of the index. -/
inductive IndexCall
  | Search (searchStr : String)
  | Put (key value : String)
  | Delete (key : String)
deriving DecidableEq, Repr

/-- What a method of the facade returned, and the calls it made on the index, in order. -/
structure Outcome (α : Type) where
  result : α
  calls : List IndexCall

/-- `DefaultEtcdfinder.GetKey` (etcdfinder.go, lines 33-36). -/
def DefaultEtcdfinder.GetKey (d : DefaultEtcdfinder) (key : String) :
    Outcome (Except Error String) :=
  { result := d.etcdClt.Get key, calls := [] }

/-- `DefaultEtcdfinder.SearchKeys` (etcdfinder.go, lines 38-48). -/
def DefaultEtcdfinder.SearchKeys (d : DefaultEtcdfinder) (searchStr : String) :
    Outcome (Except Error (List String)) :=
  match d.kvStore.Search searchStr with
  | .error err => { result := .error err, calls := [.Search searchStr] }
  | .ok kvs =>
    { result := .ok (kvs.foldl (fun keys kv => keys ++ [kv.Key]) []),
      calls := [.Search searchStr] }

/-- `DefaultEtcdfinder.PutKey` (etcdfinder.go, lines 50-56): the key handed to the index is
the one the etcd client returned. -/
def DefaultEtcdfinder.PutKey (d : DefaultEtcdfinder) (key value : String) :
    Outcome (Option Error) :=
  match d.etcdClt.Put key value with
  | .error err => { result := some err, calls := [] }
  | .ok key => { result := d.kvStore.Put key value, calls := [.Put key value] }

/-- `DefaultEtcdfinder.DeleteKey` (etcdfinder.go, lines 58-64): the key handed to the index is
the one the etcd client returned. -/
def DefaultEtcdfinder.DeleteKey (d : DefaultEtcdfinder) (key : String) :
    Outcome (Option Error) :=
  match d.etcdClt.Delete key with
  | .error err => { result := some err, calls := [] }
  | .ok key => { result := d.kvStore.Delete key, calls := [.Delete key] }

/-! ## etcd v3 as a key-value map -/

/-- The content of a key-value store: the value held under each key, if any. -/
abbrev KeySpace := String → Option String

/-- The content after a write of `value` under `key`. -/
def KeySpace.put (m : KeySpace) (key value : String) : KeySpace :=
  fun k => if k = key then some value else m k

/-- The content after the removal of `key`. -/
def KeySpace.delete (m : KeySpace) (key : String) : KeySpace :=
  fun k => if k = key then none else m k

/-- A store without keys. -/
def KeySpace.empty : KeySpace := fun _ => none

/-- The error with which etcd v3 refuses a read, a write or a delete of the empty key. -/
def etcdV3EmptyKey : Error := .etcd "etcdserver: key is not provided" false

/-- A read of `key` through the v3 client library while etcd holds `m`: the records found,
none for an absent key; the empty key is refused. The content stays as it is. -/
def etcdV3Get (key : String) (m : KeySpace) : Except Error (List KV) × KeySpace :=
  if key = "" then (.error etcdV3EmptyKey, m)
  else
    match m key with
    | some value => (.ok [{ Key := key, Value := value }], m)
    | none => (.ok [], m)

/-- A write of `value` under `key` through the v3 client library while etcd holds `m`: etcd
stores the value; the empty key is refused and the content stays as it is. -/
def etcdV3Put (key value : String) (m : KeySpace) : Except Error Unit × KeySpace :=
  if key = "" then (.error etcdV3EmptyKey, m) else (.ok (), m.put key value)

/-- A delete of `key` through the v3 client library while etcd holds `m`: the number of keys
deleted, `0` for an absent key, and the content without the key; the empty key is refused. -/
def etcdV3Delete (key : String) (m : KeySpace) : Except Error Int × KeySpace :=
  if key = "" then (.error etcdV3EmptyKey, m)
  else
    match m key with
    | some _ => (.ok 1, m.delete key)
    | none => (.ok 0, m)

/-! ## etcd v2 as a store of values and directories -/

/-- An entry of the v2 store: a key holding a value, or a directory. -/
inductive V2Entry
  | file (value : String)
  | dir
deriving DecidableEq, Repr

/-- The content of an etcd v2 store: the entry at each path, a path being the list of its
components below the root. The root, the empty path, is a directory. -/
abbrev V2Store := List String → Option V2Entry

/-- A v2 store that holds nothing but its root. -/
def V2Store.empty : V2Store := fun _ => none

/-- The paths strictly between the root and `path`, from the root down. -/
def ancestors : List String → List (List String)
  | [] => []
  | [_] => []
  | c :: d :: rest => [c] :: (ancestors (d :: rest)).map (fun p => c :: p)

/-- The key of a node as the v2 server returns it: `/` for the root, otherwise the components
each preceded by `/`. -/
def pathOf (path : List String) : String :=
  if path = [] then "/" else path.foldl (fun s c => s ++ "/" ++ c) ""

/-- The error of code 100 with which the v2 server answers for a key it does not hold;
`etcdv2.IsKeyNotFound` holds of it. The cause and the index that end the text of a v2 error
are left out here and below. -/
def etcdV2KeyNotFound : Error := .etcd "100: Key not found" true

/-- The error of code 102 of the v2 server: the path is a directory. -/
def etcdV2NotAFile : Error := .etcd "102: Not a file" false

/-- The error of code 104 of the v2 server: a path above the key holds a value. -/
def etcdV2NotADir : Error := .etcd "104: Not a directory" false

/-- The error of code 107 of the v2 server: the root cannot be written or deleted. -/
def etcdV2RootReadOnly : Error := .etcd "107: Root is read only" false

/-- The walk of the v2 server from the root down the paths `above`, as a read or a delete
makes it: the error at the first path that is missing (code 100) or holds a value (code
104), `none` when all of them are directories. -/
def V2Store.walk (store : V2Store) : List (List String) → Option Error
  | [] => none
  | p :: above =>
    match store p with
    | none => some etcdV2KeyNotFound
    | some (.file _) => some etcdV2NotADir
    | some .dir => V2Store.walk store above

/-- Whether `path` holds a value. -/
def V2Store.holdsValue (store : V2Store) (path : List String) : Bool :=
  match store path with
  | some (.file _) => true
  | _ => false

/-- The content after `value` was written at `path`: the paths above it are directories. -/
def V2Store.set (store : V2Store) (path : List String) (value : String) : V2Store :=
  fun q =>
    if q = path then some (.file value)
    else if q ∈ ancestors path then some .dir
    else store q

/-- The content after the entry at `path` was removed; the directories above it stay. -/
def V2Store.remove (store : V2Store) (path : List String) : V2Store :=
  fun q => if q = path then none else store q

/-- A read of `key` through the v2 client library while etcd holds `store`. `canon key` is the
path under which the server files the key: the key cleaned and rooted, so that `k`, `/k` and
`/k/` are the same path and the empty key is the root. The answer is the node found, a
directory without its children (which `Get` does not read), or the error of the walk. -/
def etcdV2Get (canon : String → List String) (key : String) (store : V2Store) :
    Except Error Node × V2Store :=
  match store.walk (ancestors (canon key)) with
  | some err => (.error err, store)
  | none =>
    if canon key = [] then (.ok (.mk "/" true "" 0 []), store)
    else
      match store (canon key) with
      | none => (.error etcdV2KeyNotFound, store)
      | some (.file value) => (.ok (.mk (pathOf (canon key)) false value 0 []), store)
      | some .dir => (.ok (.mk (pathOf (canon key)) true "" 0 []), store)

/-- A `Set` of `key` to `value` through the v2 client library while etcd holds `store`: the
root is read-only, a path above the key that holds a value or a directory at the key refuse
the write; otherwise the value is written, the missing directories above it are created, and
the answer is the node written, with the key as the server files it. -/
def etcdV2Set (canon : String → List String) (key value : String) (store : V2Store) :
    Except Error Node × V2Store :=
  if canon key = [] then (.error etcdV2RootReadOnly, store)
  else if (ancestors (canon key)).any store.holdsValue then (.error etcdV2NotADir, store)
  else
    match store (canon key) with
    | some .dir => (.error etcdV2NotAFile, store)
    | _ => (.ok (.mk (pathOf (canon key)) false value 0 []), store.set (canon key) value)

/-- A delete of `key` (without the options for directories) through the v2 client library
while etcd holds `store`: the root is read-only, then the errors of the walk, the
key-not-found error for an absent key, and a directory is refused; otherwise the entry is
removed and the answer is the node removed, with the key as the server files it. -/
def etcdV2Delete (canon : String → List String) (key : String) (store : V2Store) :
    Except Error Node × V2Store :=
  if canon key = [] then (.error etcdV2RootReadOnly, store)
  else
    match store.walk (ancestors (canon key)) with
    | some err => (.error err, store)
    | none =>
      match store (canon key) with
      | none => (.error etcdV2KeyNotFound, store)
      | some .dir => (.error etcdV2NotAFile, store)
      | some (.file _) =>
        (.ok (.mk (pathOf (canon key)) false "" 0 []), store.remove (canon key))

/-- The pieces of a text between its `/` characters. -/
def splitSlash : List Char → List (List Char)
  | [] => [[]]
  | c :: cs =>
    if c = '/' then [] :: splitSlash cs
    else
      match splitSlash cs with
      | [] => [[c]]
      | seg :: segs => (c :: seg) :: segs

/-- One step of cleaning a rooted path: an empty piece and `.` are dropped, `..` removes the
component before it, any other piece is a component. -/
def cleanStep (path : List String) (seg : List Char) : List String :=
  if seg = [] ∨ seg = ['.'] then path
  else if seg = ['.', '.'] then path.dropLast
  else path ++ [String.mk seg]

/-- The path of a key as the v2 store cleans it, `path.Clean(path.Join("/", key))`, in
components. It serves as `canon` in the examples, whose keys have no `..`; the theorems hold
for every `canon`. -/
def keyPath (key : String) : List String :=
  (splitSlash key.data).foldl cleanStep []

/-! ## The clients as the facade sees them -/

/-- The v3 client as the facade sees it while etcd holds `m`: what each method returns. -/
def Client.baseClient (m : KeySpace) : BaseClient :=
  { Get := fun key => (Client.Get etcdV3Get key m).1,
    Put := fun key value => (Client.Put etcdV3Put key value m).1,
    Delete := fun key => (Client.Delete etcdV3Delete key m).1 }

/-- The v2 client as the facade sees it while etcd holds `store`: what each method returns. -/
def ClientV2.baseClient (canon : String → List String) (store : V2Store) : BaseClient :=
  { Get := fun key => (ClientV2.Get (etcdV2Get canon) key store).1,
    Put := fun key value => (ClientV2.Put (etcdV2Set canon) key value store).1,
    Delete := fun key => (ClientV2.Delete (etcdV2Delete canon) key store).1 }

/-- Modelled from the spec: the index adapter (`pkg/kvstore`) is not among the sources. The
index as a key-value map by key: `Put` writes the record, `Delete` removes the record with
that key, `Search` changes nothing. -/
def IndexCall.apply (index : KeySpace) : IndexCall → KeySpace
  | .Search _ => index
  | .Put key value => index.put key value
  | .Delete key => index.delete key

/-- An index that accepts every call and finds nothing. -/
def acceptingIndex : KVStore :=
  { Search := fun _ => .ok [], Put := fun _ _ => none, Delete := fun _ => none }

/-- The error of a call that did not reach etcd in time. -/
def deadlineExceeded : Error := .etcd "context deadline exceeded" false

/-- The facade over a v3 client whose etcd is unreachable: every call fails in transport. -/
def unreachableFacade : DefaultEtcdfinder :=
  { etcdClt :=
      { Get := fun key => (Client.Get (fun _ etcd => (.error deadlineExceeded, etcd)) key ()).1,
        Put := fun key value =>
          (Client.Put (fun _ _ etcd => (.error deadlineExceeded, etcd)) key value ()).1,
        Delete := fun key =>
          (Client.Delete (fun _ etcd => (.error deadlineExceeded, etcd)) key ()).1 },
    kvStore := acceptingIndex }

/-- The facade over a v2 client whose etcd holds nothing, with an index that accepts every
call. -/
def emptyEtcdFacadeV2 : DefaultEtcdfinder :=
  { etcdClt := ClientV2.baseClient keyPath V2Store.empty, kvStore := acceptingIndex }

/-- An index holding a record for the key `/k`. -/
def staleIndex : KeySpace := KeySpace.empty.put "/k" "v"

/-- A facade whose index answers every search with the records `/a/x` and `/a/y`. -/
def searchFacade : DefaultEtcdfinder :=
  { etcdClt := Client.baseClient KeySpace.empty,
    kvStore := { acceptingIndex with Search := fun _ => .ok [⟨"/a/x", "1"⟩, ⟨"/a/y", "2"⟩] } }

/-- The v2 watch state expecting index 8, without discrepancy and without failures. -/
def expectingEight : WatchStateV2 :=
  { ExpectedModIndex := 8, watchIndexDiscrepancy := false, consecutiveFailureCount := 0 }

/-- A v2 response with the action code `get` on the leaf `/k` at index 8. -/
def getAtEight : Response :=
  { Action := "get", Node := .mk "/k" false "v" 8 [] }

/-! ## The reference page of the v2 pagination -/

/-- The page of the v2 pagination in the words of the specification: with `L` the leaves of
the tree in depth-first order over the children as returned, the first `limit` elements of
`L` when `fromKey` is empty; otherwise the first `limit` elements of `L` that follow the first
leaf whose key equals `fromKey`, that leaf excluded, and the empty page when no leaf has the
key `fromKey`. -/
def referencePageV2 (limit : Int) (fromKey : String) (tree : Node) : List KV :=
  if fromKey = "" then (leavesOf tree).take limit.toNat
  else (((leavesOf tree).dropWhile (fun kv => decide (kv.Key ≠ fromKey))).drop 1).take
    limit.toNat

/-! ## The v2 liveness probe -/

/-- The message with which customerrors.go (lines 10-15) creates the error of code `code`. -/
def customMessage (code : String) : String :=
  if code = "KEY_REQUIRED" then "key is required"
  else if code = "VALUE_REQUIRED" then "value is required"
  else if code = "MALFORMED_SEARCH_STRING" then "malformed search string"
  else if code = "KEY_NOT_FOUND" then "key not found"
  else if code = "KEY_NOT_PUT" then "key not put"
  else if code = "KEY_NOT_DELETED" then "key not deleted"
  else ""

/-- The text `err.Error()`: the text of an error of the etcd client library,
`InternalError.Error` (customerrors.go, lines 44-49) for an error of `internal/customerrors`
(created without an underlying error), and `<context>: <text of the cause>` for
`fmt.Errorf("<context>: %w", cause)`. -/
def Error.text : Error → String
  | .etcd text _ => text
  | .custom code => code ++ ": " ++ customMessage code
  | .wrapped context cause => context ++ ": " ++ Error.text cause
  | .plain text => text

/-- Whether the characters `substr` occur in `s` as a contiguous run. -/
def containsChars : List Char → List Char → Bool
  | [], substr => substr.isPrefixOf []
  | c :: s, substr => substr.isPrefixOf (c :: s) || containsChars s substr

/-- The test `strings.Contains(s, substr)`. -/
def stringsContains (s substr : String) : Bool := containsChars s.data substr.data

/-- `ClientV2.checkConnection` (etcdv2.go, lines 312-332); `get key` is the error of
`c.client.Get(checkCtx, key, nil)`, `none` for `nil`. The result is the error returned,
`none` for `nil`. -/
def ClientV2.checkConnection (get : String → Option Error) : Option Error :=
  match get "/__etcdfinder_health_check__" with
  | none => none
  | some err =>
    if !err.isKeyNotFound then
      if stringsContains err.text "connection" || stringsContains err.text "timeout" then
        some (.wrapped "failed to connect to etcd v2" err)
      else none
    else none

/-- The error of a dial that the endpoint refused. -/
def connectionRefused : Error :=
  .etcd "dial tcp 127.0.0.1:2379: connect: connection refused" false

/-! ## The v3 producer once the discrepancy flag is set -/

/-- The first response of each subscription, in order. -/
def firstBatches : List (List WatchResponse) → List WatchResponse
  | [] => []
  | sub :: subs => sub.take 1 ++ firstBatches subs

/-- The state of the v3 producer after one mismatch on expected revision 8: the flag is set. -/
def flaggedAtEight : WatchState :=
  { ExpectedModRevision := 8, watchRevisionDiscrepancy := true, consecutiveFailureCount := 1 }

/-- Subscriptions served after a gap on revision 8: each carries the revisions from the one
asked for, in batches of one event. -/
def recoveredSession : List (List WatchResponse) :=
  [[{ Events := [putAt 8] }, { Events := [putAt 9] }],
   [{ Events := [putAt 9] }, { Events := [putAt 10] }],
   [{ Events := [putAt 10] }]]

/-! # Theorems -/

/-! ## Projections of the output -/

theorem deliveredCursors_append {ρ κ : Type} (a b : List (Output ρ κ)) :
    deliveredCursors (a ++ b) = deliveredCursors a ++ deliveredCursors b := by
  induction a with
  | nil => rfl
  | cons o os ih => cases o <;> simp [deliveredCursors, ih]

theorem deliveredEvents_append {ρ κ : Type} (a b : List (Output ρ κ)) :
    deliveredEvents (a ++ b) = deliveredEvents a ++ deliveredEvents b := by
  induction a with
  | nil => rfl
  | cons o os ih => cases o <;> simp [deliveredEvents, ih]

theorem emittedErrors_append {ρ κ : Type} (a b : List (Output ρ κ)) :
    emittedErrors (a ++ b) = emittedErrors a ++ emittedErrors b := by
  induction a with
  | nil => rfl
  | cons o os ih => cases o <;> simp [emittedErrors, ih]

theorem wrapInt64_of_lt (x : Int) (h0 : -2 ^ 63 ≤ x) (h1 : x < 2 ^ 63) : wrapInt64 x = x := by
  unfold wrapInt64
  rw [Int.emod_eq_of_lt (by omega) (by omega)]
  omega

theorem wrapUint64_of_lt (x : Nat) (h : x < 2 ^ 64) : wrapUint64 x = x :=
  Nat.mod_eq_of_lt h

/-! ## Cursor sequences -/

theorem acceptedFrom_append {κ : Type} [Add κ] [One κ] (u : κ) (l l2 : List κ) :
    ∀ (x y z : κ), AcceptedFrom u x l y → AcceptedFrom u y l2 z → AcceptedFrom u x (l ++ l2) z := by
  induction l with
  | nil => intro x y z h1 h2; simp only [AcceptedFrom] at h1; subst h1; simpa using h2
  | cons k ks ih =>
    intro x y z h1 h2
    simp only [AcceptedFrom, List.cons_append] at h1 ⊢
    exact ⟨h1.1, h1.2.1, ih _ _ _ h1.2.2 h2⟩

theorem acceptedFrom_chain {κ : Type} [Add κ] [One κ] (u : κ) (l : List κ) :
    ∀ (x y : κ), AcceptedFrom u x l y → List.Chain' (fun a b => b = a + 1) l := by
  induction l with
  | nil => intro _ _ _; exact List.chain'_nil
  | cons k ks ih =>
    intro x y h
    simp only [AcceptedFrom] at h
    cases ks with
    | nil => exact List.chain'_singleton _
    | cons k2 ks2 =>
      have h2 := h.2.2
      simp only [AcceptedFrom] at h2
      refine List.Chain'.cons ?_ (ih _ _ h.2.2)
      rcases h2.1 with hu | hk
      · exact absurd hu h.2.1
      · exact hk

theorem increasingFrom_mono {κ : Type} [Preorder κ] [Add κ] [One κ] (l : List κ) :
    ∀ (x x2 y : κ), x2 ≤ x → IncreasingFrom x l y → IncreasingFrom x2 l y := by
  cases l with
  | nil => intro x x2 y h1 h2; simp only [IncreasingFrom] at h2 ⊢; exact le_trans h1 h2
  | cons k ks =>
    intro x x2 y h1 h2
    simp only [IncreasingFrom] at h2 ⊢
    exact ⟨le_trans h1 h2.1, h2.2⟩

theorem increasingFrom_append {κ : Type} [Preorder κ] [Add κ] [One κ] (l l2 : List κ) :
    ∀ (x y z : κ), IncreasingFrom x l y → IncreasingFrom y l2 z →
      IncreasingFrom x (l ++ l2) z := by
  induction l with
  | nil =>
    intro x y z h1 h2
    simp only [IncreasingFrom] at h1
    simpa using increasingFrom_mono l2 y x z h1 h2
  | cons k ks ih =>
    intro x y z h1 h2
    simp only [IncreasingFrom, List.cons_append] at h1 ⊢
    exact ⟨h1.1, ih _ _ _ h1.2 h2⟩

theorem increasingFrom_lower {κ : Type} [LinearOrderedSemiring κ] (l : List κ) :
    ∀ (x y : κ), IncreasingFrom x l y → ∀ k ∈ l, x ≤ k := by
  induction l with
  | nil => intro _ _ _ k hk; simp at hk
  | cons a as ih =>
    intro x y h k hk
    simp only [IncreasingFrom] at h
    rcases List.mem_cons.1 hk with rfl | hk
    · exact h.1
    · exact le_trans (le_trans h.1 (le_of_lt (lt_add_one a))) (ih _ _ h.2 k hk)

theorem increasingFrom_sorted {κ : Type} [LinearOrderedSemiring κ] (l : List κ) :
    ∀ (x y : κ), IncreasingFrom x l y → List.Pairwise (fun a b => a < b) l := by
  induction l with
  | nil => intro _ _ _; exact List.Pairwise.nil
  | cons a as ih =>
    intro x y h
    simp only [IncreasingFrom] at h
    refine List.Pairwise.cons ?_ (ih _ _ h.2)
    intro b hb
    exact lt_of_lt_of_le (lt_add_one a) (increasingFrom_lower as _ _ h.2 b hb)

/-! ## Lifting a property of single steps to whole runs -/

/-- Lifting of a property of single steps to whole runs of the v3 producer. -/
theorem watchEvents_lift_v3 (m : Int) (V : Event → Prop)
    (Q R : WatchState → List (Output (Option Int) Int) → WatchState → Prop)
    (hrefl : ∀ s, Q s [] s)
    (hQQ : ∀ s o s1 o2 s2, Q s o s1 → Q s1 o2 s2 → Q s (o ++ o2) s2)
    (hQR : ∀ s o s1 o2 s2, Q s o s1 → R s1 o2 s2 → R s (o ++ o2) s2)
    (hstep : ∀ s e, V e →
      ((Client.watchEvent m s e).ctl ≠ .ret →
        Q s (Client.watchEvent m s e).out (Client.watchEvent m s e).st) ∧
      ((Client.watchEvent m s e).ctl = .ret →
        R s (Client.watchEvent m s e).out (Client.watchEvent m s e).st))
    (es : List Event) : ∀ (s : WatchState), (∀ e ∈ es, V e) →
      ((Client.watchEvents m s es).ctl ≠ .ret →
        Q s (Client.watchEvents m s es).out (Client.watchEvents m s es).st) ∧
      ((Client.watchEvents m s es).ctl = .ret →
        R s (Client.watchEvents m s es).out (Client.watchEvents m s es).st) := by
  induction es with
  | nil => intro s _; simp [Client.watchEvents, hrefl]
  | cons e es ih =>
    intro s hV
    have hs := hstep s e (hV e (List.mem_cons_self _ _))
    have hi := ih (Client.watchEvent m s e).st (fun x hx => hV x (List.mem_cons_of_mem _ hx))
    by_cases hc : (Client.watchEvent m s e).ctl = .next
    · have hq := hs.1 (by simp [hc])
      simp only [Client.watchEvents, hc, if_true]
      exact ⟨fun h => hQQ _ _ _ _ _ hq (hi.1 h), fun h => hQR _ _ _ _ _ hq (hi.2 h)⟩
    · simp only [Client.watchEvents, hc, if_false]
      exact hs


theorem watchResponses_lift_v3 (m : Int) (V : Event → Prop)
    (Q R : WatchState → List (Output (Option Int) Int) → WatchState → Prop)
    (hrefl : ∀ s, Q s [] s)
    (hQQ : ∀ s o s1 o2 s2, Q s o s1 → Q s1 o2 s2 → Q s (o ++ o2) s2)
    (hQR : ∀ s o s1 o2 s2, Q s o s1 → R s1 o2 s2 → R s (o ++ o2) s2)
    (herr : ∀ s cause, R s [.fail (.watchError cause)] s)
    (hstep : ∀ s e, V e →
      ((Client.watchEvent m s e).ctl ≠ .ret →
        Q s (Client.watchEvent m s e).out (Client.watchEvent m s e).st) ∧
      ((Client.watchEvent m s e).ctl = .ret →
        R s (Client.watchEvent m s e).out (Client.watchEvent m s e).st))
    (ws : List WatchResponse) : ∀ (s : WatchState), (∀ w ∈ ws, ∀ e ∈ w.Events, V e) →
      ((Client.watchResponses m s ws).ctl ≠ .ret →
        Q s (Client.watchResponses m s ws).out (Client.watchResponses m s ws).st) ∧
      ((Client.watchResponses m s ws).ctl = .ret →
        R s (Client.watchResponses m s ws).out (Client.watchResponses m s ws).st) := by
  induction ws with
  | nil => intro s _; simp [Client.watchResponses, hrefl]
  | cons w ws ih =>
    intro s hV
    cases hw : w.Err with
    | some cause => simp [Client.watchResponses, hw, herr]
    | none =>
      have he := watchEvents_lift_v3 m V Q R hrefl hQQ hQR hstep w.Events s
        (hV w (List.mem_cons_self _ _))
      have hi := ih (Client.watchEvents m s w.Events).st
        (fun x hx => hV x (List.mem_cons_of_mem _ hx))
      by_cases hc : (Client.watchEvents m s w.Events).ctl = .ret
      · simp only [Client.watchResponses, hw, hc, if_true]
        exact ⟨fun h => absurd rfl h, fun _ => he.2 hc⟩
      · by_cases hd : (Client.watchEvents m s w.Events).st.watchRevisionDiscrepancy = true
        · simp only [Client.watchResponses, hw, hc, hd, if_true, if_false]
          exact ⟨fun _ => he.1 hc, fun h => by simp at h⟩
        · simp only [Client.watchResponses, hw, hc, hd, if_false]
          exact ⟨fun h => hQQ _ _ _ _ _ (he.1 hc) (hi.1 h),
            fun h => hQR _ _ _ _ _ (he.1 hc) (hi.2 h)⟩

theorem watchLoop_lift_v3 (m : Int) (V : Event → Prop)
    (Q R : WatchState → List (Output (Option Int) Int) → WatchState → Prop)
    (hrefl : ∀ s, Q s [] s)
    (hQQ : ∀ s o s1 o2 s2, Q s o s1 → Q s1 o2 s2 → Q s (o ++ o2) s2)
    (hQR : ∀ s o s1 o2 s2, Q s o s1 → R s1 o2 s2 → R s (o ++ o2) s2)
    (hsub : ∀ s, Q s [.subscribe (Client.watchRequest s)] s)
    (herr : ∀ s cause, R s [.fail (.watchError cause)] s)
    (hstep : ∀ s e, V e →
      ((Client.watchEvent m s e).ctl ≠ .ret →
        Q s (Client.watchEvent m s e).out (Client.watchEvent m s e).st) ∧
      ((Client.watchEvent m s e).ctl = .ret →
        R s (Client.watchEvent m s e).out (Client.watchEvent m s e).st))
    (subs : List (List WatchResponse)) :
    ∀ (s : WatchState), (∀ sub ∈ subs, ∀ w ∈ sub, ∀ e ∈ w.Events, V e) →
      ((Client.watchLoop m s subs).ctl ≠ .ret →
        Q s (Client.watchLoop m s subs).out (Client.watchLoop m s subs).st) ∧
      ((Client.watchLoop m s subs).ctl = .ret →
        R s (Client.watchLoop m s subs).out (Client.watchLoop m s subs).st) := by
  induction subs with
  | nil => intro s _; simp [Client.watchLoop, hsub]
  | cons sub subs ih =>
    intro s hV
    have hr := watchResponses_lift_v3 m V Q R hrefl hQQ hQR herr hstep sub s
      (hV sub (List.mem_cons_self _ _))
    have hi := ih (Client.watchResponses m s sub).st
      (fun x hx => hV x (List.mem_cons_of_mem _ hx))
    by_cases hc : (Client.watchResponses m s sub).ctl = .ret
    · simp only [Client.watchLoop, hc, if_true]
      exact ⟨fun h => absurd rfl h, fun _ => hQR _ [_] _ _ _ (hsub s) (hr.2 hc)⟩
    · simp only [Client.watchLoop, hc, if_false]
      exact ⟨fun h => hQQ _ [_] _ _ _ (hsub s) (hQQ _ _ _ _ _ (hr.1 hc) (hi.1 h)),
        fun h => hQR _ [_] _ _ _ (hsub s) (hQR _ _ _ _ _ (hr.1 hc) (hi.2 h))⟩

theorem onMismatch_brk_v2 (m : Int) (s : WatchStateV2)
    (h : (ClientV2.onMismatch m s).ctl = .brk) :
    (ClientV2.onMismatch m s).st.watchIndexDiscrepancy = true := by
  simp only [ClientV2.onMismatch] at h ⊢
  split_ifs at h ⊢
  rfl

theorem onMatch_not_brk_v2 (s : WatchStateV2) (a k v : String) (i : Nat) (d : Bool) :
    (ClientV2.onMatch s a k v i d).ctl ≠ .brk := by
  simp only [ClientV2.onMatch]
  cases ClientV2.toWatchEvent a k v
  · simp
  · cases d <;> simp

theorem watchResponse_brk_v2 (m : Int) (s : WatchStateV2) (resp : Response)
    (h : (ClientV2.watchResponse m s resp).ctl = .brk) :
    (ClientV2.watchResponse m s resp).st.watchIndexDiscrepancy = true := by
  unfold ClientV2.watchResponse at h ⊢
  cases hn : resp.Node with
  | nil => simp [hn] at h
  | mk key dir value idx nodes =>
    simp only [hn] at h ⊢
    split_ifs at h ⊢ with h1
    · exact onMismatch_brk_v2 _ _ h
    · exact absurd h (onMatch_not_brk_v2 _ _ _ _ _ _)

theorem watchResponses_brk_v2 (m : Int) (rs : List NextResult) :
    ∀ (s : WatchStateV2), (ClientV2.watchResponses m s rs).ctl = .brk →
      (ClientV2.watchResponses m s rs).st.watchIndexDiscrepancy = true := by
  induction rs with
  | nil => intro s h; simp [ClientV2.watchResponses] at h
  | cons r rs ih =>
    intro s h
    cases r with
    | err cause ctxErr => cases ctxErr <;> simp [ClientV2.watchResponses] at h
    | ok resp =>
      by_cases hc : (ClientV2.watchResponse m s resp).ctl = .next
      · simp only [ClientV2.watchResponses, hc, if_true] at h ⊢
        exact ih _ h
      · simp only [ClientV2.watchResponses, hc, if_false] at h ⊢
        exact watchResponse_brk_v2 m s resp h



theorem watchResponses_lift_v2 (m : Int) (V : Response → Prop)
    (Q R : WatchStateV2 → List (Output Nat Nat) → WatchStateV2 → Prop)
    (hrefl : ∀ s, Q s [] s)
    (hQQ : ∀ s o s1 o2 s2, Q s o s1 → Q s1 o2 s2 → Q s (o ++ o2) s2)
    (hQR : ∀ s o s1 o2 s2, Q s o s1 → R s1 o2 s2 → R s (o ++ o2) s2)
    (hcancel : ∀ s, R s [] s)
    (herr : ∀ s cause, R s [.fail (.watchError cause)] s)
    (hstep : ∀ s resp, V resp →
      ((ClientV2.watchResponse m s resp).ctl ≠ .ret →
        Q s (ClientV2.watchResponse m s resp).out (ClientV2.watchResponse m s resp).st) ∧
      ((ClientV2.watchResponse m s resp).ctl = .ret →
        R s (ClientV2.watchResponse m s resp).out (ClientV2.watchResponse m s resp).st))
    (rs : List NextResult) : ∀ (s : WatchStateV2), (∀ resp, NextResult.ok resp ∈ rs → V resp) →
      ((ClientV2.watchResponses m s rs).ctl ≠ .ret →
        Q s (ClientV2.watchResponses m s rs).out (ClientV2.watchResponses m s rs).st) ∧
      ((ClientV2.watchResponses m s rs).ctl = .ret →
        R s (ClientV2.watchResponses m s rs).out (ClientV2.watchResponses m s rs).st) := by
  induction rs with
  | nil => intro s _; simp [ClientV2.watchResponses, hrefl]
  | cons r rs ih =>
    intro s hV
    cases r with
    | err cause ctxErr => cases ctxErr <;> simp [ClientV2.watchResponses, hcancel, herr]
    | ok resp =>
      have hs := hstep s resp (hV resp (List.mem_cons_self _ _))
      have hi := ih (ClientV2.watchResponse m s resp).st
        (fun x hx => hV x (List.mem_cons_of_mem _ hx))
      by_cases hc : (ClientV2.watchResponse m s resp).ctl = .next
      · have hq := hs.1 (by simp [hc])
        simp only [ClientV2.watchResponses, hc, if_true]
        exact ⟨fun h => hQQ _ _ _ _ _ hq (hi.1 h), fun h => hQR _ _ _ _ _ hq (hi.2 h)⟩
      · simp only [ClientV2.watchResponses, hc, if_false]
        exact hs

theorem watchLoop_lift_v2 (m : Int) (V : Response → Prop)
    (Q R : WatchStateV2 → List (Output Nat Nat) → WatchStateV2 → Prop)
    (hrefl : ∀ s, Q s [] s)
    (hQQ : ∀ s o s1 o2 s2, Q s o s1 → Q s1 o2 s2 → Q s (o ++ o2) s2)
    (hQR : ∀ s o s1 o2 s2, Q s o s1 → R s1 o2 s2 → R s (o ++ o2) s2)
    (hsub : ∀ s, Q s [.subscribe (ClientV2.watchRequest s)] s)
    (hcancel : ∀ s, R s [] s)
    (herr : ∀ s cause, R s [.fail (.watchError cause)] s)
    (hstep : ∀ s resp, V resp →
      ((ClientV2.watchResponse m s resp).ctl ≠ .ret →
        Q s (ClientV2.watchResponse m s resp).out (ClientV2.watchResponse m s resp).st) ∧
      ((ClientV2.watchResponse m s resp).ctl = .ret →
        R s (ClientV2.watchResponse m s resp).out (ClientV2.watchResponse m s resp).st))
    (subs : List (List NextResult)) :
    ∀ (s : WatchStateV2), (∀ sub ∈ subs, ∀ resp, NextResult.ok resp ∈ sub → V resp) →
      ((ClientV2.watchLoop m s subs).ctl ≠ .ret →
        Q s (ClientV2.watchLoop m s subs).out (ClientV2.watchLoop m s subs).st) ∧
      ((ClientV2.watchLoop m s subs).ctl = .ret →
        R s (ClientV2.watchLoop m s subs).out (ClientV2.watchLoop m s subs).st) := by
  induction subs with
  | nil => intro s _; simp [ClientV2.watchLoop, hsub]
  | cons sub subs ih =>
    intro s hV
    have hr := watchResponses_lift_v2 m V Q R hrefl hQQ hQR hcancel herr hstep sub s
      (hV sub (List.mem_cons_self _ _))
    have hi := ih (ClientV2.watchResponses m s sub).st
      (fun x hx => hV x (List.mem_cons_of_mem _ hx))
    by_cases hc : (ClientV2.watchResponses m s sub).ctl = .brk
    · have hd := watchResponses_brk_v2 m sub s hc
      have hq := hr.1 (by simp [hc])
      simp only [ClientV2.watchLoop, hc, hd, if_true, Bool.not_true, Bool.false_eq_true,
        if_false]
      exact ⟨fun h => hQQ _ [_] _ _ _ (hsub s) (hQQ _ _ _ _ _ hq (hi.1 h)),
        fun h => hQR _ [_] _ _ _ (hsub s) (hQR _ _ _ _ _ hq (hi.2 h))⟩
    · simp only [ClientV2.watchLoop, hc, if_false]
      exact ⟨fun h => hQQ _ [_] _ _ _ (hsub s) (hr.1 h),
        fun h => hQR _ [_] _ _ _ (hsub s) (hr.2 h)⟩

/-! ## Cursor order of the delivered events -/

theorem wrapInt64_succ_of_valid (r : Int) (h : ValidRevision r) : wrapInt64 (r + 1) = r + 1 := by
  unfold ValidRevision at h
  exact wrapInt64_of_lt _ (by omega) (by omega)

theorem wrapUint64_succ_of_valid (i : Nat) (h : ValidIndex i) : wrapUint64 (i + 1) = i + 1 := by
  unfold ValidIndex at h
  exact wrapUint64_of_lt _ (by omega)

theorem watchEvent_accepted_v3 (m : Int) (s : WatchState) (e : Event)
    (hv : ValidRevision e.ModRevision) :
    ((Client.watchEvent m s e).ctl ≠ .ret →
      AcceptedFrom (-1) s.ExpectedModRevision (deliveredCursors (Client.watchEvent m s e).out)
        (Client.watchEvent m s e).st.ExpectedModRevision) ∧
    ((Client.watchEvent m s e).ctl = .ret →
      ∃ y, AcceptedFrom (-1) s.ExpectedModRevision
        (deliveredCursors (Client.watchEvent m s e).out) y) := by
  have hw := wrapInt64_succ_of_valid _ hv
  have h0 : e.ModRevision + 1 ≠ -1 := by unfold ValidRevision at hv; omega
  simp only [Client.watchEvent, Client.initExpected, Client.onMismatch, Client.onMatch]
  split_ifs <;> simp_all [deliveredCursors, AcceptedFrom]

theorem watchEvent_increasing_v3 (m : Int) (s : WatchState) (e : Event)
    (hv : ValidRevision e.ModRevision) :
    ((Client.watchEvent m s e).ctl ≠ .ret →
      IncreasingFrom s.ExpectedModRevision (deliveredCursors (Client.watchEvent m s e).out)
        (Client.watchEvent m s e).st.ExpectedModRevision) ∧
    ((Client.watchEvent m s e).ctl = .ret →
      ∃ y, IncreasingFrom s.ExpectedModRevision
        (deliveredCursors (Client.watchEvent m s e).out) y) := by
  have hw := wrapInt64_succ_of_valid _ hv
  have h0 : (-1 : Int) ≤ e.ModRevision := by unfold ValidRevision at hv; omega
  simp only [Client.watchEvent, Client.initExpected, Client.onMismatch, Client.onMatch]
  split_ifs <;> simp_all [deliveredCursors, IncreasingFrom]
  all_goals exact ⟨_, le_refl _⟩


theorem toWatchEvent_isSome_v2 (a k v : String) (h : ClientV2.knownAction a) :
    ∃ ev, ClientV2.toWatchEvent a k v = some ev := by
  unfold ClientV2.knownAction at h
  unfold ClientV2.toWatchEvent
  split_ifs with h1 h2
  · exact ⟨_, rfl⟩
  · exact ⟨_, rfl⟩
  · exact absurd h (by tauto)

theorem mem_responsesOf (rs : List NextResult) (resp : Response)
    (h : NextResult.ok resp ∈ rs) : resp ∈ responsesOf rs := by
  induction rs with
  | nil => simp at h
  | cons r rs ih =>
    cases r with
    | ok r0 =>
      rcases List.mem_cons.1 h with h | h
      · cases h; simp [responsesOf]
      · simp [responsesOf, ih h]
    | err c b =>
      rcases List.mem_cons.1 h with h | h
      · cases h
      · simp [responsesOf, ih h]

theorem watchResponse_accepted_v2 (m : Int) (s : WatchStateV2) (resp : Response)
    (hv : ValidIndex resp.Node.modifiedIndex ∧ ClientV2.knownAction resp.Action) :
    ((ClientV2.watchResponse m s resp).ctl ≠ .ret →
      AcceptedFrom 0 s.ExpectedModIndex (deliveredCursors (ClientV2.watchResponse m s resp).out)
        (ClientV2.watchResponse m s resp).st.ExpectedModIndex) ∧
    ((ClientV2.watchResponse m s resp).ctl = .ret →
      ∃ y, AcceptedFrom 0 s.ExpectedModIndex
        (deliveredCursors (ClientV2.watchResponse m s resp).out) y) := by
  unfold ClientV2.watchResponse
  cases hn : resp.Node with
  | nil => simp [deliveredCursors, AcceptedFrom]
  | mk key dir value idx nodes =>
    have hi : ValidIndex idx := by simpa [hn, Node.modifiedIndex] using hv.1
    have hw := wrapUint64_succ_of_valid _ hi
    obtain ⟨ev, hev⟩ := toWatchEvent_isSome_v2 resp.Action key value hv.2
    simp only [ClientV2.initExpected, ClientV2.onMismatch, ClientV2.onMatch, hev]
    split_ifs <;> simp_all [deliveredCursors, AcceptedFrom]

theorem watchResponse_increasing_v2 (m : Int) (s : WatchStateV2) (resp : Response)
    (hv : ValidIndex resp.Node.modifiedIndex) :
    ((ClientV2.watchResponse m s resp).ctl ≠ .ret →
      IncreasingFrom s.ExpectedModIndex
        (deliveredCursors (ClientV2.watchResponse m s resp).out)
        (ClientV2.watchResponse m s resp).st.ExpectedModIndex) ∧
    ((ClientV2.watchResponse m s resp).ctl = .ret →
      ∃ y, IncreasingFrom s.ExpectedModIndex
        (deliveredCursors (ClientV2.watchResponse m s resp).out) y) := by
  unfold ClientV2.watchResponse
  cases hn : resp.Node with
  | nil => simp [deliveredCursors, IncreasingFrom]
  | mk key dir value idx nodes =>
    have hi : ValidIndex idx := by simpa [hn, Node.modifiedIndex] using hv
    have hw := wrapUint64_succ_of_valid _ hi
    simp only [ClientV2.initExpected, ClientV2.onMismatch, ClientV2.onMatch]
    cases ClientV2.toWatchEvent resp.Action key value <;>
      split_ifs <;> simp_all [deliveredCursors, IncreasingFrom]
    all_goals exact ⟨_, le_refl _⟩

/-- Along a whole run of the v3 producer the cursors delivered are accepted one after the
other, whatever state the run starts in. -/
theorem watchLoop_accepted_v3 (m : Int) (s : WatchState) (subs : List (List WatchResponse))
    (h : ValidRevisions subs) :
    ∃ y, AcceptedFrom (-1) s.ExpectedModRevision
      (deliveredCursors (Client.watchLoop m s subs).out) y := by
  have hl := watchLoop_lift_v3 m (fun e => ValidRevision e.ModRevision)
    (fun s o s2 => AcceptedFrom (-1) s.ExpectedModRevision (deliveredCursors o)
      s2.ExpectedModRevision)
    (fun s o _ => ∃ y, AcceptedFrom (-1) s.ExpectedModRevision (deliveredCursors o) y)
    (fun s => by simp [deliveredCursors, AcceptedFrom])
    (fun s o s1 o2 s2 h1 h2 => by
      simp only [deliveredCursors_append]; exact acceptedFrom_append _ _ _ _ _ _ h1 h2)
    (fun s o s1 o2 s2 h1 h2 => by
      obtain ⟨y, hy⟩ := h2
      simp only [deliveredCursors_append]; exact ⟨y, acceptedFrom_append _ _ _ _ _ _ h1 hy⟩)
    (fun s => by simp [deliveredCursors, AcceptedFrom])
    (fun s cause => by simp [deliveredCursors, AcceptedFrom])
    (fun s e hv => watchEvent_accepted_v3 m s e hv) subs s h
  by_cases hc : (Client.watchLoop m s subs).ctl = .ret
  · exact hl.2 hc
  · exact ⟨_, hl.1 hc⟩

theorem watchLoop_increasing_v3 (m : Int) (s : WatchState)
    (subs : List (List WatchResponse)) (h : ValidRevisions subs) :
    ∃ y, IncreasingFrom s.ExpectedModRevision
      (deliveredCursors (Client.watchLoop m s subs).out) y := by
  have hl := watchLoop_lift_v3 m (fun e => ValidRevision e.ModRevision)
    (fun s o s2 => IncreasingFrom s.ExpectedModRevision (deliveredCursors o)
      s2.ExpectedModRevision)
    (fun s o _ => ∃ y, IncreasingFrom s.ExpectedModRevision (deliveredCursors o) y)
    (fun s => by simp [deliveredCursors, IncreasingFrom])
    (fun s o s1 o2 s2 h1 h2 => by
      simp only [deliveredCursors_append]; exact increasingFrom_append _ _ _ _ _ h1 h2)
    (fun s o s1 o2 s2 h1 h2 => by
      obtain ⟨y, hy⟩ := h2
      simp only [deliveredCursors_append]; exact ⟨y, increasingFrom_append _ _ _ _ _ h1 hy⟩)
    (fun s => by simp [deliveredCursors, IncreasingFrom])
    (fun s cause => ⟨s.1, by simp [deliveredCursors, IncreasingFrom]⟩)
    (fun s e hv => watchEvent_increasing_v3 m s e hv) subs s h
  by_cases hc : (Client.watchLoop m s subs).ctl = .ret
  · exact hl.2 hc
  · exact ⟨_, hl.1 hc⟩

theorem watchLoop_accepted_v2 (m : Int) (s : WatchStateV2)
    (subs : List (List NextResult)) (h : ValidIndices subs) (hk : KnownActions subs) :
    ∃ y, AcceptedFrom 0 s.ExpectedModIndex
      (deliveredCursors (ClientV2.watchLoop m s subs).out) y := by
  have hl := watchLoop_lift_v2 m
    (fun resp => ValidIndex resp.Node.modifiedIndex ∧ ClientV2.knownAction resp.Action)
    (fun s o s2 => AcceptedFrom 0 s.ExpectedModIndex (deliveredCursors o) s2.ExpectedModIndex)
    (fun s o _ => ∃ y, AcceptedFrom 0 s.ExpectedModIndex (deliveredCursors o) y)
    (fun s => by simp [deliveredCursors, AcceptedFrom])
    (fun s o s1 o2 s2 h1 h2 => by
      simp only [deliveredCursors_append]; exact acceptedFrom_append _ _ _ _ _ _ h1 h2)
    (fun s o s1 o2 s2 h1 h2 => by
      obtain ⟨y, hy⟩ := h2
      simp only [deliveredCursors_append]; exact ⟨y, acceptedFrom_append _ _ _ _ _ _ h1 hy⟩)
    (fun s => by simp [deliveredCursors, AcceptedFrom])
    (fun s => by simp [deliveredCursors, AcceptedFrom])
    (fun s cause => by simp [deliveredCursors, AcceptedFrom])
    (fun s resp hv => watchResponse_accepted_v2 m s resp hv) subs s
    (fun sub hs resp hr =>
      ⟨h sub hs resp (mem_responsesOf _ _ hr), hk sub hs resp (mem_responsesOf _ _ hr)⟩)
  by_cases hc : (ClientV2.watchLoop m s subs).ctl = .ret
  · exact hl.2 hc
  · exact ⟨_, hl.1 hc⟩

theorem watchLoop_increasing_v2 (m : Int) (s : WatchStateV2)
    (subs : List (List NextResult)) (h : ValidIndices subs) :
    ∃ y, IncreasingFrom s.ExpectedModIndex
      (deliveredCursors (ClientV2.watchLoop m s subs).out) y := by
  have hl := watchLoop_lift_v2 m (fun resp => ValidIndex resp.Node.modifiedIndex)
    (fun s o s2 => IncreasingFrom s.ExpectedModIndex (deliveredCursors o) s2.ExpectedModIndex)
    (fun s o _ => ∃ y, IncreasingFrom s.ExpectedModIndex (deliveredCursors o) y)
    (fun s => by simp [deliveredCursors, IncreasingFrom])
    (fun s o s1 o2 s2 h1 h2 => by
      simp only [deliveredCursors_append]; exact increasingFrom_append _ _ _ _ _ h1 h2)
    (fun s o s1 o2 s2 h1 h2 => by
      obtain ⟨y, hy⟩ := h2
      simp only [deliveredCursors_append]; exact ⟨y, increasingFrom_append _ _ _ _ _ h1 hy⟩)
    (fun s => by simp [deliveredCursors, IncreasingFrom])
    (fun s => ⟨s.1, by simp [deliveredCursors, IncreasingFrom]⟩)
    (fun s cause => ⟨s.1, by simp [deliveredCursors, IncreasingFrom]⟩)
    (fun s resp hv => watchResponse_increasing_v2 m s resp hv) subs s
    (fun sub hs resp hr => h sub hs resp (mem_responsesOf _ _ hr))
  by_cases hc : (ClientV2.watchLoop m s subs).ctl = .ret
  · exact hl.2 hc
  · exact ⟨_, hl.1 hc⟩

/-! ## C1, C2: the cursors of the delivered events -/

/-- C1 fails as stated on the v2 backend. A fresh v2 client observes `set` at index 7, then
`get` (an action code outside the seven the `switch` knows) at index 8, then `set` at index 9.
The event at 8 passes the cursor check and moves the expected index to 9, but the `default`
case skips it; the events delivered one immediately after the other carry 7 and 9. -/
theorem watch_v2_unknown_action_between_deliveries :
    deliveredCursors (ClientV2.Watch exampleClientV2 unknownActionSessionV2).out = [7, 9] ∧
    ¬ List.Chain' (fun a b => b = a + 1)
      (deliveredCursors (ClientV2.Watch exampleClientV2 unknownActionSessionV2).out) := by
  have h : deliveredCursors (ClientV2.Watch exampleClientV2 unknownActionSessionV2).out
      = [7, 9] := by decide
  refine ⟨h, ?_⟩
  rw [h]
  simp

/-- C1, as amended. On the v3 backend, and on the v2 backend when every response carries one of
the seven known action codes, two events delivered one immediately after the other have
consecutive cursors, whatever the subscriptions served (gaps and resubscriptions included) and
whatever the retry bound. On both backends and for every action code, an event that is
delivered carries the expected cursor (as the first event initialized it) and leaves the
expected cursor at its own cursor plus one. Cursors are revisions or indices the server can
assign (`ValidRevisions`, `ValidIndices`). -/
theorem watch_delivered_cursors_consecutive
    (c : Client) (subs : List (List WatchResponse)) (hr : ValidRevisions subs)
    (c2 : ClientV2) (subs2 : List (List NextResult)) (hi : ValidIndices subs2)
    (hk : KnownActions subs2) :
    List.Chain' (fun a b => b = a + 1) (deliveredCursors (Client.Watch c subs).out) ∧
    List.Chain' (fun a b => b = a + 1) (deliveredCursors (ClientV2.Watch c2 subs2).out) ∧
    (∀ (m : Int) (s : WatchState) (e : Event) (k : Int) (ev : WatchEvent),
      ValidRevision e.ModRevision → Output.deliver k ev ∈ (Client.watchEvent m s e).out →
      k = e.ModRevision ∧ (Client.initExpected s e).ExpectedModRevision = k ∧
      (Client.watchEvent m s e).st.ExpectedModRevision = k + 1) ∧
    (∀ (m : Int) (s : WatchStateV2) (resp : Response) (k : Nat) (ev : WatchEvent),
      ValidIndex resp.Node.modifiedIndex →
      Output.deliver k ev ∈ (ClientV2.watchResponse m s resp).out →
      k = resp.Node.modifiedIndex ∧ (ClientV2.initExpected s k).ExpectedModIndex = k ∧
      (ClientV2.watchResponse m s resp).st.ExpectedModIndex = k + 1) := by
  refine ⟨?_, ?_, ?_, ?_⟩
  · obtain ⟨y, hy⟩ := watchLoop_accepted_v3 c.maxWatchRetries
      { ExpectedModRevision := c.ExpectedModRevision, watchRevisionDiscrepancy := false,
        consecutiveFailureCount := 0 } subs hr
    exact acceptedFrom_chain _ _ _ _ hy
  · obtain ⟨y, hy⟩ := watchLoop_accepted_v2 c2.maxWatchRetries
      { ExpectedModIndex := c2.ExpectedModIndex, watchIndexDiscrepancy := false,
        consecutiveFailureCount := 0 } subs2 hi hk
    exact acceptedFrom_chain _ _ _ _ hy
  · intro m s e k ev hv hmem
    have hw := wrapInt64_succ_of_valid _ hv
    simp only [Client.watchEvent, Client.initExpected, Client.onMismatch, Client.onMatch]
      at hmem ⊢
    split_ifs at hmem ⊢ <;> simp_all
  · intro m s resp k ev hv hmem
    unfold ClientV2.watchResponse at hmem ⊢
    cases hn : resp.Node with
    | nil => simp [hn] at hmem
    | mk key dir value idx nodes =>
      have hi2 : ValidIndex idx := by simpa [hn, Node.modifiedIndex] using hv
      have hw := wrapUint64_succ_of_valid _ hi2
      simp only [hn, ClientV2.initExpected, ClientV2.onMismatch, ClientV2.onMatch,
        Node.modifiedIndex] at hmem ⊢
      cases hev : ClientV2.toWatchEvent resp.Action key value <;>
        simp only [hev] at hmem ⊢ <;> split_ifs at hmem ⊢ <;> simp_all

/-- Witness of C1: scenario 3 (7, 9, then 8, 9 after the resubscription) on both backends. -/
theorem watch_delivered_cursors_consecutive_witness :
    ValidRevisions gapSession ∧ ValidIndices gapSessionV2 ∧ KnownActions gapSessionV2 ∧
    List.Chain' (fun a b => b = a + 1)
      (deliveredCursors (Client.Watch exampleClient gapSession).out) ∧
    List.Chain' (fun a b => b = a + 1)
      (deliveredCursors (ClientV2.Watch exampleClientV2 gapSessionV2).out) :=
  have h := watch_delivered_cursors_consecutive exampleClient gapSession (by decide)
    exampleClientV2 gapSessionV2 (by decide) (by decide)
  ⟨by decide, by decide, by decide, h.1, h.2.1⟩

/-- C2: on both backends the cursors of the events delivered on the event channel are strictly
increasing, whatever the subscriptions served (gaps and resubscriptions included), whatever
the action codes and whatever the retry bound: no event is delivered twice and none out of
order. Cursors are revisions or indices the server can assign. -/
theorem watch_delivered_cursors_increasing
    (c : Client) (subs : List (List WatchResponse)) (hr : ValidRevisions subs)
    (c2 : ClientV2) (subs2 : List (List NextResult)) (hi : ValidIndices subs2) :
    List.Pairwise (fun a b => a < b) (deliveredCursors (Client.Watch c subs).out) ∧
    List.Pairwise (fun a b => a < b) (deliveredCursors (ClientV2.Watch c2 subs2).out) := by
  constructor
  · obtain ⟨y, hy⟩ := watchLoop_increasing_v3 c.maxWatchRetries
      { ExpectedModRevision := c.ExpectedModRevision, watchRevisionDiscrepancy := false,
        consecutiveFailureCount := 0 } subs hr
    exact increasingFrom_sorted _ _ _ hy
  · obtain ⟨y, hy⟩ := watchLoop_increasing_v2 c2.maxWatchRetries
      { ExpectedModIndex := c2.ExpectedModIndex, watchIndexDiscrepancy := false,
        consecutiveFailureCount := 0 } subs2 hi
    exact increasingFrom_sorted _ _ _ hy

/-- Witness of C2: scenario 3 on v3, where 9 is observed twice and delivered once, and a v2
session with an unknown action code at index 8. -/
theorem watch_delivered_cursors_increasing_witness :
    ValidRevisions gapSession ∧ ValidIndices unknownActionSessionV2 ∧
    deliveredCursors (Client.Watch exampleClient gapSession).out = [7, 8, 9] ∧
    List.Pairwise (fun a b => a < b)
      (deliveredCursors (Client.Watch exampleClient gapSession).out) ∧
    List.Pairwise (fun a b => a < b)
      (deliveredCursors (ClientV2.Watch exampleClientV2 unknownActionSessionV2).out) :=
  have h := watch_delivered_cursors_increasing exampleClient gapSession (by decide)
    exampleClientV2 unknownActionSessionV2 (by decide)
  ⟨by decide, by decide, by decide, h.1, h.2⟩

/-! ## C3: what follows a gap detection -/

theorem chain'_append_of {α : Type} (F : α → α → Prop) (o1 o2 : List α)
    (h1 : List.Chain' F o1) (h2 : List.Chain' F o2)
    (hj : ∀ a, o1.getLast? = some a → ∀ b, o2.head? = some b → F a b) :
    List.Chain' F (o1 ++ o2) := by
  rw [List.chain'_append]
  exact ⟨h1, h2, fun a ha b hb => hj a ha b hb⟩

theorem watchEvent_gap_v3 (m : Int) (s : WatchState) (e : Event) :
    List.Chain' (Client.followsGap m) (Client.watchEvent m s e).out ∧
    (∀ n x, (Client.watchEvent m s e).out.getLast? = some (.warn n x) →
      (Client.watchEvent m s e).ctl = .brk ∧
      (Client.watchEvent m s e).st.watchRevisionDiscrepancy = true ∧
      (Client.watchEvent m s e).st.ExpectedModRevision = x) ∧
    ((Client.watchEvent m s e).ctl = .brk →
      (Client.watchEvent m s e).st.watchRevisionDiscrepancy = true) := by
  simp only [Client.watchEvent, Client.initExpected, Client.onMismatch, Client.onMatch]
  split_ifs <;> simp [Client.followsGap]

theorem watchEvents_gap_v3 (m : Int) (es : List Event) : ∀ (s : WatchState),
    List.Chain' (Client.followsGap m) (Client.watchEvents m s es).out ∧
    (∀ n x, (Client.watchEvents m s es).out.getLast? = some (.warn n x) →
      (Client.watchEvents m s es).ctl = .brk ∧
      (Client.watchEvents m s es).st.watchRevisionDiscrepancy = true ∧
      (Client.watchEvents m s es).st.ExpectedModRevision = x) ∧
    ((Client.watchEvents m s es).ctl = .brk →
      (Client.watchEvents m s es).st.watchRevisionDiscrepancy = true) := by
  induction es with
  | nil => intro s; simp [Client.watchEvents]
  | cons e es ih =>
    intro s
    have hs := watchEvent_gap_v3 m s e
    have hi := ih (Client.watchEvent m s e).st
    by_cases hc : (Client.watchEvent m s e).ctl = .next
    · simp only [Client.watchEvents, hc, if_true]
      have hlast : ∀ a, (Client.watchEvent m s e).out.getLast? = some a →
          ∀ n x, a ≠ .warn n x := by
        intro a ha n x hax
        subst hax
        have := (hs.2.1 n x ha).1
        rw [hc] at this
        cases this
      refine ⟨chain'_append_of _ _ _ hs.1 hi.1 ?_, ?_, hi.2.2⟩
      · intro a ha b _ n x hax
        exact absurd hax (hlast a ha n x)
      · intro n x hx
        rw [List.getLast?_append] at hx
        cases h2 : (Client.watchEvents m (Client.watchEvent m s e).st es).out.getLast? with
        | none =>
          rw [h2] at hx
          exact absurd rfl (hlast _ (by simpa using hx) n x)
        | some b =>
          rw [h2] at hx
          have hb : b = .warn n x := by simpa using hx
          subst hb
          exact hi.2.1 n x h2
    · simp only [Client.watchEvents, hc, if_false]
      exact hs


theorem getLast?_append_cases {α : Type} (o1 o2 : List α) (a : α)
    (h : (o1 ++ o2).getLast? = some a) :
    o2.getLast? = some a ∨ (o2.getLast? = none ∧ o1.getLast? = some a) := by
  rw [List.getLast?_append] at h
  cases h2 : o2.getLast? with
  | none => rw [h2] at h; exact Or.inr ⟨rfl, by simpa using h⟩
  | some b => rw [h2] at h; exact Or.inl (by simpa using h)

theorem watchResponses_gap_v3 (m : Int) (ws : List WatchResponse) : ∀ (s : WatchState),
    List.Chain' (Client.followsGap m) (Client.watchResponses m s ws).out ∧
    (∀ n x, (Client.watchResponses m s ws).out.getLast? = some (.warn n x) →
      (Client.watchResponses m s ws).ctl = .brk ∧
      (Client.watchResponses m s ws).st.watchRevisionDiscrepancy = true ∧
      (Client.watchResponses m s ws).st.ExpectedModRevision = x) := by
  induction ws with
  | nil => intro s; simp [Client.watchResponses]
  | cons w ws ih =>
    intro s
    cases hw : w.Err with
    | some cause => simp [Client.watchResponses, hw]
    | none =>
      have he := watchEvents_gap_v3 m w.Events s
      have hi := ih (Client.watchEvents m s w.Events).st
      by_cases hc : (Client.watchEvents m s w.Events).ctl = .ret
      · simp only [Client.watchResponses, hw, hc, if_true]
        refine ⟨he.1, fun n x hx => ?_⟩
        have h3 := (he.2.1 n x hx).1
        rw [hc] at h3
        cases h3
      · by_cases hd : (Client.watchEvents m s w.Events).st.watchRevisionDiscrepancy = true
        · simp only [Client.watchResponses, hw, hc, hd, if_true, if_false]
          refine ⟨he.1, fun n x hx => ?_⟩
          have h3 := he.2.1 n x hx
          simp [h3.2.2]
        · simp only [Client.watchResponses, hw, hc, hd, if_false]
          have hlast : ∀ n x, (Client.watchEvents m s w.Events).out.getLast?
              ≠ some (.warn n x) := fun n x hx => hd (he.2.1 n x hx).2.1
          refine ⟨chain'_append_of _ _ _ he.1 hi.1 ?_, ?_⟩
          · intro a ha b _ n x hax
            subst hax
            exact absurd ha (hlast n x)
          · intro n x hx
            rcases getLast?_append_cases _ _ _ hx with h2 | h2
            · exact hi.2 n x h2
            · exact absurd h2.2 (hlast n x)

theorem watchLoop_head_v3 (m : Int) (s : WatchState) (subs : List (List WatchResponse)) :
    (Client.watchLoop m s subs).out.head? = some (.subscribe (Client.watchRequest s)) := by
  cases subs with
  | nil => simp [Client.watchLoop]
  | cons sub subs =>
    by_cases hc : (Client.watchResponses m s sub).ctl = .ret <;>
      simp [Client.watchLoop, hc]

theorem watchLoop_gap_v3 (m : Int) (subs : List (List WatchResponse)) : ∀ (s : WatchState),
    List.Chain' (Client.followsGap m) (Client.watchLoop m s subs).out ∧
    (∀ n x, (Client.watchLoop m s subs).out.getLast? ≠ some (.warn n x)) := by
  induction subs with
  | nil => intro s; simp [Client.watchLoop]
  | cons sub subs ih =>
    intro s
    have hr := watchResponses_gap_v3 m sub s
    have hi := ih (Client.watchResponses m s sub).st
    have hsub : ∀ (o : List (Output (Option Int) Int)) (r : Option Int),
        List.Chain' (Client.followsGap m) o →
        List.Chain' (Client.followsGap m) (.subscribe r :: o) := by
      intro o r ho
      rw [List.chain'_cons']
      refine ⟨fun y _ => ?_, ho⟩
      intro n x h
      cases h
    by_cases hc : (Client.watchResponses m s sub).ctl = .ret
    · simp only [Client.watchLoop, hc, if_true]
      refine ⟨hsub _ _ hr.1, ?_⟩
      intro n x hx
      rcases getLast?_append_cases [_] _ _ hx with h2 | h2
      · have := (hr.2 n x h2).1
        rw [hc] at this
        cases this
      · simp at h2
    · simp only [Client.watchLoop, hc, if_false]
      refine ⟨hsub _ _ (chain'_append_of _ _ _ hr.1 hi.1 ?_), ?_⟩
      · intro a ha b hb n x hax
        subst hax
        have h3 := hr.2 n x ha
        rw [watchLoop_head_v3] at hb
        right
        simp only [Client.watchRequest, h3.2.1, if_true, h3.2.2] at hb
        exact (Option.some.inj hb).symm
      · intro n x hx
        have hx2 : ([Output.subscribe (Client.watchRequest s)] ++
            ((Client.watchResponses m s sub).out ++
              (Client.watchLoop m (Client.watchResponses m s sub).st subs).out)).getLast?
            = some (.warn n x) := hx
        rcases getLast?_append_cases _ _ _ hx2 with h2 | h2
        · rcases getLast?_append_cases _ _ _ h2 with h4 | h4
          · exact hi.2 n x h4
          · have := watchLoop_head_v3 m (Client.watchResponses m s sub).st subs
            have hnil : (Client.watchLoop m (Client.watchResponses m s sub).st subs).out = [] :=
              List.getLast?_eq_none_iff.1 h4.1
            rw [hnil] at this
            simp at this
        · simp at h2


theorem watchResponse_gap_v2 (m : Int) (s : WatchStateV2) (resp : Response) :
    List.Chain' (ClientV2.followsGap m) (ClientV2.watchResponse m s resp).out ∧
    (∀ n x, (ClientV2.watchResponse m s resp).out.getLast? = some (.warn n x) →
      (ClientV2.watchResponse m s resp).ctl = .brk ∧
      (ClientV2.watchResponse m s resp).st.watchIndexDiscrepancy = true ∧
      (ClientV2.watchResponse m s resp).st.ExpectedModIndex = x ∧ 0 < x) := by
  unfold ClientV2.watchResponse
  cases hn : resp.Node with
  | nil => simp
  | mk key dir value idx nodes =>
    simp only [ClientV2.initExpected, ClientV2.onMismatch, ClientV2.onMatch]
    cases ClientV2.toWatchEvent resp.Action key value <;>
      split_ifs <;> simp_all [ClientV2.followsGap] <;> omega

theorem watchResponses_gap_v2 (m : Int) (rs : List NextResult) : ∀ (s : WatchStateV2),
    List.Chain' (ClientV2.followsGap m) (ClientV2.watchResponses m s rs).out ∧
    (∀ n x, (ClientV2.watchResponses m s rs).out.getLast? = some (.warn n x) →
      (ClientV2.watchResponses m s rs).ctl = .brk ∧
      (ClientV2.watchResponses m s rs).st.watchIndexDiscrepancy = true ∧
      (ClientV2.watchResponses m s rs).st.ExpectedModIndex = x ∧ 0 < x) := by
  induction rs with
  | nil => intro s; simp [ClientV2.watchResponses]
  | cons r rs ih =>
    intro s
    cases r with
    | err cause ctxErr => cases ctxErr <;> simp [ClientV2.watchResponses]
    | ok resp =>
      have hs := watchResponse_gap_v2 m s resp
      have hi := ih (ClientV2.watchResponse m s resp).st
      by_cases hc : (ClientV2.watchResponse m s resp).ctl = .next
      · simp only [ClientV2.watchResponses, hc, if_true]
        have hlast : ∀ n x, (ClientV2.watchResponse m s resp).out.getLast?
            ≠ some (.warn n x) := by
          intro n x hx
          have h3 := (hs.2 n x hx).1
          rw [hc] at h3
          cases h3
        refine ⟨chain'_append_of _ _ _ hs.1 hi.1 ?_, ?_⟩
        · intro a ha b _ n x hax
          subst hax
          exact absurd ha (hlast n x)
        · intro n x hx
          rcases getLast?_append_cases _ _ _ hx with h2 | h2
          · exact hi.2 n x h2
          · exact absurd h2.2 (hlast n x)
      · simp only [ClientV2.watchResponses, hc, if_false]
        exact hs

theorem watchLoop_head_v2 (m : Int) (s : WatchStateV2) (subs : List (List NextResult)) :
    (ClientV2.watchLoop m s subs).out.head? = some (.subscribe (ClientV2.watchRequest s)) := by
  cases subs with
  | nil => simp [ClientV2.watchLoop]
  | cons sub subs =>
    by_cases hc : (ClientV2.watchResponses m s sub).ctl = .brk
    · by_cases hd : (ClientV2.watchResponses m s sub).st.watchIndexDiscrepancy = true <;>
        simp [ClientV2.watchLoop, hc, hd]
    · simp [ClientV2.watchLoop, hc]

theorem watchLoop_gap_v2 (m : Int) (subs : List (List NextResult)) : ∀ (s : WatchStateV2),
    List.Chain' (ClientV2.followsGap m) (ClientV2.watchLoop m s subs).out ∧
    (∀ n x, (ClientV2.watchLoop m s subs).out.getLast? ≠ some (.warn n x)) := by
  induction subs with
  | nil => intro s; simp [ClientV2.watchLoop]
  | cons sub subs ih =>
    intro s
    have hr := watchResponses_gap_v2 m sub s
    have hi := ih (ClientV2.watchResponses m s sub).st
    have hsub : ∀ (o : List (Output Nat Nat)) (r : Nat),
        List.Chain' (ClientV2.followsGap m) o →
        List.Chain' (ClientV2.followsGap m) (.subscribe r :: o) := by
      intro o r ho
      rw [List.chain'_cons']
      refine ⟨fun y _ => ?_, ho⟩
      intro n x h
      cases h
    by_cases hc : (ClientV2.watchResponses m s sub).ctl = .brk
    · have hd := watchResponses_brk_v2 m sub s hc
      simp only [ClientV2.watchLoop, hc, hd, if_true, Bool.not_true, Bool.false_eq_true,
        if_false]
      refine ⟨hsub _ _ (chain'_append_of _ _ _ hr.1 hi.1 ?_), ?_⟩
      · intro a ha b hb n x hax
        subst hax
        have h3 := hr.2 n x ha
        rw [watchLoop_head_v2] at hb
        right
        refine ⟨h3.2.2.2, ?_⟩
        have h4 : ClientV2.watchRequest (ClientV2.watchResponses m s sub).st = x - 1 := by
          simp [ClientV2.watchRequest, h3.2.1, h3.2.2.1, h3.2.2.2]
        rw [h4] at hb
        exact (Option.some.inj hb).symm
      · intro n x hx
        have hx2 : ([Output.subscribe (ClientV2.watchRequest s)] ++
            ((ClientV2.watchResponses m s sub).out ++
              (ClientV2.watchLoop m (ClientV2.watchResponses m s sub).st subs).out)).getLast?
            = some (.warn n x) := hx
        rcases getLast?_append_cases _ _ _ hx2 with h2 | h2
        · rcases getLast?_append_cases _ _ _ h2 with h4 | h4
          · exact hi.2 n x h4
          · have := watchLoop_head_v2 m (ClientV2.watchResponses m s sub).st subs
            have hnil : (ClientV2.watchLoop m (ClientV2.watchResponses m s sub).st subs).out
                = [] := List.getLast?_eq_none_iff.1 h4.1
            rw [hnil] at this
            simp at this
        · simp at h2
    · simp only [ClientV2.watchLoop, hc, if_false]
      refine ⟨hsub _ _ hr.1, ?_⟩
      intro n x hx
      rcases getLast?_append_cases [_] _ _ hx with h2 | h2
      · exact hc (hr.2 n x h2).1
      · simp at h2


/-- C3: on both backends, when the cursor of an observed event differs from the expected cursor
(after the first event initialized it), the event is not delivered, the expected cursor is
left unchanged and the mismatch is logged with that expected cursor `x`; and in every run
each such warning is immediately followed either by the fail-fast error (the retry bound is
reached) or by the opening of the next subscription, on v3 with `WithRev(x)`, on v2 with
`AfterIndex = x - 1` where `x > 0` (no unsigned underflow); a warning is never the last
thing the producer does. -/
theorem watch_gap_resubscribes_at_expected
    (c : Client) (subs : List (List WatchResponse))
    (c2 : ClientV2) (subs2 : List (List NextResult)) :
    (∀ (m : Int) (s : WatchState) (e : Event),
      e.ModRevision ≠ (Client.initExpected s e).ExpectedModRevision →
      deliveredCursors (Client.watchEvent m s e).out = [] ∧
      (Client.watchEvent m s e).st.ExpectedModRevision = s.ExpectedModRevision ∧
      (Client.watchEvent m s e).out.head? =
        some (.warn (wrapInt64 (s.consecutiveFailureCount + 1)) s.ExpectedModRevision)) ∧
    List.Chain' (Client.followsGap c.maxWatchRetries) (Client.Watch c subs).out ∧
    (∀ n x, (Client.Watch c subs).out.getLast? ≠ some (.warn n x)) ∧
    (∀ (m : Int) (s : WatchStateV2) (resp : Response),
      resp.Node ≠ .nil →
      resp.Node.modifiedIndex ≠
        (ClientV2.initExpected s resp.Node.modifiedIndex).ExpectedModIndex →
      deliveredCursors (ClientV2.watchResponse m s resp).out = [] ∧
      (ClientV2.watchResponse m s resp).st.ExpectedModIndex = s.ExpectedModIndex ∧
      0 < s.ExpectedModIndex ∧
      (ClientV2.watchResponse m s resp).out.head? =
        some (.warn (wrapInt64 (s.consecutiveFailureCount + 1)) s.ExpectedModIndex)) ∧
    List.Chain' (ClientV2.followsGap c2.maxWatchRetries) (ClientV2.Watch c2 subs2).out ∧
    (∀ n x, (ClientV2.Watch c2 subs2).out.getLast? ≠ some (.warn n x)) := by
  refine ⟨?_, (watchLoop_gap_v3 _ subs _).1, (watchLoop_gap_v3 _ subs _).2, ?_,
    (watchLoop_gap_v2 _ subs2 _).1, (watchLoop_gap_v2 _ subs2 _).2⟩
  · intro m s e hne
    simp only [Client.watchEvent, Client.initExpected, Client.onMismatch, Client.onMatch]
      at hne ⊢
    split_ifs at hne ⊢ <;> simp_all [deliveredCursors]
  · intro m s resp hnil hne
    unfold ClientV2.watchResponse
    cases hn : resp.Node with
    | nil => exact absurd hn hnil
    | mk key dir value idx nodes =>
      simp only [hn, Node.modifiedIndex, ClientV2.initExpected, ClientV2.onMismatch,
        ClientV2.onMatch] at hne ⊢
      split_ifs at hne ⊢ <;> simp_all [deliveredCursors] <;> omega

/-- Witness of C3: revision 9 observed while 8 is expected, and the same on v2. -/
theorem watch_gap_resubscribes_at_expected_witness :
    (deliveredCursors (Client.watchEvent 3 ⟨8, false, 0⟩ (putAt 9)).out = [] ∧
      (Client.watchEvent 3 ⟨8, false, 0⟩ (putAt 9)).st.ExpectedModRevision = 8 ∧
      (Client.watchEvent 3 ⟨8, false, 0⟩ (putAt 9)).out.head? =
        some (.warn (wrapInt64 (0 + 1)) 8)) ∧
    List.Chain' (Client.followsGap exampleClient.maxWatchRetries)
      (Client.Watch exampleClient stuckSession).out ∧
    (deliveredCursors (ClientV2.watchResponse 3 ⟨8, false, 0⟩
        { Action := "set", Node := .mk "/k" false "v" 9 [] }).out = [] ∧
      (ClientV2.watchResponse 3 ⟨8, false, 0⟩
        { Action := "set", Node := .mk "/k" false "v" 9 [] }).st.ExpectedModIndex = 8 ∧
      0 < 8 ∧
      (ClientV2.watchResponse 3 ⟨8, false, 0⟩
        { Action := "set", Node := .mk "/k" false "v" 9 [] }).out.head? =
        some (.warn (wrapInt64 (0 + 1)) 8)) ∧
    List.Chain' (ClientV2.followsGap exampleClientV2.maxWatchRetries)
      (ClientV2.Watch exampleClientV2 stuckSessionV2).out :=
  have h := watch_gap_resubscribes_at_expected exampleClient stuckSession exampleClientV2
    stuckSessionV2
  ⟨h.1 3 ⟨8, false, 0⟩ (putAt 9) (by decide), h.2.1,
   h.2.2.2.1 3 ⟨8, false, 0⟩ { Action := "set", Node := .mk "/k" false "v" 9 [] }
     (by simp) (by decide), h.2.2.2.2.1⟩

/-! ## The single steps, case by case -/

theorem watchEvent_mismatch_v3 (m : Int) (s : WatchState) (e : Event)
    (h : e.ModRevision ≠ (Client.initExpected s e).ExpectedModRevision) :
    s.ExpectedModRevision ≠ -1 ∧ e.ModRevision ≠ s.ExpectedModRevision ∧
    Client.watchEvent m s e =
      if m ≤ wrapInt64 (s.consecutiveFailureCount + 1) then
        { out := [.warn (wrapInt64 (s.consecutiveFailureCount + 1)) s.ExpectedModRevision,
                  .fail (.exceededMaxWatchRetries m s.ExpectedModRevision)],
          st := { s with consecutiveFailureCount := wrapInt64 (s.consecutiveFailureCount + 1) },
          ctl := .ret }
      else
        { out := [.warn (wrapInt64 (s.consecutiveFailureCount + 1)) s.ExpectedModRevision],
          st := { s with consecutiveFailureCount := wrapInt64 (s.consecutiveFailureCount + 1),
                         watchRevisionDiscrepancy := true },
          ctl := .brk } := by
  simp only [Client.watchEvent, Client.initExpected, Client.onMismatch] at h ⊢
  split_ifs at h ⊢ <;> simp_all

theorem watchEvent_match_v3 (m : Int) (s : WatchState) (e : Event)
    (h : e.ModRevision = (Client.initExpected s e).ExpectedModRevision) :
    Client.watchEvent m s e =
      if e.ctxDone then
        { out := [],
          st := { s with consecutiveFailureCount := 0,
                         ExpectedModRevision := wrapInt64 (e.ModRevision + 1) },
          ctl := .ret }
      else
        { out := [.deliver e.ModRevision (Client.toWatchEvent e)],
          st := { s with consecutiveFailureCount := 0,
                         ExpectedModRevision := wrapInt64 (e.ModRevision + 1) },
          ctl := .next } := by
  simp only [Client.watchEvent, Client.initExpected, Client.onMatch] at h ⊢
  split_ifs at h ⊢ <;> simp_all

theorem watchResponse_nil_v2 (m : Int) (s : WatchStateV2) (resp : Response)
    (hn : resp.Node = .nil) :
    ClientV2.watchResponse m s resp = { out := [], st := s, ctl := .next } := by
  simp [ClientV2.watchResponse, hn]

theorem watchResponse_mismatch_v2 (m : Int) (s : WatchStateV2) (resp : Response)
    (key : String) (dir : Bool) (value : String) (idx : Nat) (nodes : List Node)
    (hn : resp.Node = .mk key dir value idx nodes)
    (h : idx ≠ (ClientV2.initExpected s idx).ExpectedModIndex) :
    0 < s.ExpectedModIndex ∧ idx ≠ s.ExpectedModIndex ∧
    ClientV2.watchResponse m s resp =
      if m ≤ wrapInt64 (s.consecutiveFailureCount + 1) then
        { out := [.warn (wrapInt64 (s.consecutiveFailureCount + 1)) s.ExpectedModIndex,
                  .fail (.exceededMaxWatchRetries m s.ExpectedModIndex)],
          st := { s with consecutiveFailureCount := wrapInt64 (s.consecutiveFailureCount + 1) },
          ctl := .ret }
      else
        { out := [.warn (wrapInt64 (s.consecutiveFailureCount + 1)) s.ExpectedModIndex],
          st := { s with consecutiveFailureCount := wrapInt64 (s.consecutiveFailureCount + 1),
                         watchIndexDiscrepancy := true },
          ctl := .brk } := by
  simp only [ClientV2.watchResponse, hn, ClientV2.initExpected, ClientV2.onMismatch] at h ⊢
  split_ifs at h ⊢ <;> simp_all <;> omega

theorem initExpected_disc_v2 (s : WatchStateV2) (idx : Nat) :
    (ClientV2.initExpected s idx).watchIndexDiscrepancy = s.watchIndexDiscrepancy := by
  unfold ClientV2.initExpected; split_ifs <;> rfl

theorem watchResponse_match_v2 (m : Int) (s : WatchStateV2) (resp : Response)
    (key : String) (dir : Bool) (value : String) (idx : Nat) (nodes : List Node)
    (hn : resp.Node = .mk key dir value idx nodes)
    (h : idx = (ClientV2.initExpected s idx).ExpectedModIndex) :
    ClientV2.watchResponse m s resp =
      match ClientV2.toWatchEvent resp.Action key value with
      | none =>
        { out := [],
          st := { s with consecutiveFailureCount := 0,
                         ExpectedModIndex := wrapUint64 (idx + 1) },
          ctl := .next }
      | some watchEvent =>
        if resp.ctxDone then
          { out := [],
            st := { s with consecutiveFailureCount := 0,
                           ExpectedModIndex := wrapUint64 (idx + 1) },
            ctl := .ret }
        else
          { out := [.deliver idx watchEvent],
            st := { s with consecutiveFailureCount := 0,
                           ExpectedModIndex := wrapUint64 (idx + 1),
                           watchIndexDiscrepancy := false },
            ctl := .next } := by
  have hd := initExpected_disc_v2 s idx
  simp only [ClientV2.watchResponse, hn, ClientV2.onMatch]
  rw [if_neg (not_not.2 h)]
  cases ClientV2.toWatchEvent resp.Action key value with
  | none => simp only [hd]
  | some ev => cases resp.ctxDone <;> simp [hd]


/-! ## The consecutive-failure counter -/

theorem numbered_append {ρ κ : Type} (o o2 : List (Output ρ κ)) : ∀ (c : Int),
    (Numbered c (o ++ o2) ↔ Numbered c o ∧ Numbered (countAfter c o) o2) := by
  induction o with
  | nil => intro c; simp [Numbered, countAfter]
  | cons a o ih => intro c; cases a <;> simp [Numbered, countAfter, ih, and_assoc]

theorem countAfter_append {ρ κ : Type} (o o2 : List (Output ρ κ)) : ∀ (c : Int),
    countAfter c (o ++ o2) = countAfter (countAfter c o) o2 := by
  induction o with
  | nil => intro c; simp [countAfter]
  | cons a o ih => intro c; cases a <;> simp [countAfter, ih]

theorem runsOn_refl {ρ κ : Type} (m c : Int) : RunsOn (ρ := ρ) (κ := κ) m c [] c := by
  intro h; simp [h]

theorem runsOn_trans {ρ κ : Type} (m c c1 c2 : Int) (o o2 : List (Output ρ κ))
    (h1 : RunsOn m c o c1) (h2 : RunsOn m c1 o2 c2) : RunsOn m c (o ++ o2) c2 := by
  intro h
  obtain ⟨i1, w1, f1⟩ := h1 h
  obtain ⟨i2, w2, f2⟩ := h2 i1
  refine ⟨i2, ?_, ?_⟩
  · intro n x hx
    rcases List.mem_append.1 hx with hx | hx
    · exact w1 n x hx
    · exact w2 n x hx
  · intro e he
    rcases List.mem_append.1 he with he | he
    · exact f1 e he
    · exact f2 e he

theorem runsOn_endsOn {ρ κ : Type} (m c c1 c2 : Int) (o o2 : List (Output ρ κ))
    (h1 : RunsOn m c o c1) (h2 : EndsOn m c1 o2 c2) : EndsOn m c (o ++ o2) c2 := by
  intro h
  obtain ⟨i1, w1, f1⟩ := h1 h
  obtain ⟨p0, p1, p2, p3, p4, p5⟩ := h2 i1
  refine ⟨p0, p1, ?_, ?_, ?_, ?_⟩
  · intro n x hx
    rcases List.mem_append.1 hx with hx | hx
    · exact le_of_lt (w1 n x hx)
    · exact p2 n x hx
  · constructor
    · rintro ⟨x, hx⟩
      rcases List.mem_append.1 hx with hx | hx
      · exact absurd hx (f1 _)
      · obtain ⟨y, hy⟩ := p3.1 ⟨x, hx⟩
        exact ⟨y, List.mem_append_right _ hy⟩
    · rintro ⟨x, hx⟩
      rcases List.mem_append.1 hx with hx | hx
      · exact absurd (w1 m x hx) (lt_irrefl _)
      · obtain ⟨y, hy⟩ := p3.2 ⟨x, hx⟩
        exact ⟨y, List.mem_append_right _ hy⟩
  · intro e he
    rcases List.mem_append.1 he with he | he
    · exact absurd he (f1 _)
    · rw [List.getLast?_append, p4 e he]
      rfl
  · intro hc
    obtain ⟨x, hx⟩ := p5 hc
    exact ⟨x, List.mem_append_right _ hx⟩

theorem countsOn_refl {ρ κ : Type} (m c : Int) : CountsOn (ρ := ρ) (κ := κ) m c [] c := by
  intro h; simp [h, Numbered, countAfter]

theorem countsOn_trans {ρ κ : Type} (m c c1 c2 : Int) (o o2 : List (Output ρ κ))
    (h1 : CountsOn m c o c1) (h2 : CountsOn m c1 o2 c2) : CountsOn m c (o ++ o2) c2 := by
  intro h
  obtain ⟨i1, n1, e1⟩ := h1 h
  obtain ⟨i2, n2, e2⟩ := h2 i1
  refine ⟨i2, ?_, ?_⟩
  · rw [numbered_append, ← e1]
    exact ⟨n1, n2⟩
  · rw [countAfter_append, ← e1]
    exact e2

theorem countsOn_countsToEnd {ρ κ : Type} (m c c1 : Int) (o o2 : List (Output ρ κ))
    (h1 : CountsOn m c o c1) (h2 : CountsToEnd m c1 o2) : CountsToEnd m c (o ++ o2) := by
  intro h
  obtain ⟨i1, n1, e1⟩ := h1 h
  rw [numbered_append, ← e1]
  exact ⟨n1, h2 i1⟩


theorem wrapInt64_count (m c : Int) (hm : m < 2 ^ 63) (h : CountInv m c) :
    wrapInt64 (c + 1) = c + 1 := by
  unfold CountInv at h
  exact wrapInt64_of_lt _ (by omega) (by omega)

theorem endsOn_watchError {ρ κ : Type} (m c : Int) (cause : String) :
    EndsOn (ρ := ρ) (κ := κ) m c [.fail (.watchError cause)] c := by
  intro h
  unfold CountInv at h
  refine ⟨h.1, le_of_lt h.2, ?_, ?_, ?_, ?_⟩ <;> simp
  omega

theorem endsOn_nil {ρ κ : Type} (m c : Int) : EndsOn (ρ := ρ) (κ := κ) m c [] c := by
  intro h
  unfold CountInv at h
  refine ⟨h.1, le_of_lt h.2, ?_, ?_, ?_, ?_⟩ <;> simp
  omega

theorem runsOn_subscribe {ρ κ : Type} (m c : Int) (r : ρ) :
    RunsOn (κ := κ) m c [.subscribe r] c := by
  intro h; simp [h]

theorem watchEvent_bound_v3 (m : Int) (hm : m < 2 ^ 63) (s : WatchState) (e : Event) :
    ((Client.watchEvent m s e).ctl ≠ .ret →
      RunsOn m s.consecutiveFailureCount (Client.watchEvent m s e).out
        (Client.watchEvent m s e).st.consecutiveFailureCount) ∧
    ((Client.watchEvent m s e).ctl = .ret →
      EndsOn m s.consecutiveFailureCount (Client.watchEvent m s e).out
        (Client.watchEvent m s e).st.consecutiveFailureCount) := by
  by_cases h : e.ModRevision ≠ (Client.initExpected s e).ExpectedModRevision
  · rw [(watchEvent_mismatch_v3 m s e h).2.2]
    constructor <;> intro hc hI <;> rw [wrapInt64_count m _ hm hI] at hc ⊢ <;>
      unfold CountInv at * <;> split_ifs at hc ⊢ <;> simp_all <;> omega
  · rw [watchEvent_match_v3 m s e (not_not.1 h)]
    clear h
    constructor <;> intro hc hI <;> unfold CountInv at * <;> split_ifs at hc ⊢ <;>
      simp_all <;> omega

theorem watchEvent_counts_v3 (m : Int) (hm : m < 2 ^ 63) (s : WatchState) (e : Event) :
    ((Client.watchEvent m s e).ctl ≠ .ret →
      CountsOn m s.consecutiveFailureCount (Client.watchEvent m s e).out
        (Client.watchEvent m s e).st.consecutiveFailureCount) ∧
    ((Client.watchEvent m s e).ctl = .ret →
      CountsToEnd m s.consecutiveFailureCount (Client.watchEvent m s e).out) := by
  by_cases h : e.ModRevision ≠ (Client.initExpected s e).ExpectedModRevision
  · rw [(watchEvent_mismatch_v3 m s e h).2.2]
    constructor <;> intro hc hI <;> rw [wrapInt64_count m _ hm hI] at hc ⊢ <;>
      unfold CountInv at * <;> split_ifs at hc ⊢ <;> simp_all [Numbered, countAfter] <;> omega
  · rw [watchEvent_match_v3 m s e (not_not.1 h)]
    clear h
    constructor <;> intro hc hI <;> unfold CountInv at * <;> split_ifs at hc ⊢ <;>
      simp_all [Numbered, countAfter] <;> omega

theorem watchResponse_bound_v2 (m : Int) (hm : m < 2 ^ 63) (s : WatchStateV2)
    (resp : Response) :
    ((ClientV2.watchResponse m s resp).ctl ≠ .ret →
      RunsOn m s.consecutiveFailureCount (ClientV2.watchResponse m s resp).out
        (ClientV2.watchResponse m s resp).st.consecutiveFailureCount) ∧
    ((ClientV2.watchResponse m s resp).ctl = .ret →
      EndsOn m s.consecutiveFailureCount (ClientV2.watchResponse m s resp).out
        (ClientV2.watchResponse m s resp).st.consecutiveFailureCount) := by
  cases hn : resp.Node with
  | nil =>
    rw [watchResponse_nil_v2 m s resp hn]
    exact ⟨fun _ => runsOn_refl m _, fun _ => endsOn_nil m _⟩
  | mk key dir value idx nodes =>
    by_cases h : idx ≠ (ClientV2.initExpected s idx).ExpectedModIndex
    · rw [(watchResponse_mismatch_v2 m s resp key dir value idx nodes hn h).2.2]
      constructor <;> intro hc hI <;> rw [wrapInt64_count m _ hm hI] at hc ⊢ <;>
        unfold CountInv at * <;> split_ifs at hc ⊢ <;> simp_all <;> omega
    · rw [watchResponse_match_v2 m s resp key dir value idx nodes hn (not_not.1 h)]
      clear h hn
      cases ClientV2.toWatchEvent resp.Action key value <;>
        constructor <;> intro hc hI <;> unfold CountInv at * <;>
        simp only [] at hc ⊢ <;> (try split_ifs at hc ⊢) <;> simp_all <;> omega

theorem watchResponse_counts_v2 (m : Int) (hm : m < 2 ^ 63) (s : WatchStateV2)
    (resp : Response) (hk : ClientV2.knownAction resp.Action) :
    ((ClientV2.watchResponse m s resp).ctl ≠ .ret →
      CountsOn m s.consecutiveFailureCount (ClientV2.watchResponse m s resp).out
        (ClientV2.watchResponse m s resp).st.consecutiveFailureCount) ∧
    ((ClientV2.watchResponse m s resp).ctl = .ret →
      CountsToEnd m s.consecutiveFailureCount (ClientV2.watchResponse m s resp).out) := by
  cases hn : resp.Node with
  | nil =>
    rw [watchResponse_nil_v2 m s resp hn]
    exact ⟨fun _ => countsOn_refl m _, fun _ _ => by simp [Numbered]⟩
  | mk key dir value idx nodes =>
    by_cases h : idx ≠ (ClientV2.initExpected s idx).ExpectedModIndex
    · rw [(watchResponse_mismatch_v2 m s resp key dir value idx nodes hn h).2.2]
      constructor <;> intro hc hI <;> rw [wrapInt64_count m _ hm hI] at hc ⊢ <;>
        unfold CountInv at * <;> split_ifs at hc ⊢ <;>
        simp_all [Numbered, countAfter] <;> omega
    · obtain ⟨ev, hev⟩ := toWatchEvent_isSome_v2 resp.Action key value hk
      rw [watchResponse_match_v2 m s resp key dir value idx nodes hn (not_not.1 h), hev]
      clear h hn hev
      constructor <;> intro hc hI <;> unfold CountInv at * <;>
        simp only [] at hc ⊢ <;> split_ifs at hc ⊢ <;> simp_all [Numbered, countAfter] <;>
        omega

/-- The counter of the v3 producer along a whole run that starts below the bound. -/
theorem watchLoop_bound_v3 (m : Int) (hm : m < 2 ^ 63) (s : WatchState)
    (subs : List (List WatchResponse)) :
    ((Client.watchLoop m s subs).ctl ≠ .ret →
      RunsOn m s.consecutiveFailureCount (Client.watchLoop m s subs).out
        (Client.watchLoop m s subs).st.consecutiveFailureCount) ∧
    ((Client.watchLoop m s subs).ctl = .ret →
      EndsOn m s.consecutiveFailureCount (Client.watchLoop m s subs).out
        (Client.watchLoop m s subs).st.consecutiveFailureCount) :=
  watchLoop_lift_v3 m (fun _ => True)
    (fun s o s2 => RunsOn m s.consecutiveFailureCount o s2.consecutiveFailureCount)
    (fun s o s2 => EndsOn m s.consecutiveFailureCount o s2.consecutiveFailureCount)
    (fun _ => runsOn_refl m _)
    (fun _ o _ o2 _ h1 h2 => runsOn_trans m _ _ _ o o2 h1 h2)
    (fun _ o _ o2 _ h1 h2 => runsOn_endsOn m _ _ _ o o2 h1 h2)
    (fun _ => runsOn_subscribe m _ _)
    (fun _ cause => endsOn_watchError m _ cause)
    (fun s e _ => watchEvent_bound_v3 m hm s e) subs s (fun _ _ _ _ _ _ => trivial)

theorem watchLoop_counts_v3 (m : Int) (hm : m < 2 ^ 63) (s : WatchState)
    (subs : List (List WatchResponse)) :
    CountsToEnd m s.consecutiveFailureCount (Client.watchLoop m s subs).out := by
  have hl := watchLoop_lift_v3 m (fun _ => True)
    (fun s o s2 => CountsOn m s.consecutiveFailureCount o s2.consecutiveFailureCount)
    (fun s o _ => CountsToEnd m s.consecutiveFailureCount o)
    (fun _ => countsOn_refl m _)
    (fun _ o _ o2 _ h1 h2 => countsOn_trans m _ _ _ o o2 h1 h2)
    (fun _ o _ o2 _ h1 h2 => countsOn_countsToEnd m _ _ o o2 h1 h2)
    (fun _ hI => by simp [hI, Numbered, countAfter])
    (fun _ cause hI => by simp [Numbered])
    (fun s e _ => watchEvent_counts_v3 m hm s e) subs s (fun _ _ _ _ _ _ => trivial)
  by_cases hc : (Client.watchLoop m s subs).ctl = .ret
  · exact hl.2 hc
  · exact fun hI => (hl.1 hc hI).2.1

theorem watchLoop_bound_v2 (m : Int) (hm : m < 2 ^ 63) (s : WatchStateV2)
    (subs : List (List NextResult)) :
    ((ClientV2.watchLoop m s subs).ctl ≠ .ret →
      RunsOn m s.consecutiveFailureCount (ClientV2.watchLoop m s subs).out
        (ClientV2.watchLoop m s subs).st.consecutiveFailureCount) ∧
    ((ClientV2.watchLoop m s subs).ctl = .ret →
      EndsOn m s.consecutiveFailureCount (ClientV2.watchLoop m s subs).out
        (ClientV2.watchLoop m s subs).st.consecutiveFailureCount) :=
  watchLoop_lift_v2 m (fun _ => True)
    (fun s o s2 => RunsOn m s.consecutiveFailureCount o s2.consecutiveFailureCount)
    (fun s o s2 => EndsOn m s.consecutiveFailureCount o s2.consecutiveFailureCount)
    (fun _ => runsOn_refl m _)
    (fun _ o _ o2 _ h1 h2 => runsOn_trans m _ _ _ o o2 h1 h2)
    (fun _ o _ o2 _ h1 h2 => runsOn_endsOn m _ _ _ o o2 h1 h2)
    (fun _ => runsOn_subscribe m _ _)
    (fun _ => endsOn_nil m _)
    (fun _ cause => endsOn_watchError m _ cause)
    (fun s resp _ => watchResponse_bound_v2 m hm s resp) subs s (fun _ _ _ _ => trivial)

theorem watchLoop_counts_v2 (m : Int) (hm : m < 2 ^ 63) (s : WatchStateV2)
    (subs : List (List NextResult)) (hk : KnownActions subs) :
    CountsToEnd m s.consecutiveFailureCount (ClientV2.watchLoop m s subs).out := by
  have hl := watchLoop_lift_v2 m (fun resp => ClientV2.knownAction resp.Action)
    (fun s o s2 => CountsOn m s.consecutiveFailureCount o s2.consecutiveFailureCount)
    (fun s o _ => CountsToEnd m s.consecutiveFailureCount o)
    (fun _ => countsOn_refl m _)
    (fun _ o _ o2 _ h1 h2 => countsOn_trans m _ _ _ o o2 h1 h2)
    (fun _ o _ o2 _ h1 h2 => countsOn_countsToEnd m _ _ o o2 h1 h2)
    (fun _ hI => by simp [hI, Numbered, countAfter])
    (fun _ hI => by simp [Numbered])
    (fun _ cause hI => by simp [Numbered])
    (fun s resp hv => watchResponse_counts_v2 m hm s resp hv) subs s
    (fun sub hs resp hr => hk sub hs resp (mem_responsesOf _ _ hr))
  by_cases hc : (ClientV2.watchLoop m s subs).ctl = .ret
  · exact hl.2 hc
  · exact fun hI => (hl.1 hc hI).2.1

/-! ## C4, C5: the retry bound -/

theorem bound_summary {ρ κ : Type} (m : Int) (o : List (Output ρ κ)) (c2 : Int) (ctl : Ctl)
    (h0 : 1 ≤ m) (hr : ctl ≠ .ret → RunsOn m 0 o c2) (he : ctl = .ret → EndsOn m 0 o c2) :
    (∀ n x, Output.warn n x ∈ o → n ≤ m) ∧ 0 ≤ c2 ∧ c2 ≤ m ∧
    (((∃ x, Output.warn m x ∈ o) ∨ c2 = m) →
      ctl = .ret ∧ ∃ x, o.getLast? = some (.fail (.exceededMaxWatchRetries m x))) ∧
    (∀ e, Output.fail e ∈ o → ctl = .ret ∧ o.getLast? = some (.fail e)) ∧
    ((∃ x, Output.fail (.exceededMaxWatchRetries m x) ∈ o) ↔ (∃ x, Output.warn m x ∈ o)) := by
  have hI : CountInv m 0 := ⟨le_refl 0, by omega⟩
  by_cases hc : ctl = .ret
  · obtain ⟨p0, p1, p2, p3, p4, p5⟩ := he hc hI
    refine ⟨p2, p0, p1, ?_, fun e h => ⟨hc, p4 e h⟩, p3⟩
    intro h
    have hw : ∃ x, Output.warn m x ∈ o := by
      rcases h with h | h
      · exact h
      · exact p5 h
    obtain ⟨y, hy⟩ := p3.2 hw
    exact ⟨hc, y, p4 _ hy⟩
  · obtain ⟨i, w, f⟩ := hr hc hI
    unfold CountInv at i
    refine ⟨fun n x h => le_of_lt (w n x h), i.1, le_of_lt i.2, ?_,
      fun e h => absurd h (f e), ?_⟩
    · rintro (⟨x, hx⟩ | h)
      · exact absurd (w m x hx) (lt_irrefl _)
      · omega
    · constructor
      · rintro ⟨x, hx⟩
        exact absurd hx (f _)
      · rintro ⟨x, hx⟩
        exact absurd (w m x hx) (lt_irrefl _)

/-- C5 fails as stated for `maxWatchRetries = 0`: in scenario 3 the first mismatch makes the
counter 1, above the configured value (and ends the watch with the fail-fast error). -/
theorem watch_counter_exceeds_zero_bound :
    (Client.Watch noRetryClient gapSession).st.consecutiveFailureCount = 1 ∧
    ¬ ((Client.Watch noRetryClient gapSession).st.consecutiveFailureCount
        ≤ noRetryClient.maxWatchRetries) := by
  decide

/-- C5, as amended: on both backends, for every `maxWatchRetries ≥ 1` and every run, every
value the consecutive-failure counter takes (each increment is logged by a warning that
carries the new value, and the only other change is the reset to 0) is at most
`maxWatchRetries`, and so is its final value; when the counter reaches `maxWatchRetries` the
producer returns and the last thing it did is to send the `exceeded max watch retries` error
on the error channel. -/
theorem watch_counter_within_bound
    (c : Client) (subs : List (List WatchResponse))
    (h1 : 1 ≤ c.maxWatchRetries) (h2 : c.maxWatchRetries < 2 ^ 63)
    (c2 : ClientV2) (subs2 : List (List NextResult))
    (h3 : 1 ≤ c2.maxWatchRetries) (h4 : c2.maxWatchRetries < 2 ^ 63) :
    ((∀ n x, Output.warn n x ∈ (Client.Watch c subs).out → n ≤ c.maxWatchRetries) ∧
      0 ≤ (Client.Watch c subs).st.consecutiveFailureCount ∧
      (Client.Watch c subs).st.consecutiveFailureCount ≤ c.maxWatchRetries ∧
      (((∃ x, Output.warn c.maxWatchRetries x ∈ (Client.Watch c subs).out) ∨
          (Client.Watch c subs).st.consecutiveFailureCount = c.maxWatchRetries) →
        (Client.Watch c subs).ctl = .ret ∧
        ∃ x, (Client.Watch c subs).out.getLast? =
          some (.fail (.exceededMaxWatchRetries c.maxWatchRetries x)))) ∧
    ((∀ n x, Output.warn n x ∈ (ClientV2.Watch c2 subs2).out → n ≤ c2.maxWatchRetries) ∧
      0 ≤ (ClientV2.Watch c2 subs2).st.consecutiveFailureCount ∧
      (ClientV2.Watch c2 subs2).st.consecutiveFailureCount ≤ c2.maxWatchRetries ∧
      (((∃ x, Output.warn c2.maxWatchRetries x ∈ (ClientV2.Watch c2 subs2).out) ∨
          (ClientV2.Watch c2 subs2).st.consecutiveFailureCount = c2.maxWatchRetries) →
        (ClientV2.Watch c2 subs2).ctl = .ret ∧
        ∃ x, (ClientV2.Watch c2 subs2).out.getLast? =
          some (.fail (.exceededMaxWatchRetries c2.maxWatchRetries x)))) := by
  constructor
  · have hl := watchLoop_bound_v3 c.maxWatchRetries h2
      { ExpectedModRevision := c.ExpectedModRevision, watchRevisionDiscrepancy := false,
        consecutiveFailureCount := 0 } subs
    have hs := bound_summary c.maxWatchRetries _ _ _ h1 hl.1 hl.2
    exact ⟨hs.1, hs.2.1, hs.2.2.1, hs.2.2.2.1⟩
  · have hl := watchLoop_bound_v2 c2.maxWatchRetries h4
      { ExpectedModIndex := c2.ExpectedModIndex, watchIndexDiscrepancy := false,
        consecutiveFailureCount := 0 } subs2
    have hs := bound_summary c2.maxWatchRetries _ _ _ h3 hl.1 hl.2
    exact ⟨hs.1, hs.2.1, hs.2.2.1, hs.2.2.2.1⟩

/-- Witness of C5: scenario 4 with `maxWatchRetries = 3` on both backends; the counter ends
at 3. -/
theorem watch_counter_within_bound_witness :
    (1 : Int) ≤ exampleClient.maxWatchRetries ∧ exampleClient.maxWatchRetries < 2 ^ 63 ∧
    (Client.Watch exampleClient stuckSession).st.consecutiveFailureCount = 3 ∧
    ((Client.Watch exampleClient stuckSession).st.consecutiveFailureCount
        ≤ exampleClient.maxWatchRetries) ∧
    ((ClientV2.Watch exampleClientV2 stuckSessionV2).st.consecutiveFailureCount
        ≤ exampleClientV2.maxWatchRetries) :=
  have h := watch_counter_within_bound exampleClient stuckSession (by decide) (by decide)
    exampleClientV2 stuckSessionV2 (by decide) (by decide)
  ⟨by decide, by decide, by decide, h.1.2.2.1, h.2.2.2.1⟩


/-- C4 fails as stated on the v2 backend. With `maxWatchRetries = 3`, after index 7 two
consecutive mismatches occur on expected index 8; then index 8, the expected one, arrives
with the action code `get`. It passes the cursor check and resets the counter, but the
`default` case skips it: 8 is not delivered (7 and the later 9 are). -/
theorem watch_v2_unknown_action_after_gaps_not_delivered :
    deliveredCursors (ClientV2.Watch exampleClientV2 unknownAfterGapsSessionV2).out = [7, 9] ∧
    8 ∉ deliveredCursors (ClientV2.Watch exampleClientV2 unknownAfterGapsSessionV2).out ∧
    (ClientV2.Watch exampleClientV2 unknownAfterGapsSessionV2).st.consecutiveFailureCount
      = 0 := by
  decide

/-- C4, as amended: on both backends and for every `maxWatchRetries ≥ 1`.
Along a run, each warning carries the number of mismatches since the last delivery (on v2:
when every action code is known); the `exceeded max watch retries` error is sent exactly when
a warning carries the number `maxWatchRetries`, and an error sent is the last thing the
producer does before it returns. Step by step: a mismatch that makes the counter reach
`maxWatchRetries` sends the warning and the error and returns; a mismatch that leaves it
below increments it, sends no error and leaves the subscription; an event that carries the
expected cursor resets the counter to 0, sends no error, and is delivered, provided the send
is not pre-empted by the cancellation of the context and, on v2, provided its action code is
one of the seven known ones. -/
theorem watch_fails_fast_at_retry_bound
    (c : Client) (subs : List (List WatchResponse))
    (h1 : 1 ≤ c.maxWatchRetries) (h2 : c.maxWatchRetries < 2 ^ 63)
    (c2 : ClientV2) (subs2 : List (List NextResult))
    (h3 : 1 ≤ c2.maxWatchRetries) (h4 : c2.maxWatchRetries < 2 ^ 63) :
    (Numbered 0 (Client.Watch c subs).out ∧
      ((∃ x, Output.fail (.exceededMaxWatchRetries c.maxWatchRetries x)
          ∈ (Client.Watch c subs).out) ↔
        (∃ x, Output.warn c.maxWatchRetries x ∈ (Client.Watch c subs).out)) ∧
      (∀ e, Output.fail e ∈ (Client.Watch c subs).out →
        (Client.Watch c subs).ctl = .ret ∧
        (Client.Watch c subs).out.getLast? = some (.fail e))) ∧
    (∀ (s : WatchState) (e : Event), CountInv c.maxWatchRetries s.consecutiveFailureCount →
      (e.ModRevision ≠ (Client.initExpected s e).ExpectedModRevision →
        (s.consecutiveFailureCount + 1 = c.maxWatchRetries →
          Client.watchEvent c.maxWatchRetries s e =
            { out := [.warn c.maxWatchRetries s.ExpectedModRevision,
                      .fail (.exceededMaxWatchRetries c.maxWatchRetries s.ExpectedModRevision)],
              st := { s with consecutiveFailureCount := c.maxWatchRetries },
              ctl := .ret }) ∧
        (s.consecutiveFailureCount + 1 < c.maxWatchRetries →
          Client.watchEvent c.maxWatchRetries s e =
            { out := [.warn (s.consecutiveFailureCount + 1) s.ExpectedModRevision],
              st := { s with consecutiveFailureCount := s.consecutiveFailureCount + 1,
                             watchRevisionDiscrepancy := true },
              ctl := .brk })) ∧
      (e.ModRevision = (Client.initExpected s e).ExpectedModRevision → e.ctxDone = false →
        Client.watchEvent c.maxWatchRetries s e =
          { out := [.deliver e.ModRevision (Client.toWatchEvent e)],
            st := { s with consecutiveFailureCount := 0,
                           ExpectedModRevision := wrapInt64 (e.ModRevision + 1) },
            ctl := .next })) ∧
    ((KnownActions subs2 → Numbered 0 (ClientV2.Watch c2 subs2).out) ∧
      ((∃ x, Output.fail (.exceededMaxWatchRetries c2.maxWatchRetries x)
          ∈ (ClientV2.Watch c2 subs2).out) ↔
        (∃ x, Output.warn c2.maxWatchRetries x ∈ (ClientV2.Watch c2 subs2).out)) ∧
      (∀ e, Output.fail e ∈ (ClientV2.Watch c2 subs2).out →
        (ClientV2.Watch c2 subs2).ctl = .ret ∧
        (ClientV2.Watch c2 subs2).out.getLast? = some (.fail e))) ∧
    (∀ (s : WatchStateV2) (resp : Response) (key : String) (dir : Bool) (value : String)
        (idx : Nat) (nodes : List Node),
      CountInv c2.maxWatchRetries s.consecutiveFailureCount →
      resp.Node = .mk key dir value idx nodes →
      (idx ≠ (ClientV2.initExpected s idx).ExpectedModIndex →
        (s.consecutiveFailureCount + 1 = c2.maxWatchRetries →
          ClientV2.watchResponse c2.maxWatchRetries s resp =
            { out := [.warn c2.maxWatchRetries s.ExpectedModIndex,
                      .fail (.exceededMaxWatchRetries c2.maxWatchRetries s.ExpectedModIndex)],
              st := { s with consecutiveFailureCount := c2.maxWatchRetries },
              ctl := .ret }) ∧
        (s.consecutiveFailureCount + 1 < c2.maxWatchRetries →
          ClientV2.watchResponse c2.maxWatchRetries s resp =
            { out := [.warn (s.consecutiveFailureCount + 1) s.ExpectedModIndex],
              st := { s with consecutiveFailureCount := s.consecutiveFailureCount + 1,
                             watchIndexDiscrepancy := true },
              ctl := .brk })) ∧
      (idx = (ClientV2.initExpected s idx).ExpectedModIndex →
        ClientV2.knownAction resp.Action → resp.ctxDone = false →
        ∃ ev, ClientV2.toWatchEvent resp.Action key value = some ev ∧
          ClientV2.watchResponse c2.maxWatchRetries s resp =
            { out := [.deliver idx ev],
              st := { s with consecutiveFailureCount := 0,
                             ExpectedModIndex := wrapUint64 (idx + 1),
                             watchIndexDiscrepancy := false },
              ctl := .next })) := by
  refine ⟨?_, ?_, ?_, ?_⟩
  · have hl := watchLoop_bound_v3 c.maxWatchRetries h2
      { ExpectedModRevision := c.ExpectedModRevision, watchRevisionDiscrepancy := false,
        consecutiveFailureCount := 0 } subs
    have hs := bound_summary c.maxWatchRetries _ _ _ h1 hl.1 hl.2
    have hI : CountInv c.maxWatchRetries 0 := ⟨le_refl 0, by omega⟩
    exact ⟨watchLoop_counts_v3 c.maxWatchRetries h2
      { ExpectedModRevision := c.ExpectedModRevision, watchRevisionDiscrepancy := false,
        consecutiveFailureCount := 0 } subs hI, hs.2.2.2.2.2, hs.2.2.2.2.1⟩
  · intro s e hI
    have hw := wrapInt64_count _ _ h2 hI
    refine ⟨fun hne => ?_, fun heq hctx => ?_⟩
    · rw [(watchEvent_mismatch_v3 _ s e hne).2.2, hw]
      constructor
      · intro h; rw [h]; simp
      · intro h; rw [if_neg (by omega)]
    · rw [watchEvent_match_v3 _ s e heq, hctx]
      simp
  · have hl := watchLoop_bound_v2 c2.maxWatchRetries h4
      { ExpectedModIndex := c2.ExpectedModIndex, watchIndexDiscrepancy := false,
        consecutiveFailureCount := 0 } subs2
    have hs := bound_summary c2.maxWatchRetries _ _ _ h3 hl.1 hl.2
    have hI : CountInv c2.maxWatchRetries 0 := ⟨le_refl 0, by omega⟩
    exact ⟨fun hk => watchLoop_counts_v2 c2.maxWatchRetries h4
      { ExpectedModIndex := c2.ExpectedModIndex, watchIndexDiscrepancy := false,
        consecutiveFailureCount := 0 } subs2 hk hI, hs.2.2.2.2.2, hs.2.2.2.2.1⟩
  · intro s resp key dir value idx nodes hI hn
    have hw := wrapInt64_count _ _ h4 hI
    refine ⟨fun hne => ?_, fun heq hk hctx => ?_⟩
    · rw [(watchResponse_mismatch_v2 _ s resp key dir value idx nodes hn hne).2.2, hw]
      constructor
      · intro h; rw [h]; simp
      · intro h; rw [if_neg (by omega)]
    · obtain ⟨ev, hev⟩ := toWatchEvent_isSome_v2 resp.Action key value hk
      refine ⟨ev, hev, ?_⟩
      rw [watchResponse_match_v2 _ s resp key dir value idx nodes hn heq, hev, hctx]
      simp

/-- Witness of C4, with `maxWatchRetries = 3`: scenario 4 ends with the fail-fast error on
expected cursor 8 after the third mismatch, and scenario 3 delivers 7, 8 and 9 without
error. -/
theorem watch_fails_fast_at_retry_bound_witness :
    (1 : Int) ≤ exampleClient.maxWatchRetries ∧ exampleClient.maxWatchRetries < 2 ^ 63 ∧
    emittedErrors (Client.Watch exampleClient stuckSession).out
      = [.exceededMaxWatchRetries 3 8] ∧
    deliveredCursors (Client.Watch exampleClient stuckSession).out = [7] ∧
    deliveredCursors (Client.Watch exampleClient gapSession).out = [7, 8, 9] ∧
    emittedErrors (Client.Watch exampleClient gapSession).out = [] ∧
    emittedErrors (ClientV2.Watch exampleClientV2 stuckSessionV2).out
      = [.exceededMaxWatchRetries 3 8] ∧
    deliveredCursors (ClientV2.Watch exampleClientV2 gapSessionV2).out = [7, 8, 9] ∧
    Numbered 0 (Client.Watch exampleClient stuckSession).out ∧
    ((∃ x, Output.fail (.exceededMaxWatchRetries exampleClient.maxWatchRetries x)
        ∈ (Client.Watch exampleClient stuckSession).out) ↔
      (∃ x, Output.warn exampleClient.maxWatchRetries x
        ∈ (Client.Watch exampleClient stuckSession).out)) :=
  have h := watch_fails_fast_at_retry_bound exampleClient stuckSession (by decide) (by decide)
    exampleClientV2 stuckSessionV2 (by decide) (by decide)
  ⟨by decide, by decide, by decide, by decide, by decide, by decide, by decide, by decide,
    h.1.1, h.1.2.1⟩

/-! ## C6: a session without gaps -/

theorem acceptedFrom_cursorsFrom_v3 (k : Nat) : ∀ (n x : Int), 0 ≤ n → (x = -1 ∨ n = x) →
    AcceptedFrom (-1) x (cursorsFrom n k) (n + k + 1) := by
  induction k with
  | zero => intro n x h0 hx; simp only [cursorsFrom, AcceptedFrom]; exact ⟨hx, by omega, by simp⟩
  | succ k ih =>
    intro n x h0 hx
    simp only [cursorsFrom, AcceptedFrom]
    refine ⟨hx, by omega, ?_⟩
    have := ih (n + 1) (n + 1) (by omega) (Or.inr rfl)
    have he : n + 1 + (k : Int) + 1 = n + ((k + 1 : Nat) : Int) + 1 := by push_cast; ring
    rw [← he]
    exact this

theorem cursorsFrom_bound_v3 (k : Nat) : ∀ (n : Int), 0 ≤ n → n + k < 2 ^ 63 - 1 →
    ∀ r ∈ cursorsFrom n k, ValidRevision r := by
  induction k with
  | zero =>
    intro n h0 h1 r hr
    simp only [cursorsFrom, List.mem_singleton] at hr
    subst hr
    exact ⟨h0, by simpa using h1⟩
  | succ k ih =>
    intro n h0 h1 r hr
    simp only [cursorsFrom, List.mem_cons] at hr
    rcases hr with rfl | hr
    · exact ⟨h0, by push_cast at h1; omega⟩
    · exact ih (n + 1) (by omega) (by push_cast at h1; omega) r hr

theorem acceptedFrom_split {κ : Type} [Add κ] [One κ] (u : κ) (l l2 : List κ) :
    ∀ (x z : κ), AcceptedFrom u x (l ++ l2) z →
      ∃ y, AcceptedFrom u x l y ∧ AcceptedFrom u y l2 z := by
  induction l with
  | nil => intro x z h; exact ⟨x, by simp [AcceptedFrom], by simpa using h⟩
  | cons k ks ih =>
    intro x z h
    simp only [List.cons_append, AcceptedFrom] at h
    obtain ⟨y, h1, h2⟩ := ih _ _ h.2.2
    exact ⟨y, by simp only [AcceptedFrom]; exact ⟨h.1, h.2.1, h1⟩, h2⟩

theorem deliveredEvents_map_deliver {ρ κ α : Type} (l : List α) (f : α → κ)
    (g : α → WatchEvent) :
    deliveredEvents (ρ := ρ) (l.map (fun a => Output.deliver (f a) (g a))) = l.map g := by
  induction l with
  | nil => rfl
  | cons a l ih => simp [deliveredEvents, ih]

theorem deliveredCursors_map_deliver {ρ κ α : Type} (l : List α) (f : α → κ)
    (g : α → WatchEvent) :
    deliveredCursors (ρ := ρ) (l.map (fun a => Output.deliver (f a) (g a))) = l.map f := by
  induction l with
  | nil => rfl
  | cons a l ih => simp [deliveredCursors, ih]

theorem emittedErrors_map_deliver {ρ κ α : Type} (l : List α) (f : α → κ)
    (g : α → WatchEvent) :
    emittedErrors (ρ := ρ) (l.map (fun a => Output.deliver (f a) (g a))) = [] := by
  induction l with
  | nil => rfl
  | cons a l ih => simp [emittedErrors, ih]

theorem watchEvents_plain_v3 (m : Int) (es : List Event) : ∀ (s : WatchState) (y : Int),
    s.consecutiveFailureCount = 0 →
    (∀ e ∈ es, ValidRevision e.ModRevision ∧ e.ctxDone = false) →
    AcceptedFrom (-1) s.ExpectedModRevision (es.map (fun e => e.ModRevision)) y →
    Client.watchEvents m s es =
      { out := es.map (fun e => .deliver e.ModRevision (Client.toWatchEvent e)),
        st := { s with ExpectedModRevision := y }, ctl := .next } := by
  induction es with
  | nil =>
    intro s y _ _ ha
    simp only [List.map_nil, AcceptedFrom] at ha
    subst ha
    simp [Client.watchEvents]
  | cons e es ih =>
    intro s y hc hv ha
    simp only [List.map_cons, AcceptedFrom] at ha
    have hve := hv e (List.mem_cons_self _ _)
    have hm : e.ModRevision = (Client.initExpected s e).ExpectedModRevision := by
      unfold Client.initExpected
      split_ifs with h1
      · rfl
      · rcases ha.1 with h | h
        · exact absurd h h1
        · exact h
    have hstep := watchEvent_match_v3 m s e hm
    rw [hve.2] at hstep
    simp only [Bool.false_eq_true, if_false] at hstep
    rw [wrapInt64_succ_of_valid _ hve.1] at hstep
    simp only [Client.watchEvents, hstep, if_true]
    rw [ih _ y rfl (fun x hx => hv x (List.mem_cons_of_mem _ hx)) ha.2.2]
    simp [hc]


theorem watchResponses_plain_v3 (m : Int) (ws : List WatchResponse) :
    ∀ (s : WatchState) (y : Int),
    s.consecutiveFailureCount = 0 → s.watchRevisionDiscrepancy = false →
    (∀ w ∈ ws, w.Err = none) →
    (∀ e ∈ eventsOfResponses ws, ValidRevision e.ModRevision ∧ e.ctxDone = false) →
    AcceptedFrom (-1) s.ExpectedModRevision
      ((eventsOfResponses ws).map (fun e => e.ModRevision)) y →
    Client.watchResponses m s ws =
      { out := (eventsOfResponses ws).map
          (fun e => .deliver e.ModRevision (Client.toWatchEvent e)),
        st := { s with ExpectedModRevision := y }, ctl := .next } := by
  induction ws with
  | nil =>
    intro s y _ _ _ _ ha
    simp only [eventsOfResponses, List.map_nil, AcceptedFrom] at ha
    subst ha
    simp [Client.watchResponses, eventsOfResponses]
  | cons w ws ih =>
    intro s y hc hd he hv ha
    simp only [eventsOfResponses, List.map_append] at ha hv ⊢
    obtain ⟨z, hz1, hz2⟩ := acceptedFrom_split _ _ _ _ _ ha
    have h1 := watchEvents_plain_v3 m w.Events s z hc
      (fun e h => hv e (List.mem_append_left _ h)) hz1
    have h2 := ih ⟨z, false, s.consecutiveFailureCount⟩ y hc rfl
      (fun x hx => he x (List.mem_cons_of_mem _ hx))
      (fun e h => hv e (List.mem_append_right _ h)) hz2
    simp only [Client.watchResponses, he w (List.mem_cons_self _ _), h1, hd, h2]
    simp

theorem watchLoop_plain_v3 (m : Int) (subs : List (List WatchResponse)) :
    ∀ (s : WatchState) (y : Int),
    s.consecutiveFailureCount = 0 → s.watchRevisionDiscrepancy = false →
    (∀ sub ∈ subs, ∀ w ∈ sub, w.Err = none) →
    (∀ e ∈ eventsOfSubscriptions subs, ValidRevision e.ModRevision ∧ e.ctxDone = false) →
    AcceptedFrom (-1) s.ExpectedModRevision
      ((eventsOfSubscriptions subs).map (fun e => e.ModRevision)) y →
    deliveredEvents (Client.watchLoop m s subs).out =
      (eventsOfSubscriptions subs).map Client.toWatchEvent ∧
    deliveredCursors (Client.watchLoop m s subs).out =
      (eventsOfSubscriptions subs).map (fun e => e.ModRevision) ∧
    emittedErrors (Client.watchLoop m s subs).out = [] ∧
    (Client.watchLoop m s subs).st = { s with ExpectedModRevision := y } ∧
    (Client.watchLoop m s subs).ctl = .next := by
  induction subs with
  | nil =>
    intro s y _ _ _ _ ha
    simp only [eventsOfSubscriptions, List.map_nil, AcceptedFrom] at ha
    subst ha
    simp [Client.watchLoop, eventsOfSubscriptions, deliveredEvents, deliveredCursors,
      emittedErrors]
  | cons sub subs ih =>
    intro s y hc hd he hv ha
    simp only [eventsOfSubscriptions, List.map_append] at ha hv ⊢
    obtain ⟨z, hz1, hz2⟩ := acceptedFrom_split _ _ _ _ _ ha
    have h1 := watchResponses_plain_v3 m sub s z hc hd (he sub (List.mem_cons_self _ _))
      (fun e h => hv e (List.mem_append_left _ h)) hz1
    have h2 := ih ⟨z, false, s.consecutiveFailureCount⟩ y hc rfl
      (fun x hx => he x (List.mem_cons_of_mem _ hx))
      (fun e h => hv e (List.mem_append_right _ h)) hz2
    simp only [Client.watchLoop, h1, hd]
    simp only [reduceCtorEq, if_false, deliveredEvents, deliveredCursors, emittedErrors,
      deliveredEvents_append, deliveredCursors_append, emittedErrors_append, h2]
    refine ⟨?_, ?_, ?_, trivial, trivial⟩
    · congr 1
      exact deliveredEvents_map_deliver _ _ _
    · congr 1
      exact deliveredCursors_map_deliver _ _ _
    · rw [List.append_nil]
      exact emittedErrors_map_deliver _ _ _


theorem acceptedFrom_cursorsFrom_v2 (k : Nat) : ∀ (n x : Nat), (x = 0 ∨ n = x) →
    AcceptedFrom 0 x (cursorsFrom n k) (n + k + 1) := by
  induction k with
  | zero => intro n x hx; simp only [cursorsFrom, AcceptedFrom]; exact ⟨hx, by omega, by simp⟩
  | succ k ih =>
    intro n x hx
    simp only [cursorsFrom, AcceptedFrom]
    refine ⟨hx, by omega, ?_⟩
    have := ih (n + 1) (n + 1) (Or.inr rfl)
    have he : n + 1 + k + 1 = n + (k + 1) + 1 := by ring
    rw [← he]
    exact this

theorem cursorsFrom_bound_v2 (k : Nat) : ∀ (n : Nat), n + k < 2 ^ 64 - 1 →
    ∀ i ∈ cursorsFrom n k, ValidIndex i := by
  induction k with
  | zero =>
    intro n h1 i hi
    simp only [cursorsFrom, List.mem_singleton] at hi
    subst hi
    exact h1
  | succ k ih =>
    intro n h1 i hi
    simp only [cursorsFrom, List.mem_cons] at hi
    rcases hi with rfl | hi
    · unfold ValidIndex; omega
    · exact ih (n + 1) (by omega) i hi

theorem toWatchEvent_changeEvent_v2 (resp : Response) (key : String) (dir : Bool)
    (value : String) (idx : Nat) (nodes : List Node)
    (hn : resp.Node = .mk key dir value idx nodes) (hk : ClientV2.knownAction resp.Action) :
    ClientV2.toWatchEvent resp.Action key value = some (ClientV2.changeEvent resp) := by
  unfold ClientV2.knownAction at hk
  unfold ClientV2.toWatchEvent ClientV2.changeEvent
  rw [hn]
  split_ifs with h1 h2
  · rfl
  · rfl
  · exact absurd hk (by tauto)

theorem watchResponses_plain_v2 (m : Int) (resps : List Response) :
    ∀ (s : WatchStateV2) (y : Nat),
    s.consecutiveFailureCount = 0 → s.watchIndexDiscrepancy = false →
    (∀ r ∈ resps, r.Node ≠ .nil ∧ ValidIndex r.Node.modifiedIndex ∧
      ClientV2.knownAction r.Action ∧ r.ctxDone = false) →
    AcceptedFrom 0 s.ExpectedModIndex (resps.map (fun r => r.Node.modifiedIndex)) y →
    ClientV2.watchResponses m s (resps.map NextResult.ok) =
      { out := resps.map (fun r => .deliver r.Node.modifiedIndex (ClientV2.changeEvent r)),
        st := { s with ExpectedModIndex := y }, ctl := .next } := by
  induction resps with
  | nil =>
    intro s y _ _ _ ha
    simp only [List.map_nil, AcceptedFrom] at ha
    subst ha
    simp [ClientV2.watchResponses]
  | cons r rs ih =>
    intro s y hc hd hv ha
    simp only [List.map_cons, AcceptedFrom] at ha
    obtain ⟨hnil, hvi, hka, hctx⟩ := hv r (List.mem_cons_self _ _)
    cases hn : r.Node with
    | nil => exact absurd hn hnil
    | mk key dir value idx nodes =>
      simp only [hn, Node.modifiedIndex] at ha hvi
      have hm : idx = (ClientV2.initExpected s idx).ExpectedModIndex := by
        unfold ClientV2.initExpected
        split_ifs with h1
        · rfl
        · rcases ha.1 with h | h
          · exact absurd h h1
          · exact h
      have hstep := watchResponse_match_v2 m s r key dir value idx nodes hn hm
      rw [toWatchEvent_changeEvent_v2 r key dir value idx nodes hn hka, hctx] at hstep
      simp only [Bool.false_eq_true, if_false] at hstep
      rw [wrapUint64_succ_of_valid _ hvi] at hstep
      have h2 := ih ⟨idx + 1, false, 0⟩ y rfl rfl
        (fun x hx => hv x (List.mem_cons_of_mem _ hx)) ha.2.2
      simp only [List.map_cons, ClientV2.watchResponses, hstep, if_true, h2]
      simp [hc, hd, hn, Node.modifiedIndex]

/-- C6: a fresh client whose watch observes exactly the `PUT`/`DELETE` events with cursors
`n, n + 1, ..., n + k` (on v3 in any split into responses and subscriptions, on v2 from its
watcher; no send is pre-empted by the cancellation of the context) delivers all `k + 1` events
in that order, each with its key, its kind and, for a `PUT`, its value, sends no error, and
ends with expected cursor `n + k + 1`, still running. -/
theorem watch_plain_session_delivers_all
    (c : Client) (subs : List (List WatchResponse)) (n : Int) (k : Nat)
    (hfresh : c.ExpectedModRevision = -1) (hn : 0 ≤ n) (hk : n + k < 2 ^ 63 - 1)
    (herr : ∀ sub ∈ subs, ∀ w ∈ sub, w.Err = none)
    (hev : ∀ e ∈ eventsOfSubscriptions subs,
      (e.Type_ = .PUT ∨ e.Type_ = .DELETE) ∧ e.ctxDone = false)
    (hrev : (eventsOfSubscriptions subs).map (fun e => e.ModRevision) = cursorsFrom n k)
    (c2 : ClientV2) (resps : List Response) (rest : List (List NextResult)) (n2 k2 : Nat)
    (hfresh2 : c2.ExpectedModIndex = 0) (hk2 : n2 + k2 < 2 ^ 64 - 1)
    (hev2 : ∀ r ∈ resps,
      r.Node.isNil = false ∧ ClientV2.knownAction r.Action ∧ r.ctxDone = false)
    (hidx : resps.map (fun r => r.Node.modifiedIndex) = cursorsFrom n2 k2) :
    (deliveredEvents (Client.Watch c subs).out =
        (eventsOfSubscriptions subs).map Client.changeEvent ∧
      deliveredCursors (Client.Watch c subs).out = cursorsFrom n k ∧
      emittedErrors (Client.Watch c subs).out = [] ∧
      (Client.Watch c subs).st.ExpectedModRevision = n + k + 1 ∧
      (Client.Watch c subs).ctl = .next) ∧
    (deliveredEvents (ClientV2.Watch c2 (resps.map NextResult.ok :: rest)).out =
        resps.map ClientV2.changeEvent ∧
      deliveredCursors (ClientV2.Watch c2 (resps.map NextResult.ok :: rest)).out =
        cursorsFrom n2 k2 ∧
      emittedErrors (ClientV2.Watch c2 (resps.map NextResult.ok :: rest)).out = [] ∧
      (ClientV2.Watch c2 (resps.map NextResult.ok :: rest)).st.ExpectedModIndex
        = n2 + k2 + 1 ∧
      (ClientV2.Watch c2 (resps.map NextResult.ok :: rest)).ctl = .next) := by
  constructor
  · have hv : ∀ e ∈ eventsOfSubscriptions subs,
        ValidRevision e.ModRevision ∧ e.ctxDone = false := by
      intro e he
      refine ⟨cursorsFrom_bound_v3 k n hn hk _ ?_, (hev e he).2⟩
      rw [← hrev]
      exact List.mem_map_of_mem _ he
    have ha := acceptedFrom_cursorsFrom_v3 k n (-1) hn (Or.inl rfl)
    rw [← hrev] at ha
    have h := watchLoop_plain_v3 c.maxWatchRetries subs
      ⟨c.ExpectedModRevision, false, 0⟩ (n + k + 1) rfl rfl herr hv (by rw [hfresh]; exact ha)
    refine ⟨?_, by rw [← hrev]; exact h.2.1, h.2.2.1, ?_, h.2.2.2.2⟩
    · rw [show (Client.Watch c subs).out = (Client.watchLoop c.maxWatchRetries
        ⟨c.ExpectedModRevision, false, 0⟩ subs).out from rfl, h.1]
      apply List.map_congr_left
      intro e he
      rcases (hev e he).1 with h1 | h1 <;> simp [Client.toWatchEvent, Client.changeEvent, h1]
    · rw [show (Client.Watch c subs).st = (Client.watchLoop c.maxWatchRetries
        ⟨c.ExpectedModRevision, false, 0⟩ subs).st from rfl, h.2.2.2.1]
  · have hv : ∀ r ∈ resps, r.Node ≠ .nil ∧ ValidIndex r.Node.modifiedIndex ∧
        ClientV2.knownAction r.Action ∧ r.ctxDone = false := by
      intro r hr
      refine ⟨fun h0 => ?_, cursorsFrom_bound_v2 k2 n2 hk2 _ ?_, (hev2 r hr).2⟩
      · have h1 := (hev2 r hr).1
        rw [h0] at h1
        simp [Node.isNil] at h1
      rw [← hidx]
      exact List.mem_map_of_mem _ hr
    have ha := acceptedFrom_cursorsFrom_v2 k2 n2 0 (Or.inl rfl)
    rw [← hidx] at ha
    have h := watchResponses_plain_v2 c2.maxWatchRetries resps
      ⟨c2.ExpectedModIndex, false, 0⟩ (n2 + k2 + 1) rfl rfl hv (by rw [hfresh2]; exact ha)
    have hw : ClientV2.Watch c2 (resps.map NextResult.ok :: rest) =
        { out := .subscribe 0 ::
            resps.map (fun r => .deliver r.Node.modifiedIndex (ClientV2.changeEvent r)),
          st := ⟨n2 + k2 + 1, false, 0⟩, ctl := .next } := by
      simp [ClientV2.Watch, ClientV2.watchLoop, h, ClientV2.watchRequest]
    rw [hw]
    refine ⟨?_, ?_, ?_, rfl, rfl⟩
    · simp only [deliveredEvents]
      exact deliveredEvents_map_deliver _ _ _
    · simp only [deliveredCursors]
      rw [← hidx]
      exact deliveredCursors_map_deliver _ _ _
    · simp only [emittedErrors]
      exact emittedErrors_map_deliver _ _ _


/-- Witness of C6: scenario 2, the cursors 7, 8, 9 observed by a fresh client, on both
backends; the expected cursor ends at 10. -/
theorem watch_plain_session_delivers_all_witness :
    deliveredCursors (Client.Watch exampleClient plainSession).out = [7, 8, 9] ∧
    (Client.Watch exampleClient plainSession).st.ExpectedModRevision = 10 ∧
    emittedErrors (Client.Watch exampleClient plainSession).out = [] ∧
    deliveredEvents (ClientV2.Watch exampleClientV2
      (plainResponsesV2.map NextResult.ok :: [])).out =
      [{ Type_ := "PUT", Key := "/k", Value := "v" }, { Type_ := "DELETE", Key := "/k" },
       { Type_ := "PUT", Key := "/k", Value := "v" }] ∧
    (ClientV2.Watch exampleClientV2
      (plainResponsesV2.map NextResult.ok :: [])).st.ExpectedModIndex = 10 :=
  have h := watch_plain_session_delivers_all exampleClient plainSession 7 2 rfl
    (by decide) (by decide) (by decide) (by decide) (by decide)
    exampleClientV2 plainResponsesV2 [] 7 2 rfl (by decide) (by decide) (by decide)
  ⟨h.1.2.1, h.1.2.2.2.1, h.1.2.2.1, h.2.1, h.2.2.2.2.1⟩

/-! ## `GetKeysWithPagination` on v2: the traversal as a fold over the leaves -/

theorem collectLeaf_full (limit : Int) (fromKey : String) (st : CollectState)
    (h : (st.keys.length : Int) ≥ limit) (l : List KV) :
    l.foldl (ClientV2.collectLeaf limit fromKey) st = st := by
  induction l with
  | nil => rfl
  | cons kv l ih =>
    simp only [List.foldl_cons]
    have : ClientV2.collectLeaf limit fromKey st kv = st := by
      simp [ClientV2.collectLeaf, h]
    rw [this, ih]

mutual
theorem collectKeys_eq_foldl (limit : Int) (fromKey : String) :
    ∀ (node : Node) (st : CollectState),
    ClientV2.collectKeys limit fromKey node st =
      (leavesOf node).foldl (ClientV2.collectLeaf limit fromKey) st
  | .nil, st => by simp [ClientV2.collectKeys, leavesOf]
  | .mk key dir value idx nodes, st => by
    by_cases hfull : (st.keys.length : Int) ≥ limit
    · rw [collectLeaf_full limit fromKey st hfull]
      simp [ClientV2.collectKeys, hfull]
    · cases dir with
      | false =>
        simp [ClientV2.collectKeys, leavesOf, ClientV2.collectLeaf, hfull]
      | true =>
        simp only [ClientV2.collectKeys, leavesOf, hfull, if_false, Bool.not_true,
          Bool.false_eq_true, if_true]
        exact collectChildren_eq_foldl limit fromKey nodes st
theorem collectChildren_eq_foldl (limit : Int) (fromKey : String) :
    ∀ (nodes : List Node) (st : CollectState),
    ClientV2.collectChildren limit fromKey nodes st =
      (leavesOfList nodes).foldl (ClientV2.collectLeaf limit fromKey) st
  | [], st => by simp [ClientV2.collectChildren, leavesOfList]
  | child :: rest, st => by
    by_cases hfull : (st.keys.length : Int) ≥ limit
    · rw [collectLeaf_full limit fromKey st hfull]
      simp [ClientV2.collectChildren, hfull]
    · simp only [ClientV2.collectChildren, leavesOfList, hfull, if_false, List.foldl_append]
      rw [collectKeys_eq_foldl limit fromKey child st]
      exact collectChildren_eq_foldl limit fromKey rest _
end


theorem foldl_collectLeaf_collecting (limit : Int) (fromKey : String) (l : List KV) :
    ∀ (keys : List KV),
    l.foldl (ClientV2.collectLeaf limit fromKey) { keys := keys, skipping := false } =
      { keys := keys ++ l.take (limit.toNat - keys.length), skipping := false } := by
  induction l with
  | nil => intro keys; simp
  | cons kv l ih =>
    intro keys
    simp only [List.foldl_cons]
    by_cases hfull : (keys.length : Int) ≥ limit
    · have h0 : limit.toNat - keys.length = 0 := by omega
      have : ClientV2.collectLeaf limit fromKey { keys := keys, skipping := false } kv =
          { keys := keys, skipping := false } := by
        simp [ClientV2.collectLeaf, hfull]
      rw [this, ih, h0]
      simp
    · have h1 : limit.toNat - keys.length = (limit.toNat - (keys.length + 1)) + 1 := by omega
      have : ClientV2.collectLeaf limit fromKey { keys := keys, skipping := false } kv =
          { keys := keys ++ [kv], skipping := false } := by
        simp [ClientV2.collectLeaf, hfull]
      rw [this, ih, h1]
      simp

theorem foldl_collectLeaf_skipping (limit : Int) (fromKey : String) (l : List KV) :
    (l.foldl (ClientV2.collectLeaf limit fromKey) { keys := [], skipping := true }).keys =
      (afterKey fromKey l).take limit.toNat := by
  by_cases hfull : (0 : Int) ≥ limit
  · rw [collectLeaf_full limit fromKey _ (by simpa using hfull)]
    have h0 : limit.toNat = 0 := by omega
    simp [h0]
  · induction l with
    | nil => simp [afterKey]
    | cons kv l ih =>
      simp only [List.foldl_cons, afterKey]
      by_cases hk : kv.Key = fromKey
      · have : ClientV2.collectLeaf limit fromKey { keys := [], skipping := true } kv =
            { keys := [], skipping := false } := by
          simp [ClientV2.collectLeaf, hk]
          omega
        rw [this, foldl_collectLeaf_collecting, if_pos hk]
        simp
      · have : ClientV2.collectLeaf limit fromKey { keys := [], skipping := true } kv =
            { keys := [], skipping := true } := by
          simp [ClientV2.collectLeaf, hk]
        rw [this, ih, if_neg hk]

/-- The page of the v2 backend, as a function of the leaves of the tree. -/
theorem getKeys_eq_v2 (c : ClientV2) (tree : Node) (fromKey : String) :
    ClientV2.GetKeysWithPagination c (fun _ => .ok tree) fromKey =
      .ok ((if fromKey = "" then leavesOf tree else afterKey fromKey (leavesOf tree)).take
            c.numGetKeysLimit.toNat,
          lastKey ((if fromKey = "" then leavesOf tree
            else afterKey fromKey (leavesOf tree)).take c.numGetKeysLimit.toNat)) := by
  have hkeys : (ClientV2.collectKeys c.numGetKeysLimit fromKey tree
      { keys := [], skipping := fromKey ≠ "" }).keys =
      (if fromKey = "" then leavesOf tree else afterKey fromKey (leavesOf tree)).take
        c.numGetKeysLimit.toNat := by
    rw [collectKeys_eq_foldl]
    by_cases hf : fromKey = ""
    · simp [hf, foldl_collectLeaf_collecting]
    · simp only [hf, if_false]
      have := foldl_collectLeaf_skipping c.numGetKeysLimit fromKey (leavesOf tree)
      simpa [hf] using this
  simp only [ClientV2.GetKeysWithPagination, hkeys]
  by_cases h2 : ((if fromKey = "" then leavesOf tree else afterKey fromKey (leavesOf tree)).take
      c.numGetKeysLimit.toNat).length = 0
  · rw [if_pos h2]
    rw [List.length_eq_zero] at h2
    rw [h2]
    rfl
  · rw [if_neg h2]


/-! ## Iterating the pages -/

theorem lastKey_cons_cons (a b : KV) (l : List KV) :
    lastKey (a :: b :: l) = lastKey (b :: l) := by
  simp [lastKey]

theorem lastKey_mem (l : List KV) (h : l ≠ []) : ∃ kv ∈ l, lastKey l = kv.Key := by
  cases hl : l.getLast? with
  | none => exact absurd (List.getLast?_eq_none_iff.1 hl) h
  | some kv => exact ⟨kv, List.mem_of_getLast?_eq_some hl, by simp [lastKey, hl]⟩

theorem lastKey_append (a b : List KV) (h : b ≠ []) : lastKey (a ++ b) = lastKey b := by
  cases hb : b.getLast? with
  | none => exact absurd (List.getLast?_eq_none_iff.1 hb) h
  | some kv => simp [lastKey, List.getLast?_append, hb]

theorem afterKey_lastKey (done : List KV) : ∀ (rem : List KV), done ≠ [] →
    ((done ++ rem).map (fun kv => kv.Key)).Nodup →
    afterKey (lastKey done) (done ++ rem) = rem := by
  induction done with
  | nil => intro rem h; exact absurd rfl h
  | cons a done ih =>
    intro rem _ hd
    cases done with
    | nil => simp [afterKey, lastKey]
    | cons b done =>
      rw [lastKey_cons_cons]
      simp only [List.cons_append, List.map_cons, List.nodup_cons] at hd
      obtain ⟨kv, hkv, hlast⟩ := lastKey_mem (b :: done) (by simp)
      have hne : a.Key ≠ lastKey (b :: done) := by
        intro h
        apply hd.1
        rw [h, hlast]
        have : kv ∈ b :: (done ++ rem) := by
          rw [← List.cons_append]
          exact List.mem_append_left _ hkv
        rcases List.mem_cons.1 this with h1 | h1
        · exact List.mem_cons.2 (Or.inl (by rw [h1]))
        · exact List.mem_cons.2 (Or.inr (List.mem_map_of_mem _ h1))
      simp only [List.cons_append, afterKey, if_neg hne]
      have := ih rem (by simp) (by simpa using hd.2)
      simpa using this

/-- Iterating a page function that returns the next `n0` records of `all` on the first call and
the `n1` records after `fromKey` on the later ones (`fromKey` being a key of `all`) reaches the
empty page and yields `all`. -/
theorem paginate_chunks (all : List KV) (n0 n1 : Nat) (h0 : 1 ≤ n0) (h1 : 1 ≤ n1)
    (hd : (all.map (fun kv => kv.Key)).Nodup) (hne : ∀ kv ∈ all, kv.Key ≠ "")
    (page : String → Except Error (List KV × String))
    (hfirst : page "" = .ok (all.take n0, lastKey (all.take n0)))
    (hnext : ∀ k ∈ all.map (fun kv => kv.Key), k ≠ "" →
      page k = .ok ((afterKey k all).take n1, lastKey ((afterKey k all).take n1))) :
    ∀ (fuel : Nat) (done rem : List KV) (k : String), all = done ++ rem →
      rem.length + 1 ≤ fuel →
      ((done = [] ∧ k = "") ∨ (done ≠ [] ∧ k = lastKey done)) →
      ∃ pages, paginate page fuel k = some pages ∧ recordsOf pages = rem := by
  intro fuel
  induction fuel with
  | zero => intro done rem k _ hf; omega
  | succ fuel ih =>
    intro done rem k hall hf hk
    have hpage : ∃ n, 1 ≤ n ∧ page k = .ok (rem.take n, lastKey (rem.take n)) := by
      rcases hk with ⟨hdone, hk⟩ | ⟨hdone, hk⟩
      · subst hdone hk
        simp only [List.nil_append] at hall
        subst hall
        exact ⟨n0, h0, hfirst⟩
      · obtain ⟨kv, hkv, hlast⟩ := lastKey_mem done hdone
        have hkne : k ≠ "" := by
          rw [hk, hlast]
          exact hne kv (by rw [hall]; exact List.mem_append_left _ hkv)
        have ha : afterKey k all = rem := by
          rw [hk, hall]
          exact afterKey_lastKey done rem hdone (by rw [← hall]; exact hd)
        have hkmem : k ∈ all.map (fun kv => kv.Key) := by
          rw [hk, hlast, hall]
          exact List.mem_map_of_mem _ (List.mem_append_left _ hkv)
        refine ⟨n1, h1, ?_⟩
        rw [hnext k hkmem hkne, ha]
    obtain ⟨n, hn, hp⟩ := hpage
    cases rem with
    | nil =>
      refine ⟨[([], "")], ?_, by simp [recordsOf]⟩
      simp [paginate, hp, lastKey]
    | cons r rem =>
      have hlen : ((r :: rem).take n).length ≠ 0 := by
        cases n with
        | zero => omega
        | succ n => simp
      have hnil : (r :: rem).take n ≠ [] := fun h => hlen (by rw [h]; rfl)
      obtain ⟨pages, hpages, hrec⟩ := ih (done ++ (r :: rem).take n) ((r :: rem).drop n)
        (lastKey ((r :: rem).take n))
        (by rw [List.append_assoc, List.take_append_drop]; exact hall)
        (by
          have : ((r :: rem).drop n).length < (r :: rem).length := by
            rw [List.length_drop]
            simp only [List.length_cons]
            omega
          omega)
        (Or.inr ⟨by simp [hnil], (lastKey_append _ _ hnil).symm⟩)
      refine ⟨((r :: rem).take n, lastKey ((r :: rem).take n)) :: pages, ?_, ?_⟩
      · simp only [paginate, hp, hlen, if_false, hpages, Option.map_some']
      · simp only [recordsOf, hrec, List.take_append_drop]


/-! ## C7, C8, C10: pagination -/

/-- C7 fails on the code of the v3 backend, at inputs the constructor accepts. With
`numGetKeysLimit = 1` on the store `{a:1, b:2, c:3}` the first page is `[(a,1)]` with nextKey
`a`; the second call asks for one key from `a` on, gets `a` itself, discards it as the
duplicate of `fromKey` and returns the empty page: the enumeration ends without `b` and `c`.
With root prefix `/app/` and limit 2 on the store `{/app/a:1, /b:2}` the second call, made
with `WithFromKey` and without the prefix, returns `/b`, a key outside the root prefix. -/
theorem v3_pagination_misses_keys :
    paginate (Client.GetKeysWithPagination (pagingClient 1) (etcdRange abcStore)) 10 ""
      = some [([⟨"a", "1"⟩], "a"), ([], "")] ∧
    paginate (Client.GetKeysWithPagination appClient (etcdRange appStore)) 10 ""
      = some [([⟨"/app/a", "1"⟩], "/app/a"), ([⟨"/b", "2"⟩], "/b"), ([], "")] ∧
    paginate (Client.GetKeysWithPagination (pagingClient 2) (etcdRange abcStore)) 10 ""
      = some [([⟨"a", "1"⟩, ⟨"b", "2"⟩], "b"), ([⟨"c", "3"⟩], "c"), ([], "")] := by
  decide

/-- C8: on the v2 backend, for every node tree whose leaf keys are pairwise distinct and not
empty, served unchanged at every call, and every pagination limit `≥ 1`: calling
`GetKeysWithPagination` with `fromKey = ""` and then with the returned `nextKey` reaches an
empty page after at most as many further calls as there are leaves, and the pages yield
exactly the leaves (the non-directory nodes) of the tree, each once, with its value, in
depth-first order. -/
theorem v2_pagination_enumerates_leaves (c : ClientV2) (tree : Node) (fuel : Nat)
    (hlimit : 1 ≤ c.numGetKeysLimit)
    (hd : ((leavesOf tree).map (fun kv => kv.Key)).Nodup)
    (hne : ∀ kv ∈ leavesOf tree, kv.Key ≠ "")
    (hfuel : (leavesOf tree).length + 1 ≤ fuel) :
    ∃ pages, paginate (ClientV2.GetKeysWithPagination c (fun _ => .ok tree)) fuel ""
        = some pages ∧
      recordsOf pages = leavesOf tree := by
  have hn : 1 ≤ c.numGetKeysLimit.toNat := by omega
  refine paginate_chunks (leavesOf tree) c.numGetKeysLimit.toNat c.numGetKeysLimit.toNat
    hn hn hd hne _ ?_ ?_ fuel [] (leavesOf tree) "" rfl hfuel (Or.inl ⟨rfl, rfl⟩)
  · rw [getKeys_eq_v2]
    simp
  · intro k _ hk
    rw [getKeys_eq_v2]
    simp [hk]

/-- Witness of C8: scenario 1 on v2, the leaves `/a`, `/b`, `/c` with limit 2. -/
theorem v2_pagination_enumerates_leaves_witness :
    paginate (ClientV2.GetKeysWithPagination (pagingClientV2 2) (fun _ => .ok abcTree)) 4 ""
      = some [([⟨"/a", "1"⟩, ⟨"/b", "2"⟩], "/b"), ([⟨"/c", "3"⟩], "/c"), ([], "")] ∧
    ∃ pages, paginate (ClientV2.GetKeysWithPagination (pagingClientV2 2)
        (fun _ => .ok abcTree)) 4 "" = some pages ∧
      recordsOf pages = leavesOf abcTree :=
  ⟨by decide, v2_pagination_enumerates_leaves (pagingClientV2 2) abcTree 4 (by decide)
    (by decide) (by decide) (by decide)⟩

/-- C10: on both backends, whenever `GetKeysWithPagination` succeeds, whatever the etcd client
answered: the returned `nextKey` is the key of the last record of the returned page when the
page is not empty, and the empty string when it is; and when no key of the page is empty,
`nextKey` is empty if and only if the page is. -/
theorem getKeys_nextKey_is_last_key
    (c : Client) (get : GetRequest → Except Error (List KV)) (fromKey : String)
    (page : List KV) (nextKey : String)
    (h : Client.GetKeysWithPagination c get fromKey = .ok (page, nextKey))
    (c2 : ClientV2) (get2 : String → Except Error Node) (fromKey2 : String)
    (page2 : List KV) (nextKey2 : String)
    (h2 : ClientV2.GetKeysWithPagination c2 get2 fromKey2 = .ok (page2, nextKey2)) :
    ((page = [] → nextKey = "") ∧
      (∀ kv, page.getLast? = some kv → nextKey = kv.Key) ∧
      ((∀ kv ∈ page, kv.Key ≠ "") → (nextKey = "" ↔ page = []))) ∧
    ((page2 = [] → nextKey2 = "") ∧
      (∀ kv, page2.getLast? = some kv → nextKey2 = kv.Key) ∧
      ((∀ kv ∈ page2, kv.Key ≠ "") → (nextKey2 = "" ↔ page2 = []))) := by
  have key : ∀ (p : List KV) (nk : String), nk = lastKey p →
      (p = [] → nk = "") ∧ (∀ kv, p.getLast? = some kv → nk = kv.Key) ∧
      ((∀ kv ∈ p, kv.Key ≠ "") → (nk = "" ↔ p = [])) := by
    intro p nk hnk
    refine ⟨fun hp => by rw [hnk, hp]; rfl, fun kv hkv => by rw [hnk]; simp [lastKey, hkv],
      fun hne => ⟨fun h0 => ?_, fun hp => by rw [hnk, hp]; rfl⟩⟩
    by_contra hp
    obtain ⟨kv, hkv, hlast⟩ := lastKey_mem p hp
    exact hne kv hkv (by rw [← hlast, ← hnk, h0])
  constructor
  · apply key
    unfold Client.GetKeysWithPagination at h
    simp only [] at h
    split at h
    · cases h
    · split_ifs at h with h0
      · rw [List.length_eq_zero] at h0
        simp only [Except.ok.injEq, Prod.mk.injEq] at h
        rw [← h.1, ← h.2, h0]
        rfl
      · simp only [Except.ok.injEq, Prod.mk.injEq] at h
        rw [← h.1, ← h.2]
  · apply key
    simp only [ClientV2.GetKeysWithPagination] at h2
    cases hg : get2 c2.rootPrefixEtcd with
    | error e =>
      simp only [hg] at h2
      split_ifs at h2
      simp only [Except.ok.injEq, Prod.mk.injEq] at h2
      rw [← h2.1, ← h2.2]
      rfl
    | ok node =>
      simp only [hg] at h2
      split_ifs at h2 with h0
      · rw [List.length_eq_zero] at h0
        simp only [Except.ok.injEq, Prod.mk.injEq] at h2
        rw [← h2.1, ← h2.2, h0]
        rfl
      · simp only [Except.ok.injEq, Prod.mk.injEq] at h2
        rw [← h2.1, ← h2.2]

/-- Witness of C10: the first page of scenario 1 on both backends. -/
theorem getKeys_nextKey_is_last_key_witness :
    Client.GetKeysWithPagination (pagingClient 2) (etcdRange abcStore) ""
      = .ok ([⟨"a", "1"⟩, ⟨"b", "2"⟩], "b") ∧
    ClientV2.GetKeysWithPagination (pagingClientV2 2) (fun _ => .ok abcTree) ""
      = .ok ([⟨"/a", "1"⟩, ⟨"/b", "2"⟩], "/b") ∧
    (∀ kv, [KV.mk "a" "1", KV.mk "b" "2"].getLast? = some kv → "b" = kv.Key) ∧
    (∀ kv, [KV.mk "/a" "1", KV.mk "/b" "2"].getLast? = some kv → "/b" = kv.Key) :=
  have h := getKeys_nextKey_is_last_key (pagingClient 2) (etcdRange abcStore) ""
    [⟨"a", "1"⟩, ⟨"b", "2"⟩] "b" rfl
    (pagingClientV2 2) (fun _ => .ok abcTree) "" [⟨"/a", "1"⟩, ⟨"/b", "2"⟩] "/b" rfl
  ⟨rfl, rfl, h.1.2.1, h.2.2.1⟩


/-! ## C9: one page -/

theorem getKeys_eq_v3 (c : Client) (store : List KV) (fromKey : String)
    (hl : 1 ≤ c.numGetKeysLimit) :
    Client.GetKeysWithPagination c (etcdRange store) fromKey =
      .ok ((((store.filter (fun kv =>
              if fromKey = "" then c.rootPrefixEtcd.data.isPrefixOf kv.Key.data
              else decide (fromKey.data ≤ kv.Key.data))).take
            c.numGetKeysLimit.toNat).filter (fun kv => kv.Key ≠ fromKey)),
          lastKey (((store.filter (fun kv =>
              if fromKey = "" then c.rootPrefixEtcd.data.isPrefixOf kv.Key.data
              else decide (fromKey.data ≤ kv.Key.data))).take
            c.numGetKeysLimit.toNat).filter (fun kv => kv.Key ≠ fromKey))) := by
  have hl2 : ¬ c.numGetKeysLimit ≤ 0 := by omega
  by_cases hf : fromKey = ""
  · simp only [Client.GetKeysWithPagination, etcdRange, hf, ne_eq, not_true_eq_false,
      if_false, hl2, if_true]
    split_ifs with h0
    · rw [List.length_eq_zero] at h0
      rw [h0]
      rfl
    · rfl
  · simp only [Client.GetKeysWithPagination, etcdRange, hf, ne_eq, not_false_eq_true,
      if_true, if_false, hl2]
    split_ifs with h0
    · rw [List.length_eq_zero] at h0
      rw [h0]
      rfl
    · rfl

theorem v3_window (k : String) (store : List KV) (hs : SortedKeys store) (n : Nat)
    (hn : 1 ≤ n) :
    ((store.filter (fun kv => decide (k.data ≤ kv.Key.data))).take n).filter
        (fun kv => kv.Key ≠ k) =
      (store.filter (fun kv => decide (k.data < kv.Key.data))).take
        (n - (if k ∈ store.map (fun kv => kv.Key) then 1 else 0)) := by
  induction store with
  | nil => simp
  | cons a tl ih =>
    unfold SortedKeys at hs
    rw [List.pairwise_cons] at hs
    have htl : ∀ b ∈ tl, a.Key.data < b.Key.data := hs.1
    rcases lt_trichotomy a.Key.data k.data with hlt | heq | hgt
    · have hne : a.Key ≠ k := fun h => by rw [h] at hlt; exact lt_irrefl _ hlt
      have h1 : ¬ k.data ≤ a.Key.data := not_le.2 hlt
      have h2 : ¬ k.data < a.Key.data := fun h => lt_asymm h hlt
      have hmem : (k ∈ (a :: tl).map (fun kv => kv.Key)) ↔ (k ∈ tl.map (fun kv => kv.Key)) := by
        simp only [List.map_cons, List.mem_cons]
        constructor
        · rintro (h | h)
          · exact absurd h.symm hne
          · exact h
        · exact Or.inr
      simp only [List.filter_cons, h1, h2, decide_False, Bool.false_eq_true, if_false, hmem]
      exact ih hs.2
    · have hk : a.Key = k := String.ext heq
      have hall : ∀ b ∈ tl, k.data < b.Key.data := fun b hb => by rw [← heq]; exact htl b hb
      have hf1 : tl.filter (fun kv => decide (k.data ≤ kv.Key.data)) = tl :=
        List.filter_eq_self.2 (fun b hb => by simpa using le_of_lt (hall b hb))
      have hf2 : tl.filter (fun kv => decide (k.data < kv.Key.data)) = tl :=
        List.filter_eq_self.2 (fun b hb => by simpa using hall b hb)
      have hmem : k ∈ (a :: tl).map (fun kv => kv.Key) := by simp [hk]
      have h1 : k.data ≤ a.Key.data := by rw [heq]
      have h2 : ¬ k.data < a.Key.data := by rw [heq]; exact lt_irrefl _
      have e1 : (a :: tl).filter (fun kv => decide (k.data ≤ kv.Key.data)) = a :: tl := by
        rw [List.filter_cons, hf1]
        simp [h1]
      have e2 : (a :: tl).filter (fun kv => decide (k.data < kv.Key.data)) = tl := by
        rw [List.filter_cons, hf2]
        simp [h2]
      obtain ⟨n, rfl⟩ : ∃ n2, n = n2 + 1 := ⟨n - 1, by omega⟩
      rw [e1, e2, if_pos hmem, List.take_succ_cons, List.filter_cons]
      have h3 : decide (a.Key ≠ k) = false := by simp [hk]
      rw [h3]
      simp only [Bool.false_eq_true, if_false, Nat.add_sub_cancel]
      apply List.filter_eq_self.2
      intro b hb
      have hb2 := hall b (List.mem_of_mem_take hb)
      have : b.Key ≠ k := fun h => by rw [h] at hb2; exact lt_irrefl _ hb2
      simpa using this
    · have hall : ∀ b ∈ a :: tl, k.data < b.Key.data := by
        intro b hb
        rcases List.mem_cons.1 hb with rfl | hb
        · exact hgt
        · exact lt_trans hgt (htl b hb)
      have hf1 : (a :: tl).filter (fun kv => decide (k.data ≤ kv.Key.data)) = a :: tl :=
        List.filter_eq_self.2 (fun b hb => by simpa using le_of_lt (hall b hb))
      have hf2 : (a :: tl).filter (fun kv => decide (k.data < kv.Key.data)) = a :: tl :=
        List.filter_eq_self.2 (fun b hb => by simpa using hall b hb)
      have hmem : k ∉ (a :: tl).map (fun kv => kv.Key) := by
        intro h
        obtain ⟨b, hb, hbk⟩ := List.mem_map.1 h
        have := hall b hb
        rw [hbk] at this
        exact lt_irrefl _ this
      rw [hf1, hf2, if_neg hmem, Nat.sub_zero]
      apply List.filter_eq_self.2
      intro b hb
      have hb2 := hall b (List.mem_of_mem_take hb)
      have : b.Key ≠ k := fun h => by rw [h] at hb2; exact lt_irrefl _ hb2
      simpa using this


theorem afterKey_suffix (k : String) (l : List KV) : afterKey k l <:+ l := by
  induction l with
  | nil => exact List.suffix_refl _
  | cons a l ih =>
    simp only [afterKey]
    split_ifs
    · exact List.suffix_cons a l
    · exact ih.trans (List.suffix_cons a l)

theorem afterKey_absent (k : String) (l : List KV) (h : k ∉ l.map (fun kv => kv.Key)) :
    afterKey k l = [] := by
  induction l with
  | nil => rfl
  | cons a l ih =>
    simp only [List.map_cons, List.mem_cons, not_or] at h
    have hne : ¬ a.Key = k := fun h0 => h.1 h0.symm
    simp only [afterKey, if_neg hne]
    exact ih h.2

theorem afterKey_first (k : String) (pre post : List KV) (kv : KV) (hk : kv.Key = k)
    (h : k ∉ pre.map (fun kv => kv.Key)) : afterKey k (pre ++ kv :: post) = post := by
  induction pre with
  | nil => simp [afterKey, hk]
  | cons a pre ih =>
    simp only [List.map_cons, List.mem_cons, not_or] at h
    have hne : ¬ a.Key = k := fun h0 => h.1 h0.symm
    simp only [List.cons_append, afterKey, if_neg hne]
    exact ih h.2

/-- C9 fails as stated on the v2 backend. With the leaves `/a`, `/b`, `/c` and `fromKey =
"/aa"`, a key that is not (or no longer) the key of a leaf, the page is empty although `/b`
is a leaf key strictly greater than `fromKey`. And the page of the tree with the directory
`/a` (leaf `/a/b`) followed by the leaf `/a-b` is `/a/b`, `/a-b`, in depth-first order,
while `/a-b` is the smaller key as a raw string. -/
theorem v2_page_absent_fromKey_and_order :
    ClientV2.GetKeysWithPagination (pagingClientV2 2) (fun _ => .ok abcTree) "/aa"
      = .ok ([], "") ∧
    (KV.mk "/b" "2" ∈ leavesOf abcTree ∧ "/aa".data < "/b".data) ∧
    ClientV2.GetKeysWithPagination (pagingClientV2 2) (fun _ => .ok dashTree) ""
      = .ok ([⟨"/a/b", "1"⟩, ⟨"/a-b", "2"⟩], "/a-b") ∧
    "/a-b".data < "/a/b".data ∧
    ¬ SortedKeys [⟨"/a/b", "1"⟩, ⟨"/a-b", "2"⟩] :=
  ⟨rfl, by decide, rfl, by decide, by decide⟩

/-- C9, as amended. On both backends a page has at most `paginationLimit` records.
On v3, with the server a key-sorted map of non-empty keys: the page is in strictly ascending
key order; with an empty `fromKey` it starts at the first key under the root prefix; with a
non-empty `fromKey`, when some key is strictly greater than `fromKey`, its first record is
the smallest such key, provided `paginationLimit ≥ 2` or `fromKey` is not a key of the store.
On v2: the page is a run of consecutive leaves in the depth-first order of the tree; with an
empty `fromKey` it starts at the first leaf; with a non-empty `fromKey` it consists of the
leaves that follow the first leaf whose key is `fromKey`, and is empty when no leaf has that
key. -/
theorem getKeys_page_contract
    (c : Client) (store : List KV) (fromKey : String)
    (hs : SortedKeys store) (hk : ∀ kv ∈ store, kv.Key ≠ "") (hl : 1 ≤ c.numGetKeysLimit)
    (c2 : ClientV2) (tree : Node) (fromKey2 : String) (hl2 : 1 ≤ c2.numGetKeysLimit) :
    (∃ page, Client.GetKeysWithPagination c (etcdRange store) fromKey
        = .ok (page, lastKey page) ∧
      (page.length : Int) ≤ c.numGetKeysLimit ∧
      SortedKeys page ∧
      (fromKey = "" → page.head? =
        (store.filter (fun kv => c.rootPrefixEtcd.data.isPrefixOf kv.Key.data)).head?) ∧
      (fromKey ≠ "" →
        (2 ≤ c.numGetKeysLimit ∨ fromKey ∉ store.map (fun kv => kv.Key)) →
        ∀ kv0 ∈ store, fromKey.data < kv0.Key.data →
        ∃ kv, page.head? = some kv ∧ kv ∈ store ∧ fromKey.data < kv.Key.data ∧
          ∀ kv2 ∈ store, fromKey.data < kv2.Key.data → kv.Key.data ≤ kv2.Key.data)) ∧
    (∃ page2, ClientV2.GetKeysWithPagination c2 (fun _ => .ok tree) fromKey2
        = .ok (page2, lastKey page2) ∧
      (page2.length : Int) ≤ c2.numGetKeysLimit ∧
      page2 <:+: leavesOf tree ∧
      (fromKey2 = "" → page2 = (leavesOf tree).take c2.numGetKeysLimit.toNat) ∧
      (fromKey2 ≠ "" → fromKey2 ∉ (leavesOf tree).map (fun kv => kv.Key) → page2 = []) ∧
      (fromKey2 ≠ "" → ∀ (pre post : List KV) (kv : KV),
        leavesOf tree = pre ++ kv :: post → kv.Key = fromKey2 →
        fromKey2 ∉ pre.map (fun kv => kv.Key) →
        page2 = post.take c2.numGetKeysLimit.toNat)) := by
  constructor
  · refine ⟨_, getKeys_eq_v3 c store fromKey hl, ?_, ?_, ?_, ?_⟩
    · have h1 := List.length_filter_le (fun kv : KV => decide (kv.Key ≠ fromKey))
        ((store.filter (fun kv =>
          if fromKey = "" then c.rootPrefixEtcd.data.isPrefixOf kv.Key.data
          else decide (fromKey.data ≤ kv.Key.data))).take c.numGetKeysLimit.toNat)
      have h2 := List.length_take_le c.numGetKeysLimit.toNat (store.filter (fun kv =>
          if fromKey = "" then c.rootPrefixEtcd.data.isPrefixOf kv.Key.data
          else decide (fromKey.data ≤ kv.Key.data)))
      omega
    · exact List.Pairwise.sublist
        (((List.filter_sublist _).trans (List.take_sublist _ _)).trans
          (List.filter_sublist _)) hs
    · intro hf
      subst hf
      have hn : 1 ≤ c.numGetKeysLimit.toNat := by omega
      have hfil : ∀ (l : List KV), (∀ kv ∈ l, kv.Key ≠ "") →
          l.filter (fun kv => decide (kv.Key ≠ "")) = l :=
        fun l hl => List.filter_eq_self.2 (fun b hb => by simpa using hl b hb)
      simp only [if_true]
      rw [hfil _ (fun kv hkv => hk kv (List.mem_of_mem_filter (List.mem_of_mem_take hkv)))]
      obtain ⟨n, hn2⟩ : ∃ n2, c.numGetKeysLimit.toNat = n2 + 1 :=
        ⟨c.numGetKeysLimit.toNat - 1, by omega⟩
      rw [hn2]
      cases store.filter (fun kv => c.rootPrefixEtcd.data.isPrefixOf kv.Key.data) <;> simp
    · intro hf hlim kv0 hkv0 hgt
      simp only [hf, if_false]
      rw [v3_window fromKey store hs c.numGetKeysLimit.toNat (by omega)]
      have hm : 1 ≤ c.numGetKeysLimit.toNat -
          (if fromKey ∈ store.map (fun kv => kv.Key) then 1 else 0) := by
        rcases hlim with h | h
        · split_ifs <;> omega
        · rw [if_neg h]; omega
      obtain ⟨m, hm2⟩ : ∃ m2, c.numGetKeysLimit.toNat -
          (if fromKey ∈ store.map (fun kv => kv.Key) then 1 else 0) = m2 + 1 :=
        ⟨_, (Nat.sub_add_cancel hm).symm⟩
      rw [hm2]
      have hF : kv0 ∈ store.filter (fun kv => decide (fromKey.data < kv.Key.data)) :=
        List.mem_filter.2 ⟨hkv0, by simpa using hgt⟩
      have hsF : SortedKeys (store.filter (fun kv => decide (fromKey.data < kv.Key.data))) :=
        List.Pairwise.sublist (List.filter_sublist _) hs
      cases hFe : store.filter (fun kv => decide (fromKey.data < kv.Key.data)) with
      | nil => rw [hFe] at hF; simp at hF
      | cons kv F =>
        have hkv : kv ∈ store.filter (fun kv => decide (fromKey.data < kv.Key.data)) := by
          rw [hFe]; exact List.mem_cons_self _ _
        rw [List.mem_filter] at hkv
        refine ⟨kv, by simp, hkv.1, by simpa using hkv.2, ?_⟩
        intro kv2 hkv2 hgt2
        have h2 : kv2 ∈ kv :: F := by
          rw [← hFe]
          exact List.mem_filter.2 ⟨hkv2, by simpa using hgt2⟩
        rw [hFe] at hsF
        unfold SortedKeys at hsF
        rw [List.pairwise_cons] at hsF
        rcases List.mem_cons.1 h2 with h3 | h3
        · rw [h3]
        · exact le_of_lt (hsF.1 kv2 h3)
  · refine ⟨_, getKeys_eq_v2 c2 tree fromKey2, ?_, ?_, ?_, ?_, ?_⟩
    · have := List.length_take_le c2.numGetKeysLimit.toNat
        (if fromKey2 = "" then leavesOf tree else afterKey fromKey2 (leavesOf tree))
      omega
    · refine (List.take_prefix _ _).isInfix.trans ?_
      split_ifs
      · exact List.infix_refl _
      · exact (afterKey_suffix _ _).isInfix
    · intro hf
      rw [if_pos hf]
    · intro hf habs
      rw [if_neg hf, afterKey_absent _ _ habs]
      simp
    · intro hf pre post kv hleaves hkv hpre
      rw [if_neg hf, hleaves, afterKey_first _ _ _ _ hkv hpre]

/-- Witness of C9: the page after `a` of the store `{a:1, b:2, c:3}` with limit 2 starts at
`b`, and the page after `/a` of the tree with the leaves `/a`, `/b`, `/c` is `/b`, `/c`. -/
theorem getKeys_page_contract_witness :
    SortedKeys abcStore ∧
    Client.GetKeysWithPagination (pagingClient 2) (etcdRange abcStore) "a"
      = .ok ([⟨"b", "2"⟩], "b") ∧
    ClientV2.GetKeysWithPagination (pagingClientV2 2) (fun _ => .ok abcTree) "/a"
      = .ok ([⟨"/b", "2"⟩, ⟨"/c", "3"⟩], "/c") ∧
    (∃ page, Client.GetKeysWithPagination (pagingClient 2) (etcdRange abcStore) "a"
        = .ok (page, lastKey page) ∧
      (page.length : Int) ≤ (pagingClient 2).numGetKeysLimit ∧ SortedKeys page ∧
      ∃ kv, page.head? = some kv ∧ kv ∈ abcStore ∧ "a".data < kv.Key.data ∧
        ∀ kv2 ∈ abcStore, "a".data < kv2.Key.data → kv.Key.data ≤ kv2.Key.data) :=
  have h := getKeys_page_contract (pagingClient 2) abcStore "a" (by decide) (by decide)
    (by decide) (pagingClientV2 2) abcTree "/a" (by decide)
  ⟨by decide, rfl, rfl,
    h.1.elim (fun page hp =>
      ⟨page, hp.1, hp.2.1, hp.2.2.1,
        hp.2.2.2.2 (by decide) (Or.inl (by decide)) ⟨"b", "2"⟩ (by decide) (by decide)⟩)⟩

/-! ## The v3 pages from limit 2 on -/

theorem filter_gt_eq_afterKey (k : String) (store : List KV) (hs : SortedKeys store)
    (hk : k ∈ store.map (fun kv => kv.Key)) :
    store.filter (fun kv => decide (k.data < kv.Key.data)) = afterKey k store := by
  induction store with
  | nil => simp at hk
  | cons a tl ih =>
    unfold SortedKeys at hs
    rw [List.pairwise_cons] at hs
    by_cases ha : a.Key = k
    · have hall : ∀ b ∈ tl, k.data < b.Key.data := fun b hb => by rw [← ha]; exact hs.1 b hb
      have hf : tl.filter (fun kv => decide (k.data < kv.Key.data)) = tl :=
        List.filter_eq_self.2 (fun b hb => by simpa using hall b hb)
      have h2 : ¬ k.data < a.Key.data := by rw [ha]; exact lt_irrefl _
      rw [List.filter_cons, hf]
      simp [afterKey, ha, h2]
    · have hk2 : k ∈ tl.map (fun kv => kv.Key) := by
        simp only [List.map_cons, List.mem_cons] at hk
        rcases hk with h | h
        · exact absurd h.symm ha
        · exact h
      obtain ⟨b, hb, hbk⟩ := List.mem_map.1 hk2
      have h2 : ¬ k.data < a.Key.data := by
        have := hs.1 b hb
        rw [hbk] at this
        exact lt_asymm this
      rw [List.filter_cons]
      simp only [h2, decide_False, Bool.false_eq_true, if_false, afterKey, if_neg ha]
      exact ih hs.2 hk2

/-- The enumeration of the v3 backend is complete from limit 2 on, when every key of the store
is under the root prefix: the pages then yield the store, each record once, in ascending key
order. The first page has `numGetKeysLimit` records, the later ones one less. -/
theorem v3_pagination_enumerates_from_limit_two (c : Client) (store : List KV) (fuel : Nat)
    (hs : SortedKeys store) (hne : ∀ kv ∈ store, kv.Key ≠ "")
    (hroot : ∀ kv ∈ store, c.rootPrefixEtcd.data.isPrefixOf kv.Key.data = true)
    (hlimit : 2 ≤ c.numGetKeysLimit) (hfuel : store.length + 1 ≤ fuel) :
    ∃ pages, paginate (Client.GetKeysWithPagination c (etcdRange store)) fuel ""
        = some pages ∧
      recordsOf pages = store := by
  have hd : (store.map (fun kv => kv.Key)).Nodup := by
    unfold SortedKeys at hs
    unfold List.Nodup
    rw [List.pairwise_map]
    exact hs.imp (fun {a b} h heq => by rw [heq] at h; exact lt_irrefl _ h)
  refine paginate_chunks store c.numGetKeysLimit.toNat (c.numGetKeysLimit.toNat - 1)
    (by omega) (by omega) hd hne _ ?_ ?_ fuel [] store "" rfl hfuel (Or.inl ⟨rfl, rfl⟩)
  · rw [getKeys_eq_v3 c store "" (by omega)]
    have h1 : store.filter (fun kv =>
        if ("" : String) = "" then c.rootPrefixEtcd.data.isPrefixOf kv.Key.data
        else decide (("" : String).data ≤ kv.Key.data)) = store :=
      List.filter_eq_self.2 (fun b hb => by simpa using hroot b hb)
    have h2 : (store.take c.numGetKeysLimit.toNat).filter
        (fun kv => decide (kv.Key ≠ "")) = store.take c.numGetKeysLimit.toNat :=
      List.filter_eq_self.2
        (fun b hb => by simpa using hne b (List.mem_of_mem_take hb))
    rw [h1, h2]
  · intro k hk hk0
    rw [getKeys_eq_v3 c store k (by omega)]
    simp only [hk0, if_false]
    rw [v3_window k store hs c.numGetKeysLimit.toNat (by omega), if_pos hk,
      filter_gt_eq_afterKey k store hs hk]

/-! ## The facade: writes reach the index only after etcd (C12, C13) -/

theorem putKey_of_etcd_error (d : DefaultEtcdfinder) (key value : String) (err : Error)
    (h : d.etcdClt.Put key value = .error err) :
    (d.PutKey key value).result = some err ∧ (d.PutKey key value).calls = [] := by
  simp [DefaultEtcdfinder.PutKey, h]

theorem putKey_of_etcd_ok (d : DefaultEtcdfinder) (key value returned : String)
    (h : d.etcdClt.Put key value = .ok returned) :
    (d.PutKey key value).result = d.kvStore.Put returned value ∧
    (d.PutKey key value).calls = [.Put returned value] := by
  simp [DefaultEtcdfinder.PutKey, h]

theorem deleteKey_of_etcd_error (d : DefaultEtcdfinder) (key : String) (err : Error)
    (h : d.etcdClt.Delete key = .error err) :
    (d.DeleteKey key).result = some err ∧ (d.DeleteKey key).calls = [] := by
  simp [DefaultEtcdfinder.DeleteKey, h]

theorem deleteKey_of_etcd_ok (d : DefaultEtcdfinder) (key returned : String)
    (h : d.etcdClt.Delete key = .ok returned) :
    (d.DeleteKey key).result = d.kvStore.Delete returned ∧
    (d.DeleteKey key).calls = [.Delete returned] := by
  simp [DefaultEtcdfinder.DeleteKey, h]

/-- C12: if the etcd client's `Put` returns an error then `PutKey` returns that error and makes
no call on the index, and if the etcd client's `Delete` returns an error then `DeleteKey`
returns that error and makes no call on the index. Every call that `PutKey` or `DeleteKey`
makes on the index is the single `Put` (with the same value) or `Delete` made after the etcd
client returned without error, on the key the etcd client returned; `GetKey` makes no call on
the index and `SearchKeys` only the call of `Search`. -/
theorem facade_writes_index_only_after_etcd (d : DefaultEtcdfinder)
    (key value searchStr : String) :
    (∀ err, d.etcdClt.Put key value = .error err →
      (d.PutKey key value).result = some err ∧ (d.PutKey key value).calls = []) ∧
    (∀ err, d.etcdClt.Delete key = .error err →
      (d.DeleteKey key).result = some err ∧ (d.DeleteKey key).calls = []) ∧
    (∀ call ∈ (d.PutKey key value).calls, ∃ returned,
      d.etcdClt.Put key value = .ok returned ∧ call = .Put returned value ∧
      (d.PutKey key value).calls = [call]) ∧
    (∀ call ∈ (d.DeleteKey key).calls, ∃ returned,
      d.etcdClt.Delete key = .ok returned ∧ call = .Delete returned ∧
      (d.DeleteKey key).calls = [call]) ∧
    (d.GetKey key).calls = [] ∧
    (d.SearchKeys searchStr).calls = [.Search searchStr] := by
  refine ⟨putKey_of_etcd_error d key value, deleteKey_of_etcd_error d key, ?_, ?_, rfl, ?_⟩
  · intro call hc
    cases h : d.etcdClt.Put key value with
    | error err => rw [(putKey_of_etcd_error d key value err h).2] at hc; simp at hc
    | ok returned =>
      rw [(putKey_of_etcd_ok d key value returned h).2] at hc ⊢
      simp at hc
      exact ⟨returned, rfl, hc, by rw [hc]⟩
  · intro call hc
    cases h : d.etcdClt.Delete key with
    | error err => rw [(deleteKey_of_etcd_error d key err h).2] at hc; simp at hc
    | ok returned =>
      rw [(deleteKey_of_etcd_ok d key returned h).2] at hc ⊢
      simp at hc
      exact ⟨returned, rfl, hc, by rw [hc]⟩
  · unfold DefaultEtcdfinder.SearchKeys
    cases d.kvStore.Search searchStr <;> rfl

theorem facade_writes_index_only_after_etcd_witness :
    (unreachableFacade.PutKey "/k" "v").result
        = some (.wrapped "failed to put key" deadlineExceeded) ∧
    (unreachableFacade.PutKey "/k" "v").calls = [] :=
  (facade_writes_index_only_after_etcd unreachableFacade "/k" "v" "").1 _ rfl


theorem deleteKey_v3_hands_key_to_index (m : KeySpace) (kvStore : KVStore) (key : String)
    (hk : key ≠ "") :
    (DefaultEtcdfinder.DeleteKey { etcdClt := Client.baseClient m, kvStore := kvStore }
      key).calls = [.Delete key] := by
  simp only [DefaultEtcdfinder.DeleteKey, Client.baseClient, Client.Delete, etcdV3Delete,
    if_neg hk]
  cases m key <;> rfl

theorem deleteKey_v2_hands_key_to_index (canon : String → List String) (store : V2Store)
    (kvStore : KVStore) (key value : String) (hp : canon key ≠ [])
    (hw : store.walk (ancestors (canon key)) = none)
    (h : store (canon key) = some (.file value)) :
    (DefaultEtcdfinder.DeleteKey
      { etcdClt := ClientV2.baseClient canon store, kvStore := kvStore } key).calls
      = [.Delete (pathOf (canon key))] := by
  simp [DefaultEtcdfinder.DeleteKey, ClientV2.baseClient, ClientV2.Delete, etcdV2Delete, hp,
    hw, h]

/-- C13: on the v2 backend `DeleteKey` of the key `/k`, absent from etcd, succeeds, yet the
call it makes on the index is `Delete` of the empty key, the key the v2 client returned, and
not of `/k`: an index that held a record for `/k` still holds it afterwards. -/
theorem deleteKey_v2_absent_key_deletes_empty_key :
    V2Store.empty (keyPath "/k") = none ∧
    emptyEtcdFacadeV2.etcdClt.Delete "/k" = .ok "" ∧
    (emptyEtcdFacadeV2.DeleteKey "/k").result = none ∧
    (emptyEtcdFacadeV2.DeleteKey "/k").calls = [.Delete ""] ∧
    ((emptyEtcdFacadeV2.DeleteKey "/k").calls.foldl IndexCall.apply staleIndex) "/k"
      = some "v" := by
  refine ⟨rfl, rfl, rfl, rfl, ?_⟩
  decide


/-! ## `HTTPStatusFromErr` (C14) -/

theorem is_custom_unique (err : Error) (c c' : String)
    (h : Error.Is err (.custom c) = true) (h' : Error.Is err (.custom c') = true) : c = c' := by
  induction err with
  | etcd text keyNotFound => simp [Error.Is] at h
  | custom code =>
    simp [Error.Is] at h h'
    rw [← h, ← h']
  | wrapped context cause ih =>
    simp [Error.Is] at h h'
    exact ih h h'
  | plain text => simp [Error.Is] at h

theorem httpStatusFromErr_cases (order : List (Error × Nat)) (err : Error) :
    (∃ p ∈ order, Error.Is err p.1 = true ∧ HTTPStatusFromErr order err = p.2) ∨
    ((∀ p ∈ order, Error.Is err p.1 = false) ∧ HTTPStatusFromErr order err = 500) := by
  induction order with
  | nil => right; simp [HTTPStatusFromErr]
  | cons p rest ih =>
    obtain ⟨e, statusCode⟩ := p
    by_cases he : Error.Is err e = true
    · left
      exact ⟨(e, statusCode), by simp, he, by simp [HTTPStatusFromErr, he]⟩
    · have hstep : HTTPStatusFromErr ((e, statusCode) :: rest) err
          = HTTPStatusFromErr rest err := by simp [HTTPStatusFromErr, he]
      rw [hstep]
      rcases ih with ⟨p, hp, hi, hs⟩ | ⟨hall, hs⟩
      · left; exact ⟨p, by simp [hp], hi, hs⟩
      · right
        refine ⟨?_, hs⟩
        intro p hp
        simp at hp
        rcases hp with rfl | hp
        · simpa using he
        · exact hall p hp

theorem statusCodeMap_entry (p : Error × Nat) (hp : p ∈ statusCodeMap) :
    ∃ c, p.1 = .custom c ∧ (Error.custom c, p.2) ∈ statusCodeMap := by
  simp [statusCodeMap] at hp
  rcases hp with rfl | rfl | rfl | rfl | rfl | rfl <;>
    exact ⟨_, rfl, by simp [statusCodeMap, ErrKeyRequired, ErrValueRequired,
      ErrMalformedSearchString, ErrKeyNotFound, ErrKeyNotPut, ErrKeyNotDeleted]⟩

theorem statusCodeMap_functional (c : String) (s s' : Nat)
    (h : (Error.custom c, s) ∈ statusCodeMap) (h' : (Error.custom c, s') ∈ statusCodeMap) :
    s = s' := by
  simp [statusCodeMap, ErrKeyRequired, ErrValueRequired,
      ErrMalformedSearchString, ErrKeyNotFound, ErrKeyNotPut, ErrKeyNotDeleted] at h h'
  rcases h with ⟨rfl, rfl⟩ | ⟨rfl, rfl⟩ | ⟨rfl, rfl⟩ | ⟨rfl, rfl⟩ | ⟨rfl, rfl⟩ | ⟨rfl, rfl⟩ <;>
    simp at h' <;> exact h'.symm

theorem httpStatusFromErr_of_is (order : List (Error × Nat)) (h : order.Perm statusCodeMap)
    (err : Error) (c : String) (s : Nat) (hc : (Error.custom c, s) ∈ statusCodeMap)
    (hi : Error.Is err (.custom c) = true) : HTTPStatusFromErr order err = s := by
  rcases httpStatusFromErr_cases order err with ⟨p, hp, hpi, hs⟩ | ⟨hall, _⟩
  · obtain ⟨c', hc1, hc2⟩ := statusCodeMap_entry p (h.mem_iff.mp hp)
    rw [hc1] at hpi
    have hcc : c' = c := is_custom_unique err c' c hpi hi
    rw [hcc] at hc2
    rw [hs]
    exact statusCodeMap_functional c p.2 s hc2 hc
  · have := hall _ (h.mem_iff.mpr hc)
    simp [hi] at this

/-- C14: whatever the order in which the status map is visited, `HTTPStatusFromErr` returns 400
for every error that is or wraps `ErrKeyRequired`, `ErrValueRequired` or
`ErrMalformedSearchString`, 404 for every error that is or wraps `ErrKeyNotFound`, and 500
for every error that is or wraps `ErrKeyNotPut` or `ErrKeyNotDeleted` and for every error
that is or wraps none of the first four. -/
theorem httpStatusFromErr_by_kind (order : List (Error × Nat))
    (h : order.Perm statusCodeMap) (err : Error) :
    ((Error.Is err ErrKeyRequired = true ∨ Error.Is err ErrValueRequired = true ∨
        Error.Is err ErrMalformedSearchString = true) → HTTPStatusFromErr order err = 400) ∧
    (Error.Is err ErrKeyNotFound = true → HTTPStatusFromErr order err = 404) ∧
    ((Error.Is err ErrKeyNotPut = true ∨ Error.Is err ErrKeyNotDeleted = true) →
        HTTPStatusFromErr order err = 500) ∧
    (¬ (Error.Is err ErrKeyRequired = true ∨ Error.Is err ErrValueRequired = true ∨
        Error.Is err ErrMalformedSearchString = true ∨ Error.Is err ErrKeyNotFound = true) →
        HTTPStatusFromErr order err = 500) := by
  refine ⟨?_, ?_, ?_, ?_⟩
  · rintro (hi | hi | hi)
    · exact httpStatusFromErr_of_is order h err _ 400 (by simp [statusCodeMap, ErrKeyRequired]) hi
    · exact httpStatusFromErr_of_is order h err _ 400
        (by simp [statusCodeMap, ErrValueRequired]) hi
    · exact httpStatusFromErr_of_is order h err _ 400
        (by simp [statusCodeMap, ErrMalformedSearchString]) hi
  · intro hi
    exact httpStatusFromErr_of_is order h err _ 404 (by simp [statusCodeMap, ErrKeyNotFound]) hi
  · rintro (hi | hi)
    · exact httpStatusFromErr_of_is order h err _ 500 (by simp [statusCodeMap, ErrKeyNotPut]) hi
    · exact httpStatusFromErr_of_is order h err _ 500
        (by simp [statusCodeMap, ErrKeyNotDeleted]) hi
  · intro hno
    rcases httpStatusFromErr_cases order err with ⟨p, hp, hpi, hs⟩ | ⟨_, hs⟩
    · have hp2 := h.mem_iff.mp hp
      rw [hs]
      simp [statusCodeMap] at hp2
      rcases hp2 with rfl | rfl | rfl | rfl | rfl | rfl
      · exact absurd (Or.inl hpi) hno
      · exact absurd (Or.inr (Or.inl hpi)) hno
      · exact absurd (Or.inr (Or.inr (Or.inl hpi))) hno
      · exact absurd (Or.inr (Or.inr (Or.inr hpi))) hno
      · rfl
      · rfl
    · exact hs

theorem httpStatusFromErr_by_kind_witness :
    statusCodeMap.reverse.Perm statusCodeMap ∧
    Error.Is (.wrapped "lookup" ErrKeyNotFound) ErrKeyNotFound = true ∧
    HTTPStatusFromErr statusCodeMap.reverse (.wrapped "lookup" ErrKeyNotFound) = 404 :=
  ⟨List.reverse_perm _, by decide,
   (httpStatusFromErr_by_kind statusCodeMap.reverse (List.reverse_perm _)
      (.wrapped "lookup" ErrKeyNotFound)).2.1 (by decide)⟩


/-! ## Cancellation before any event (C15) -/

theorem watchResponses_no_event_v3 (m : Int) (s : WatchState) (sub : List WatchResponse)
    (h : ∀ w ∈ sub, w.Events = []) :
    (Client.watchResponses m s sub).st = s ∧
    (((Client.watchResponses m s sub).ctl = .ret ∧
        ∃ cause, (Client.watchResponses m s sub).out = [.fail (.watchError cause)]) ∨
     ((Client.watchResponses m s sub).ctl ≠ .ret ∧ (Client.watchResponses m s sub).out = [])) := by
  induction sub with
  | nil => simp [Client.watchResponses]
  | cons w ws ih =>
    have hw : w.Events = [] := h w (by simp)
    have ih2 := ih (fun w' hw' => h w' (by simp [hw']))
    cases he : w.Err with
    | some cause => simp [Client.watchResponses, he]
    | none =>
      by_cases hd : s.watchRevisionDiscrepancy = true
      · simp [Client.watchResponses, he, hw, Client.watchEvents, hd]
      · simp only [Client.watchResponses, he, hw, Client.watchEvents]
        simp [hd]
        exact ih2

theorem watchLoop_no_event_v3 (m : Int) (s : WatchState) (subs : List (List WatchResponse))
    (h : ∀ sub ∈ subs, ∀ w ∈ sub, w.Events = []) :
    (Client.watchLoop m s subs).ctl = .ret →
      emittedErrors (Client.watchLoop m s subs).out ≠ [] := by
  induction subs with
  | nil => simp [Client.watchLoop]
  | cons sub subs ih =>
    have h1 := watchResponses_no_event_v3 m s sub (h sub (by simp))
    have ih2 := ih (fun sub' hs' => h sub' (by simp [hs']))
    obtain ⟨hst, hcase⟩ := h1
    rcases hcase with ⟨hret, cause, hout⟩ | ⟨hnr, hout⟩
    · intro _
      simp [Client.watchLoop, hret, hout, emittedErrors]
    · intro hr
      simp only [Client.watchLoop, if_neg hnr, hst, hout] at hr ⊢
      have := ih2 hr
      simpa [emittedErrors] using this

theorem watch_v2_cancel_without_event_returns (c : ClientV2) (cause : String)
    (rest : List NextResult) (subs : List (List NextResult)) :
    ClientV2.Watch c ((.err cause true :: rest) :: subs) =
      { out := [.subscribe 0],
        st := { ExpectedModIndex := c.ExpectedModIndex, watchIndexDiscrepancy := false,
                consecutiveFailureCount := 0 },
        ctl := .ret } := by
  simp [ClientV2.Watch, ClientV2.watchLoop, ClientV2.watchResponses, ClientV2.watchRequest]

/-- C15: on the v3 backend the producer does not terminate when the context is cancelled
before any event was observed. A cancelled subscription is a channel closed without a
response; however many such subscriptions the producer has seen, it has emitted nothing but
subscription requests and is still running, with its channels open. -/
theorem watch_v3_cancel_without_event_never_returns (c : Client) (n : Nat) :
    Client.Watch c (List.replicate n []) =
      { out := List.replicate (n + 1) (.subscribe none),
        st := { ExpectedModRevision := c.ExpectedModRevision, watchRevisionDiscrepancy := false,
                consecutiveFailureCount := 0 },
        ctl := .next } := by
  unfold Client.Watch
  induction n with
  | zero => simp [Client.watchLoop, Client.watchRequest]
  | succ n ih =>
    simp only [List.replicate_succ, Client.watchLoop, Client.watchResponses]
    simp [ih, Client.watchRequest, List.replicate_succ]


/-! ## The constructors refuse a pagination limit that is not positive (C18) -/

/-- C18: for every pagination limit `≤ 0` and every value of the other arguments, also of the
answer the etcd client library would give, `NewClientV3` and `NewClientV2` return the error
`numGetKeysLimit must be greater than 0` and no client, and have not called the `New` of the
etcd client library. -/
theorem constructors_reject_nonpositive_limit (clientNew : List String → Option Error)
    (endpoints : List String) (watchEventChannelSize : Int) (rootPrefixEtcd : String)
    (numGetKeysLimit etcdAuditPeriod maxWatchRetries : Int) (h : numGetKeysLimit ≤ 0) :
    (NewClientV3 clientNew endpoints watchEventChannelSize rootPrefixEtcd numGetKeysLimit
        etcdAuditPeriod maxWatchRetries).result
      = .error (.plain "numGetKeysLimit must be greater than 0") ∧
    (NewClientV3 clientNew endpoints watchEventChannelSize rootPrefixEtcd numGetKeysLimit
        etcdAuditPeriod maxWatchRetries).dialled = [] ∧
    (NewClientV2 clientNew endpoints watchEventChannelSize rootPrefixEtcd numGetKeysLimit
        etcdAuditPeriod maxWatchRetries).result
      = .error (.plain "numGetKeysLimit must be greater than 0") ∧
    (NewClientV2 clientNew endpoints watchEventChannelSize rootPrefixEtcd numGetKeysLimit
        etcdAuditPeriod maxWatchRetries).dialled = [] := by
  simp [NewClientV3, NewClientV2, h]

theorem constructors_reject_nonpositive_limit_witness :
    (0 : Int) ≤ 0 ∧
    (NewClientV3 (fun _ => none) ["localhost:2379"] 100 "/" 0 60 3).result
      = .error (.plain "numGetKeysLimit must be greater than 0") ∧
    (NewClientV3 (fun _ => none) ["localhost:2379"] 100 "/" 0 60 3).dialled = [] ∧
    (NewClientV2 (fun _ => none) ["localhost:2379"] 100 "/" 0 60 3).result
      = .error (.plain "numGetKeysLimit must be greater than 0") ∧
    (NewClientV2 (fun _ => none) ["localhost:2379"] 100 "/" 0 60 3).dialled = [] :=
  ⟨le_refl 0, constructors_reject_nonpositive_limit (fun _ => none) ["localhost:2379"] 100 "/"
    0 60 3 (le_refl 0)⟩

/-! ## `SearchKeys` (C19) -/

theorem foldl_append_key (kvs : List KV) (acc : List String) :
    kvs.foldl (fun keys kv => keys ++ [kv.Key]) acc = acc ++ kvs.map (fun kv => kv.Key) := by
  induction kvs generalizing acc with
  | nil => simp
  | cons kv kvs ih => simp [ih]

/-- C19: if the index's `Search` succeeds with the records `r`, `SearchKeys` returns the keys
of `r`, one per record and in the same order, and nothing else; if `Search` fails, `SearchKeys`
returns that error and no keys. -/
theorem searchKeys_returns_keys_in_order (d : DefaultEtcdfinder) (searchStr : String) :
    (∀ r, d.kvStore.Search searchStr = .ok r →
      (d.SearchKeys searchStr).result = .ok (r.map (fun kv => kv.Key))) ∧
    (∀ err, d.kvStore.Search searchStr = .error err →
      (d.SearchKeys searchStr).result = .error err) := by
  constructor
  · intro r h
    simp [DefaultEtcdfinder.SearchKeys, h, foldl_append_key]
  · intro err h
    simp [DefaultEtcdfinder.SearchKeys, h]

theorem searchKeys_returns_keys_in_order_witness :
    (searchFacade.SearchKeys "/a").result = .ok ["/a/x", "/a/y"] :=
  (searchKeys_returns_keys_in_order searchFacade "/a").1 _ rfl


/-! ## Unknown v2 action codes and the expected index (C20) -/

theorem toWatchEvent_none_v2 (a k v : String) (h : ¬ ClientV2.knownAction a) :
    ClientV2.toWatchEvent a k v = none := by
  unfold ClientV2.knownAction at h
  unfold ClientV2.toWatchEvent
  split_ifs with h1 h2
  · exact absurd (by tauto) h
  · exact absurd (by tauto) h
  · rfl

/-- C20, as it stands, fails: the producer expects index 8 and reads an event with the action
code `get` at index 8; it delivers nothing, and the expected index afterwards is 9, not 8. -/
theorem watch_v2_unknown_action_advances_expected_index :
    ¬ ClientV2.knownAction getAtEight.Action ∧
    expectingEight.ExpectedModIndex = 8 ∧
    (ClientV2.watchResponse 3 expectingEight getAtEight).out = [] ∧
    (ClientV2.watchResponse 3 expectingEight getAtEight).st.ExpectedModIndex = 9 := by
  refine ⟨by decide, rfl, ?_, ?_⟩ <;> decide

/-- C20 (amended): in the v2 watcher an event whose action code is outside the set of set, create,
update, compareAndSwap, delete, expire and compareAndDelete is skipped (not delivered). When
its modified index is the expected one (or none is expected yet), the expected cursor is
advanced over it: the expected modified index afterwards is its modified index plus one (in
`uint64`); when its modified index differs from the expected one, the expected modified index
afterwards equals its value before. -/
theorem watch_v2_unknown_action_skipped (m : Int) (s : WatchStateV2) (resp : Response)
    (key : String) (dir : Bool) (value : String) (idx : Nat) (nodes : List Node)
    (hn : resp.Node = .mk key dir value idx nodes)
    (ha : ¬ ClientV2.knownAction resp.Action) :
    deliveredEvents (ClientV2.watchResponse m s resp).out = [] ∧
    (idx = s.ExpectedModIndex ∨ s.ExpectedModIndex = 0 →
      (ClientV2.watchResponse m s resp).out = [] ∧
      (ClientV2.watchResponse m s resp).ctl = .next ∧
      (ClientV2.watchResponse m s resp).st.ExpectedModIndex = wrapUint64 (idx + 1)) ∧
    (idx ≠ s.ExpectedModIndex ∧ s.ExpectedModIndex ≠ 0 →
      (ClientV2.watchResponse m s resp).st.ExpectedModIndex = s.ExpectedModIndex) := by
  have hnone := toWatchEvent_none_v2 resp.Action key value ha
  by_cases h : idx = (ClientV2.initExpected s idx).ExpectedModIndex
  · have hr := watchResponse_match_v2 m s resp key dir value idx nodes hn h
    rw [hnone] at hr
    simp only [] at hr
    rw [hr]
    refine ⟨rfl, fun _ => ⟨rfl, rfl, rfl⟩, ?_⟩
    rintro ⟨h1, h2⟩
    exfalso
    apply h1
    rw [h]
    simp [ClientV2.initExpected, h2]
  · obtain ⟨h0, hne, hr⟩ := watchResponse_mismatch_v2 m s resp key dir value idx nodes hn h
    rw [hr]
    refine ⟨?_, ?_, ?_⟩
    · split_ifs <;> simp [deliveredEvents]
    · rintro (h1 | h1)
      · exact absurd h1 hne
      · omega
    · intro _
      split_ifs <;> rfl

theorem watch_v2_unknown_action_skipped_witness :
    getAtEight.Node = .mk "/k" false "v" 8 [] ∧
    ¬ ClientV2.knownAction getAtEight.Action ∧
    deliveredEvents (ClientV2.watchResponse 3 expectingEight getAtEight).out = [] ∧
    (ClientV2.watchResponse 3 expectingEight getAtEight).st.ExpectedModIndex
      = wrapUint64 (8 + 1) :=
  ⟨rfl, by decide,
   (watch_v2_unknown_action_skipped 3 expectingEight getAtEight "/k" false "v" 8 [] rfl
      (by decide)).1,
   ((watch_v2_unknown_action_skipped 3 expectingEight getAtEight "/k" false "v" 8 [] rfl
      (by decide)).2.1 (Or.inl rfl)).2.2⟩


/-! ## The v2 page against its reference definition (C21) -/

theorem afterKey_eq_dropWhile (fromKey : String) (l : List KV) :
    afterKey fromKey l = (l.dropWhile (fun kv => decide (kv.Key ≠ fromKey))).drop 1 := by
  induction l with
  | nil => simp [afterKey]
  | cons kv l ih =>
    by_cases hk : kv.Key = fromKey
    · simp [afterKey, List.dropWhile, hk]
    · simp [afterKey, List.dropWhile, hk, ih]

/-- C21: for the v2 backend, every node tree that etcd answers with, every `fromKey` and every
limit (in particular every limit `≥ 1`), `GetKeysWithPagination` succeeds and its page equals
the reference page: the first `limit` leaves in depth-first order when `fromKey` is empty,
otherwise the first `limit` leaves after the first leaf with key `fromKey`, none when no leaf
has that key. The `nextKey` returned with it is the key of its last record. -/
theorem v2_page_refines_reference (c : ClientV2) (get : String → Except Error Node)
    (tree : Node) (fromKey : String) (h : get c.rootPrefixEtcd = .ok tree) :
    ClientV2.GetKeysWithPagination c get fromKey =
      .ok (referencePageV2 c.numGetKeysLimit fromKey tree,
           lastKey (referencePageV2 c.numGetKeysLimit fromKey tree)) := by
  have hsame : ClientV2.GetKeysWithPagination c get fromKey =
      ClientV2.GetKeysWithPagination c (fun _ => .ok tree) fromKey := by
    simp [ClientV2.GetKeysWithPagination, h]
  rw [hsame, getKeys_eq_v2]
  unfold referencePageV2
  by_cases hf : fromKey = ""
  · simp [hf]
  · simp only [hf, if_false, afterKey_eq_dropWhile]

theorem v2_page_refines_reference_witness :
    ClientV2.GetKeysWithPagination (pagingClientV2 2) (fun _ => .ok abcTree) "/a" =
      .ok ([⟨"/b", "2"⟩, ⟨"/c", "3"⟩], "/c") :=
  v2_page_refines_reference (pagingClientV2 2) (fun _ => .ok abcTree) abcTree "/a" rfl


/-! ## The v2 liveness probe (C22) -/

theorem containsChars_iff_infix (s substr : List Char) :
    containsChars s substr = true ↔ substr <:+: s := by
  induction s with
  | nil =>
    cases substr with
    | nil => simp [containsChars]
    | cons a l => simp [containsChars, List.isPrefixOf]
  | cons c s ih =>
    simp only [containsChars, Bool.or_eq_true, ih, List.isPrefixOf_iff_prefix]
    rw [List.infix_cons_iff]

/-- C22: the v2 liveness probe returns an error if and only if the read of the sentinel key
returns an error that is not key-not-found and whose text contains `connection` or `timeout`;
the error it returns then wraps that error. A key-not-found error, no error, and every other
error make the probe succeed; so does the error with the text `context deadline exceeded`. -/
theorem checkConnection_fails_iff (get : String → Option Error) :
    ((ClientV2.checkConnection get).isSome = true ↔
      ∃ err, get "/__etcdfinder_health_check__" = some err ∧ err.isKeyNotFound = false ∧
        (stringsContains err.text "connection" = true ∨
         stringsContains err.text "timeout" = true)) ∧
    (∀ failure, ClientV2.checkConnection get = some failure →
      ∃ err, get "/__etcdfinder_health_check__" = some err ∧
        failure = .wrapped "failed to connect to etcd v2" err) ∧
    ClientV2.checkConnection (fun _ => some deadlineExceeded) = none ∧
    ClientV2.checkConnection (fun _ => some etcdV2KeyNotFound) = none ∧
    ClientV2.checkConnection (fun _ => none) = none := by
  refine ⟨?_, ?_, by decide, by decide, rfl⟩
  · unfold ClientV2.checkConnection
    cases hg : get "/__etcdfinder_health_check__" with
    | none => simp
    | some err =>
      cases hk : err.isKeyNotFound <;> simp [hk]
  · intro failure hf
    unfold ClientV2.checkConnection at hf
    cases hg : get "/__etcdfinder_health_check__" with
    | none => simp [hg] at hf
    | some err =>
      rw [hg] at hf
      simp only [] at hf
      split_ifs at hf
      · exact ⟨err, rfl, by simpa using hf.symm⟩

theorem checkConnection_fails_iff_witness :
    (ClientV2.checkConnection (fun _ => some connectionRefused)).isSome = true :=
  (checkConnection_fails_iff (fun _ => some connectionRefused)).1.mpr
    ⟨connectionRefused, rfl, rfl, Or.inl (by decide)⟩

/-! ## `HTTPStatusFromErr` does not depend on the order of the visit (C23) -/

/-- C23: every error is a linear wrap chain (each error wraps at most one other). For each
of them at most one of the six errors of `statusCodeMap` passes `errors.Is`, and
`HTTPStatusFromErr` returns the same status in whichever order the map is visited. -/
theorem httpStatusFromErr_order_independent (err : Error) :
    (∀ p ∈ statusCodeMap, ∀ q ∈ statusCodeMap,
      Error.Is err p.1 = true → Error.Is err q.1 = true → p = q) ∧
    (∀ order order2 : List (Error × Nat),
      order.Perm statusCodeMap → order2.Perm statusCodeMap →
      HTTPStatusFromErr order err = HTTPStatusFromErr order2 err) := by
  constructor
  · intro p hp q hq hip hiq
    obtain ⟨c, hc1, hc2⟩ := statusCodeMap_entry p hp
    obtain ⟨c2, hd1, hd2⟩ := statusCodeMap_entry q hq
    rw [hc1] at hip
    rw [hd1] at hiq
    have hcc : c = c2 := is_custom_unique err c c2 hip hiq
    subst hcc
    have hs : p.2 = q.2 := statusCodeMap_functional c p.2 q.2 hc2 hd2
    exact Prod.ext (by rw [hc1, hd1]) hs
  · intro order order2 h h2
    by_cases hex : ∃ p ∈ statusCodeMap, Error.Is err p.1 = true
    · obtain ⟨p, hp, hip⟩ := hex
      obtain ⟨c, hc1, hc2⟩ := statusCodeMap_entry p hp
      rw [hc1] at hip
      rw [httpStatusFromErr_of_is order h err c p.2 hc2 hip,
        httpStatusFromErr_of_is order2 h2 err c p.2 hc2 hip]
    · have hnone : ∀ (o : List (Error × Nat)), o.Perm statusCodeMap →
          HTTPStatusFromErr o err = 500 := by
        intro o ho
        rcases httpStatusFromErr_cases o err with ⟨p, hp, hip, _⟩ | ⟨_, hs⟩
        · exact absurd ⟨p, ho.mem_iff.mp hp, hip⟩ hex
        · exact hs
      rw [hnone order h, hnone order2 h2]

theorem httpStatusFromErr_order_independent_witness :
    HTTPStatusFromErr statusCodeMap (.wrapped "lookup" ErrKeyNotFound)
      = HTTPStatusFromErr statusCodeMap.reverse (.wrapped "lookup" ErrKeyNotFound) :=
  (httpStatusFromErr_order_independent (.wrapped "lookup" ErrKeyNotFound)).2
    statusCodeMap statusCodeMap.reverse (List.Perm.refl _) (List.reverse_perm _)


/-! ## The v3 discrepancy flag is never cleared (C24) -/

theorem watchEvent_flag_v3 (m : Int) (s : WatchState) (e : Event)
    (h : s.watchRevisionDiscrepancy = true) :
    (Client.watchEvent m s e).st.watchRevisionDiscrepancy = true := by
  simp only [Client.watchEvent, Client.initExpected, Client.onMismatch, Client.onMatch]
  split_ifs <;> simp [h]

theorem watchEvents_flag_v3 (m : Int) (es : List Event) : ∀ (s : WatchState),
    s.watchRevisionDiscrepancy = true →
    (Client.watchEvents m s es).st.watchRevisionDiscrepancy = true := by
  induction es with
  | nil => intro s h; simpa [Client.watchEvents] using h
  | cons e es ih =>
    intro s h
    have h1 := watchEvent_flag_v3 m s e h
    simp only [Client.watchEvents]
    split_ifs
    · exact ih _ h1
    · exact h1

theorem watchResponses_abandon_v3 (m : Int) (s : WatchState) (w : WatchResponse)
    (ws : List WatchResponse) (h : s.watchRevisionDiscrepancy = true) :
    Client.watchResponses m s (w :: ws) = Client.watchResponses m s [w] ∧
    (Client.watchResponses m s (w :: ws)).ctl ≠ .next ∧
    (Client.watchResponses m s (w :: ws)).st.watchRevisionDiscrepancy = true := by
  have hf := watchEvents_flag_v3 m w.Events s h
  cases he : w.Err with
  | some cause => simp [Client.watchResponses, he, h]
  | none =>
    simp only [Client.watchResponses, he]
    by_cases hr : (Client.watchEvents m s w.Events).ctl = .ret
    · simp [hr, hf]
    · simp [hr, hf]

theorem watchLoop_flag_v3 (m : Int) (subs : List (List WatchResponse)) : ∀ (s : WatchState),
    s.watchRevisionDiscrepancy = true →
    (Client.watchLoop m s subs).st.watchRevisionDiscrepancy = true := by
  induction subs with
  | nil => intro s h; simpa [Client.watchLoop] using h
  | cons sub subs ih =>
    intro s h
    have hsub : (Client.watchResponses m s sub).st.watchRevisionDiscrepancy = true := by
      cases sub with
      | nil => simpa [Client.watchResponses] using h
      | cons w ws => exact (watchResponses_abandon_v3 m s w ws h).2.2
    simp only [Client.watchLoop]
    split_ifs
    · exact hsub
    · exact ih _ hsub

theorem watchLoop_take_one_v3 (m : Int) (subs : List (List WatchResponse)) :
    ∀ (s : WatchState), s.watchRevisionDiscrepancy = true →
    Client.watchLoop m s subs = Client.watchLoop m s (subs.map (List.take 1)) := by
  induction subs with
  | nil => intro s _; rfl
  | cons sub subs ih =>
    intro s h
    have hsub : Client.watchResponses m s sub = Client.watchResponses m s (sub.take 1) := by
      cases sub with
      | nil => rfl
      | cons w ws => simpa using (watchResponses_abandon_v3 m s w ws h).1
    have hflag : (Client.watchResponses m s (sub.take 1)).st.watchRevisionDiscrepancy
        = true := by
      rw [← hsub]
      cases sub with
      | nil => simpa [Client.watchResponses] using h
      | cons w ws => exact (watchResponses_abandon_v3 m s w ws h).2.2
    simp only [Client.watchLoop, List.map_cons, hsub]
    rw [ih _ hflag]

theorem watchLoop_head_flagged_v3 (m : Int) (s : WatchState)
    (subs : List (List WatchResponse)) (h : s.watchRevisionDiscrepancy = true) :
    (Client.watchLoop m s subs).out.head? =
      some (.subscribe (some s.ExpectedModRevision)) := by
  cases subs with
  | nil => simp [Client.watchLoop, Client.watchRequest, h]
  | cons sub subs =>
    simp only [Client.watchLoop]
    split_ifs <;> simp [Client.watchRequest, h]


theorem watchEvents_matching_v3 (m : Int) (es : List Event) : ∀ (s : WatchState) (y : Int),
    (∀ e ∈ es, ValidRevision e.ModRevision ∧ e.ctxDone = false) →
    AcceptedFrom (-1) s.ExpectedModRevision (es.map (fun e => e.ModRevision)) y →
    (Client.watchEvents m s es).out =
        es.map (fun e => .deliver e.ModRevision (Client.toWatchEvent e)) ∧
    (Client.watchEvents m s es).ctl = .next ∧
    (Client.watchEvents m s es).st.ExpectedModRevision = y ∧
    (Client.watchEvents m s es).st.watchRevisionDiscrepancy = s.watchRevisionDiscrepancy := by
  induction es with
  | nil =>
    intro s y _ ha
    simp only [List.map_nil, AcceptedFrom] at ha
    subst ha
    simp [Client.watchEvents]
  | cons e es ih =>
    intro s y hv ha
    simp only [List.map_cons, AcceptedFrom] at ha
    have hve := hv e (List.mem_cons_self _ _)
    have hm : e.ModRevision = (Client.initExpected s e).ExpectedModRevision := by
      unfold Client.initExpected
      split_ifs with h1
      · rfl
      · rcases ha.1 with h | h
        · exact absurd h h1
        · exact h
    have hstep := watchEvent_match_v3 m s e hm
    rw [hve.2] at hstep
    simp only [Bool.false_eq_true, if_false] at hstep
    rw [wrapInt64_succ_of_valid _ hve.1] at hstep
    have h2 := ih ⟨e.ModRevision + 1, s.watchRevisionDiscrepancy, 0⟩ y
      (fun x hx => hv x (List.mem_cons_of_mem _ hx)) ha.2.2
    simp only [Client.watchEvents, hstep, if_true]
    obtain ⟨h2a, h2b, h2c, h2d⟩ := h2
    exact ⟨by simp [h2a], h2b, h2c, h2d⟩

theorem watchResponses_kept_v3 (m : Int) (ws : List WatchResponse) :
    ∀ (s : WatchState) (y : Int),
    s.watchRevisionDiscrepancy = false →
    (∀ w ∈ ws, w.Err = none) →
    (∀ e ∈ eventsOfResponses ws, ValidRevision e.ModRevision ∧ e.ctxDone = false) →
    AcceptedFrom (-1) s.ExpectedModRevision
      ((eventsOfResponses ws).map (fun e => e.ModRevision)) y →
    (Client.watchResponses m s ws).out =
        (eventsOfResponses ws).map (fun e => .deliver e.ModRevision (Client.toWatchEvent e)) ∧
    (Client.watchResponses m s ws).ctl = .next ∧
    (Client.watchResponses m s ws).st.ExpectedModRevision = y := by
  induction ws with
  | nil =>
    intro s y _ _ _ ha
    simp only [eventsOfResponses, List.map_nil, AcceptedFrom] at ha
    subst ha
    simp [Client.watchResponses, eventsOfResponses]
  | cons w ws ih =>
    intro s y hd he hv ha
    simp only [eventsOfResponses, List.map_append] at ha hv ⊢
    obtain ⟨z, hz1, hz2⟩ := acceptedFrom_split _ _ _ _ _ ha
    obtain ⟨h1a, h1b, h1c, h1d⟩ := watchEvents_matching_v3 m w.Events s z
      (fun e h => hv e (List.mem_append_left _ h)) hz1
    rw [hd] at h1d
    rw [← h1c] at hz2
    obtain ⟨h2a, h2b, h2c⟩ := ih (Client.watchEvents m s w.Events).st y h1d
      (fun x hx => he x (List.mem_cons_of_mem _ hx))
      (fun e h => hv e (List.mem_append_right _ h)) hz2
    simp only [Client.watchResponses, he w (List.mem_cons_self _ _), h1b, h1d]
    simp [h1a, h2a, h2b, h2c]

theorem watchLoop_flagged_matching_v3 (m : Int) (subs : List (List WatchResponse)) :
    ∀ (s : WatchState) (y : Int),
    s.watchRevisionDiscrepancy = true →
    (∀ w ∈ firstBatches subs, w.Err = none) →
    (∀ e ∈ eventsOfResponses (firstBatches subs),
      ValidRevision e.ModRevision ∧ e.ctxDone = false) →
    AcceptedFrom (-1) s.ExpectedModRevision
      ((eventsOfResponses (firstBatches subs)).map (fun e => e.ModRevision)) y →
    deliveredEvents (Client.watchLoop m s subs).out =
        (eventsOfResponses (firstBatches subs)).map Client.toWatchEvent ∧
    emittedErrors (Client.watchLoop m s subs).out = [] ∧
    (Client.watchLoop m s subs).ctl = .next ∧
    (Client.watchLoop m s subs).st.ExpectedModRevision = y := by
  induction subs with
  | nil =>
    intro s y _ _ _ ha
    simp only [firstBatches, eventsOfResponses, List.map_nil, AcceptedFrom] at ha
    subst ha
    simp [Client.watchLoop, firstBatches, eventsOfResponses, deliveredEvents, emittedErrors]
  | cons sub subs ih =>
    intro s y hd he hv ha
    cases sub with
    | nil =>
      simp only [firstBatches, List.take_nil, List.nil_append] at he hv ha ⊢
      obtain ⟨h2a, h2b, h2c, h2d⟩ := ih s y hd he hv ha
      simp only [Client.watchLoop, Client.watchResponses]
      simp [deliveredEvents, emittedErrors, h2a, h2b, h2c, h2d]
    | cons w ws =>
      have htake : List.take 1 (w :: ws) = [w] := by simp
      simp only [firstBatches, htake, List.singleton_append, eventsOfResponses,
        List.map_append] at he hv ha ⊢
      obtain ⟨z, hz1, hz2⟩ := acceptedFrom_split _ _ _ _ _ ha
      obtain ⟨h1a, h1b, h1c, h1d⟩ := watchEvents_matching_v3 m w.Events s z
        (fun e h => hv e (List.mem_append_left _ h)) hz1
      rw [hd] at h1d
      rw [← h1c] at hz2
      obtain ⟨h2a, h2b, h2c, h2d⟩ := ih (Client.watchEvents m s w.Events).st y h1d
        (fun x hx => he x (List.mem_cons_of_mem _ hx))
        (fun e h => hv e (List.mem_append_right _ h)) hz2
      have hw : w.Err = none := he w (List.mem_cons_self _ _)
      have hresp : Client.watchResponses m s (w :: ws) =
          { Client.watchEvents m s w.Events with ctl := .brk } := by
        simp [Client.watchResponses, hw, h1b, h1d]
      simp only [Client.watchLoop, hresp]
      simp [deliveredEvents, emittedErrors, deliveredEvents_append, emittedErrors_append, h1a,
        deliveredEvents_map_deliver, emittedErrors_map_deliver, h2a, h2b, h2c, h2d]


/-- C24: in the v3 watcher the discrepancy flag is never cleared. From a state in which it is
set, whatever the subscriptions carry: the flag is still set afterwards; every subscription
is opened with `WithRev` of the expected revision; and the run is the run on the first
response of each subscription, the rest of a subscription is never read. In particular, when
the events of a first response were all processed, the producer goes on with a new
subscription. When the first responses carry the revisions from the expected one on, without
error and without a send pre-empted by cancellation, the events delivered are the ones
delivered by a producer that has the flag unset and reads the same responses from one
subscription that it keeps. -/
theorem watch_v3_flag_never_cleared (m : Int) (s : WatchState)
    (subs : List (List WatchResponse)) (hflag : s.watchRevisionDiscrepancy = true) :
    (Client.watchLoop m s subs).st.watchRevisionDiscrepancy = true ∧
    (Client.watchLoop m s subs).out.head? = some (.subscribe (some s.ExpectedModRevision)) ∧
    Client.watchLoop m s subs = Client.watchLoop m s (subs.map (List.take 1)) ∧
    (∀ (w : WatchResponse) (ws : List WatchResponse) (rest : List (List WatchResponse)),
      w.Err = none → (Client.watchEvents m s w.Events).ctl = .next →
      (Client.watchEvents m s w.Events).st.watchRevisionDiscrepancy = true ∧
      Client.watchLoop m s ((w :: ws) :: rest) =
        { out := .subscribe (some s.ExpectedModRevision) ::
            ((Client.watchEvents m s w.Events).out ++
              (Client.watchLoop m (Client.watchEvents m s w.Events).st rest).out),
          st := (Client.watchLoop m (Client.watchEvents m s w.Events).st rest).st,
          ctl := (Client.watchLoop m (Client.watchEvents m s w.Events).st rest).ctl }) ∧
    (∀ y : Int,
      (∀ w ∈ firstBatches subs, w.Err = none) →
      (∀ e ∈ eventsOfResponses (firstBatches subs),
        ValidRevision e.ModRevision ∧ e.ctxDone = false) →
      AcceptedFrom (-1) s.ExpectedModRevision
        ((eventsOfResponses (firstBatches subs)).map (fun e => e.ModRevision)) y →
      deliveredEvents (Client.watchLoop m s subs).out =
        deliveredEvents (Client.watchResponses m
          { s with watchRevisionDiscrepancy := false } (firstBatches subs)).out ∧
      deliveredEvents (Client.watchLoop m s subs).out =
        (eventsOfResponses (firstBatches subs)).map Client.toWatchEvent ∧
      emittedErrors (Client.watchLoop m s subs).out = []) := by
  refine ⟨watchLoop_flag_v3 m subs s hflag, watchLoop_head_flagged_v3 m s subs hflag,
    watchLoop_take_one_v3 m subs s hflag, ?_, ?_⟩
  · intro w ws rest hw hnext
    have hf := watchEvents_flag_v3 m w.Events s hflag
    refine ⟨hf, ?_⟩
    have hresp : Client.watchResponses m s (w :: ws) =
        { Client.watchEvents m s w.Events with ctl := .brk } := by
      simp [Client.watchResponses, hw, hnext, hf]
    simp only [Client.watchLoop, hresp]
    simp [Client.watchRequest, hflag]
  · intro y he hv ha
    obtain ⟨h1, h2, _, _⟩ := watchLoop_flagged_matching_v3 m subs s y hflag he hv ha
    obtain ⟨k1, _, _⟩ := watchResponses_kept_v3 m (firstBatches subs)
      { s with watchRevisionDiscrepancy := false } y rfl he hv ha
    refine ⟨?_, h1, h2⟩
    rw [h1, k1, deliveredEvents_map_deliver]

theorem watch_v3_flag_never_cleared_witness :
    flaggedAtEight.watchRevisionDiscrepancy = true ∧
    (Client.watchLoop 3 flaggedAtEight recoveredSession).st.watchRevisionDiscrepancy = true ∧
    subscriptions (Client.watchLoop 3 flaggedAtEight recoveredSession).out
      = [some 8, some 9, some 10, some 11] ∧
    deliveredCursors (Client.watchLoop 3 flaggedAtEight recoveredSession).out = [8, 9, 10] ∧
    deliveredEvents (Client.watchLoop 3 flaggedAtEight recoveredSession).out =
      deliveredEvents (Client.watchResponses 3
        { flaggedAtEight with watchRevisionDiscrepancy := false }
        (firstBatches recoveredSession)).out :=
  ⟨rfl, (watch_v3_flag_never_cleared 3 flaggedAtEight recoveredSession rfl).1,
   by decide, by decide,
   ((watch_v3_flag_never_cleared 3 flaggedAtEight recoveredSession rfl).2.2.2.2 11
      (by decide) (by decide) (by simp [AcceptedFrom, firstBatches, recoveredSession,
        eventsOfResponses, putAt, flaggedAtEight])).1⟩


/-! ## The v2 store: walks and writes -/

theorem ancestors_length : ∀ (path p : List String),
    p ∈ ancestors path → p.length < path.length
  | [], p, h => by simp [ancestors] at h
  | [_], p, h => by simp [ancestors] at h
  | c :: d :: rest, p, h => by
    simp only [ancestors, List.mem_cons, List.mem_map] at h
    rcases h with rfl | ⟨q, hq, rfl⟩
    · simp
    · have := ancestors_length (d :: rest) q hq
      simp only [List.length_cons] at this ⊢
      omega

theorem ancestors_ne (path p : List String) (h : p ∈ ancestors path) : p ≠ path := by
  intro he
  have := ancestors_length path p h
  rw [he] at this
  exact absurd this (lt_irrefl _)

theorem walk_of_dirs (store : V2Store) (l : List (List String))
    (h : ∀ p ∈ l, store p = some .dir) : store.walk l = none := by
  induction l with
  | nil => rfl
  | cons p l ih =>
    simp only [V2Store.walk, h p (List.mem_cons_self _ _)]
    exact ih (fun q hq => h q (List.mem_cons_of_mem _ hq))

theorem walk_congr (s1 s2 : V2Store) (l : List (List String))
    (h : ∀ p ∈ l, s1 p = s2 p) : s1.walk l = s2.walk l := by
  induction l with
  | nil => rfl
  | cons p l ih =>
    simp only [V2Store.walk, h p (List.mem_cons_self _ _)]
    rw [ih (fun q hq => h q (List.mem_cons_of_mem _ hq))]

theorem walk_no_value (store : V2Store) (l : List (List String))
    (h : l.any store.holdsValue = false) :
    store.walk l = none ∨ store.walk l = some etcdV2KeyNotFound := by
  induction l with
  | nil => left; rfl
  | cons p l ih =>
    simp only [List.any_cons, Bool.or_eq_false_iff] at h
    cases hp : store p with
    | none => right; simp [V2Store.walk, hp]
    | some entry =>
      cases entry with
      | file value => simp [V2Store.holdsValue, hp] at h
      | dir => simpa [V2Store.walk, hp] using ih h.2

theorem walk_set (store : V2Store) (path : List String) (value : String) :
    (store.set path value).walk (ancestors path) = none := by
  apply walk_of_dirs
  intro p hp
  simp [V2Store.set, ancestors_ne path p hp, hp]

theorem walk_remove (store : V2Store) (path : List String) :
    (store.remove path).walk (ancestors path) = store.walk (ancestors path) := by
  apply walk_congr
  intro p hp
  simp [V2Store.remove, ancestors_ne path p hp]

/-! ## What a successful call of a point operation did -/

theorem put_ok_v3 (key value returned : String) (m m2 : KeySpace)
    (h : Client.Put etcdV3Put key value m = (.ok returned, m2)) :
    key ≠ "" ∧ returned = key ∧ m2 = m.put key value := by
  unfold Client.Put etcdV3Put at h
  by_cases hk : key = ""
  · simp [hk] at h
  · simp only [if_neg hk] at h
    simp only [Prod.mk.injEq, Except.ok.injEq] at h
    exact ⟨hk, h.1.symm, h.2.symm⟩

theorem put_ok_v2 (canon : String → List String) (key value returned : String)
    (store store2 : V2Store)
    (h : ClientV2.Put (etcdV2Set canon) key value store = (.ok returned, store2)) :
    canon key ≠ [] ∧ returned = pathOf (canon key) ∧
    store2 = store.set (canon key) value := by
  unfold ClientV2.Put etcdV2Set at h
  by_cases hp : canon key = []
  · simp [hp] at h
  · simp only [if_neg hp] at h
    by_cases ha : (ancestors (canon key)).any store.holdsValue = true
    · simp [ha] at h
    · simp only [if_neg ha] at h
      cases he : store (canon key) with
      | none =>
        simp only [he, Prod.mk.injEq, Except.ok.injEq] at h
        exact ⟨hp, h.1.symm, h.2.symm⟩
      | some entry =>
        cases entry with
        | file old =>
          simp only [he, Prod.mk.injEq, Except.ok.injEq] at h
          exact ⟨hp, h.1.symm, h.2.symm⟩
        | dir => simp [he] at h

theorem get_of_value_v2 (canon : String → List String) (key value : String) (store : V2Store)
    (hp : canon key ≠ []) (hw : store.walk (ancestors (canon key)) = none)
    (h : store (canon key) = some (.file value)) :
    ClientV2.Get (etcdV2Get canon) key store = (.ok value, store) := by
  simp [ClientV2.Get, etcdV2Get, hw, hp, h]

theorem get_absent_key_v3 (m : KeySpace) (key : String) (hk : key ≠ "") (h : m key = none) :
    Client.Get etcdV3Get key m = (.error ErrKeyNotFound, m) := by
  simp [Client.Get, etcdV3Get, hk, h]

theorem get_absent_key_v2 (canon : String → List String) (store : V2Store) (key : String)
    (hp : canon key ≠ []) (h : store (canon key) = none)
    (ha : (ancestors (canon key)).any store.holdsValue = false) :
    ClientV2.Get (etcdV2Get canon) key store = (.error ErrKeyNotFound, store) := by
  rcases walk_no_value store _ ha with hw | hw
  · simp [ClientV2.Get, etcdV2Get, hw, hp, h, etcdV2KeyNotFound, Error.isKeyNotFound]
  · simp [ClientV2.Get, etcdV2Get, hw, etcdV2KeyNotFound, Error.isKeyNotFound]

theorem delete_absent_key_v2 (canon : String → List String) (store : V2Store) (key : String)
    (hp : canon key ≠ []) (h : store (canon key) = none)
    (ha : (ancestors (canon key)).any store.holdsValue = false) :
    ClientV2.Delete (etcdV2Delete canon) key store = (.ok "", store) := by
  rcases walk_no_value store _ ha with hw | hw
  · simp [ClientV2.Delete, etcdV2Delete, hw, hp, h, etcdV2KeyNotFound, Error.isKeyNotFound]
  · simp [ClientV2.Delete, etcdV2Delete, hw, hp, etcdV2KeyNotFound, Error.isKeyNotFound]

theorem keyPath_examples :
    keyPath "k" = ["k"] ∧ keyPath "/k" = ["k"] ∧ keyPath "/k/" = ["k"] ∧ keyPath "" = [] ∧
    keyPath "/a//b" = ["a", "b"] ∧ keyPath "/a/./b/../c" = ["a", "c"] ∧
    pathOf (keyPath "a/b") = "/a/b" ∧ pathOf (keyPath "") = "/" := by
  decide

/-! ## Point operations: delete of an absent key (C11) -/

/-- C11: on the v3 backend `Delete` of the key `k`, which etcd does not hold, returns no error
and the key `k` itself, not the empty key string: `Client.Delete` returns the key it was given
whenever etcd reports no error, also when nothing was deleted. The v2 backend returns the
empty key string at the same input. -/
theorem v3_delete_absent_returns_key :
    KeySpace.empty "k" = none ∧
    (Client.Delete etcdV3Delete "k" KeySpace.empty).1 = .ok "k" ∧
    (Client.Delete etcdV3Delete "k" KeySpace.empty).1 ≠ .ok "" ∧
    V2Store.empty (keyPath "k") = none ∧
    (ClientV2.Delete (etcdV2Delete keyPath) "k" V2Store.empty).1 = .ok "" := by
  refine ⟨rfl, rfl, ?_, rfl, rfl⟩
  intro h
  have h2 : (Except.ok "k" : Except Error String) = .ok "" := h
  injection h2 with h3
  exact absurd h3 (by decide)

/-! ## Round trips through etcd (C16, C17) -/

/-- C16: on both backends, for every key and value and every content of etcd: when
`Put(key, value)` succeeds, `Get(key)` on the content of etcd after it succeeds and returns
`value`. The v3 `Put` succeeds for every key but the empty one and returns the key; the v2
`Put` succeeds unless the key is the root, a path above it holds a value or the key is a
directory, and returns the key as the server files it. -/
theorem get_after_put_returns_value (key value : String) :
    (∀ (m m2 : KeySpace) (returned : String),
      Client.Put etcdV3Put key value m = (.ok returned, m2) →
      (Client.Get etcdV3Get key m2).1 = .ok value) ∧
    (∀ (canon : String → List String) (store store2 : V2Store) (returned : String),
      ClientV2.Put (etcdV2Set canon) key value store = (.ok returned, store2) →
      (ClientV2.Get (etcdV2Get canon) key store2).1 = .ok value) ∧
    (∀ m : KeySpace, key ≠ "" →
      Client.Put etcdV3Put key value m = (.ok key, m.put key value)) ∧
    (∀ (canon : String → List String) (store : V2Store), canon key ≠ [] →
      (ancestors (canon key)).any store.holdsValue = false →
      store (canon key) ≠ some .dir →
      ClientV2.Put (etcdV2Set canon) key value store
        = (.ok (pathOf (canon key)), store.set (canon key) value)) := by
  refine ⟨?_, ?_, ?_, ?_⟩
  · intro m m2 returned h
    obtain ⟨hk, _, hm⟩ := put_ok_v3 key value returned m m2 h
    subst hm
    simp [Client.Get, etcdV3Get, hk, KeySpace.put]
  · intro canon store store2 returned h
    obtain ⟨hp, _, hs⟩ := put_ok_v2 canon key value returned store store2 h
    subst hs
    rw [get_of_value_v2 canon key value _ hp (walk_set store _ value)
      (by simp [V2Store.set])]
  · intro m hk
    simp [Client.Put, etcdV3Put, hk]
  · intro canon store hp ha hd
    unfold ClientV2.Put etcdV2Set
    simp only [if_neg hp, ha, Bool.false_eq_true, if_false]

theorem get_after_put_returns_value_witness :
    ClientV2.Put (etcdV2Set keyPath) "k" "v" V2Store.empty
      = (.ok "/k", V2Store.empty.set ["k"] "v") ∧
    (ClientV2.Get (etcdV2Get keyPath) "k" (V2Store.empty.set ["k"] "v")).1 = .ok "v" ∧
    (Client.Get etcdV3Get "k" (KeySpace.empty.put "k" "v")).1 = .ok "v" :=
  ⟨rfl,
   (get_after_put_returns_value "k" "v").2.1 keyPath V2Store.empty _ "/k" rfl,
   (get_after_put_returns_value "k" "v").1 KeySpace.empty _ "k" rfl⟩

/-- C17, as it stands, fails for keys that hold no value and are not plain absent keys. The
empty key: the v3 `Get` fails with the wrapped etcd error `key is not provided`, the v2 `Get`
reads the root directory and returns the empty value without error. On v2, after
`Put("/a/b", "1")` the key `/a` holds no value, it is a directory, and `Get("/a")` returns the
empty value without error; after `Put("/a", "1")` the key `/a/b` holds no value and
`Get("/a/b")` fails with the wrapped etcd error `Not a directory`. -/
theorem get_of_key_without_value_is_not_key_not_found :
    KeySpace.empty "" = none ∧
    (Client.Get etcdV3Get "" KeySpace.empty).1
      = .error (.wrapped "failed to get key" etcdV3EmptyKey) ∧
    (ClientV2.Get (etcdV2Get keyPath) "" V2Store.empty).1 = .ok "" ∧
    (ClientV2.Put (etcdV2Set keyPath) "/a/b" "1" V2Store.empty).1 = .ok "/a/b" ∧
    (ClientV2.Get (etcdV2Get keyPath) "/a"
      (ClientV2.Put (etcdV2Set keyPath) "/a/b" "1" V2Store.empty).2).1 = .ok "" ∧
    (ClientV2.Put (etcdV2Set keyPath) "/a" "1" V2Store.empty).1 = .ok "/a" ∧
    (ClientV2.Get (etcdV2Get keyPath) "/a/b"
      (ClientV2.Put (etcdV2Set keyPath) "/a" "1" V2Store.empty).2).1
      = .error (.wrapped "failed to get key" etcdV2NotADir) := by
  refine ⟨rfl, rfl, rfl, rfl, ?_, rfl, ?_⟩
  · rfl
  · rfl

/-- C17 (amended): on both backends, for every key and value and every content of etcd: when
`Put(key, value)` succeeds, the `Delete(key)` that follows succeeds, and `Get(key)` on the
content of etcd after it fails with `ErrKeyNotFound` itself, not with an error wrapping
another. More generally `Get(key)` fails with `ErrKeyNotFound` whenever the key is absent and
is not the empty key and, on v2, is not a directory (the root included) and no path above it
holds a value. -/
theorem get_after_delete_is_key_not_found (key value : String) :
    (∀ (m m1 : KeySpace) (returned : String),
      Client.Put etcdV3Put key value m = (.ok returned, m1) →
      ∃ (deleted : String) (m2 : KeySpace),
        Client.Delete etcdV3Delete key m1 = (.ok deleted, m2) ∧
        (Client.Get etcdV3Get key m2).1 = .error ErrKeyNotFound) ∧
    (∀ (canon : String → List String) (store store1 : V2Store) (returned : String),
      ClientV2.Put (etcdV2Set canon) key value store = (.ok returned, store1) →
      ∃ (deleted : String) (store2 : V2Store),
        ClientV2.Delete (etcdV2Delete canon) key store1 = (.ok deleted, store2) ∧
        (ClientV2.Get (etcdV2Get canon) key store2).1 = .error ErrKeyNotFound) ∧
    (∀ m : KeySpace, key ≠ "" → m key = none →
      (Client.Get etcdV3Get key m).1 = .error ErrKeyNotFound) ∧
    (∀ (canon : String → List String) (store : V2Store), canon key ≠ [] →
      store (canon key) = none → (ancestors (canon key)).any store.holdsValue = false →
      (ClientV2.Get (etcdV2Get canon) key store).1 = .error ErrKeyNotFound) := by
  refine ⟨?_, ?_, ?_, ?_⟩
  · intro m m1 returned h
    obtain ⟨hk, _, hm⟩ := put_ok_v3 key value returned m m1 h
    subst hm
    refine ⟨key, (m.put key value).delete key, ?_, ?_⟩
    · simp [Client.Delete, etcdV3Delete, hk, KeySpace.put]
    · rw [get_absent_key_v3 _ key hk (by simp [KeySpace.delete])]
  · intro canon store store1 returned h
    obtain ⟨hp, _, hs⟩ := put_ok_v2 canon key value returned store store1 h
    subst hs
    refine ⟨pathOf (canon key), (store.set (canon key) value).remove (canon key), ?_, ?_⟩
    · simp [ClientV2.Delete, etcdV2Delete, hp, walk_set, V2Store.set]
    · have hw : ((store.set (canon key) value).remove (canon key)).walk
          (ancestors (canon key)) = none := by
        rw [walk_remove, walk_set]
      simp [ClientV2.Get, etcdV2Get, hw, hp, V2Store.remove, etcdV2KeyNotFound,
        Error.isKeyNotFound]
  · intro m hk h
    rw [get_absent_key_v3 m key hk h]
  · intro canon store hp h ha
    rw [get_absent_key_v2 canon store key hp h ha]

theorem get_after_delete_is_key_not_found_witness :
    ClientV2.Put (etcdV2Set keyPath) "k" "v" V2Store.empty
      = (.ok "/k", V2Store.empty.set ["k"] "v") ∧
    (∃ (deleted : String) (store2 : V2Store),
      ClientV2.Delete (etcdV2Delete keyPath) "k" (V2Store.empty.set ["k"] "v")
        = (.ok deleted, store2) ∧
      (ClientV2.Get (etcdV2Get keyPath) "k" store2).1 = .error (.custom "KEY_NOT_FOUND")) ∧
    (Client.Get etcdV3Get "k" KeySpace.empty).1 = .error (.custom "KEY_NOT_FOUND") :=
  ⟨rfl,
   (get_after_delete_is_key_not_found "k" "v").2.1 keyPath V2Store.empty _ "/k" rfl,
   (get_after_delete_is_key_not_found "k" "v").2.2.1 KeySpace.empty (by decide) rfl⟩


end Etcd
